import Mathlib

/-!
# Fernschreiber: the chat list model

A shallow embedding of `src/chatlistmodel.cpp` (class `ChatListModel` and its private class
`ChatListModel::ChatData`) together with theorems about it.

Conventions of the embedding:

* `qlonglong` and `int` values are mathematical integers (`Int`); list positions are `Nat`.
  The comparator only compares, it never computes with its operands, so statements proved for
  all integers hold for all 64-bit values.
* Objects reached through `ChatData*` pointers are modelled by value.  Every pointer is owned by
  exactly one of `chatList` and `hiddenChats`, so updating "the object" is updating the slot
  that holds it.
* An access outside the bounds of a list (`QList::at`, or dereferencing the null pointer that
  `QList::value` returns) is undefined behaviour in the program; functions that can perform one
  return `Option`, with `none` for that case.
* The collaborators `TDLibWrapper`, `AppSettings` and `FernschreiberUtils` are not part of the
  sources; what the model reads from them is a field of the structures `TDLibWrapper` and
  `AppSettings` below.
* Signals (and the one call made on the wrapper) are appended to the field `emitted`.
-/

namespace Fernschreiber

/-! ## Qt values -/

/-- A `QVariant` as far as the JSON payloads of the backend need it.  Numbers are integral;
JSON `null` and a missing value are both `invalid`. -/
inductive QVariant where
  | invalid : QVariant
  | bool : Bool → QVariant
  | num : Int → QVariant
  | string : String → QVariant
  | map : List (String × QVariant) → QVariant
  | list : List QVariant → QVariant

mutual
/-- Decidable equality of `QVariant`, by recursion on the value. -/
def QVariant.decEq : (a b : QVariant) → Decidable (a = b)
  | .invalid, .invalid => isTrue rfl
  | .bool a, .bool b =>
    if h : a = b then isTrue (by rw [h]) else isFalse (by intro e; cases e; exact h rfl)
  | .num a, .num b =>
    if h : a = b then isTrue (by rw [h]) else isFalse (by intro e; cases e; exact h rfl)
  | .string a, .string b =>
    if h : a = b then isTrue (by rw [h]) else isFalse (by intro e; cases e; exact h rfl)
  | .map a, .map b =>
    match QVariant.decEqMap a b with
    | isTrue h => isTrue (by rw [h])
    | isFalse h => isFalse (by intro e; cases e; exact h rfl)
  | .list a, .list b =>
    match QVariant.decEqList a b with
    | isTrue h => isTrue (by rw [h])
    | isFalse h => isFalse (by intro e; cases e; exact h rfl)
  | .invalid, .bool _ | .invalid, .num _ | .invalid, .string _ | .invalid, .map _
  | .invalid, .list _
  | .bool _, .invalid | .bool _, .num _ | .bool _, .string _ | .bool _, .map _ | .bool _, .list _
  | .num _, .invalid | .num _, .bool _ | .num _, .string _ | .num _, .map _ | .num _, .list _
  | .string _, .invalid | .string _, .bool _ | .string _, .num _ | .string _, .map _
  | .string _, .list _
  | .map _, .invalid | .map _, .bool _ | .map _, .num _ | .map _, .string _ | .map _, .list _
  | .list _, .invalid | .list _, .bool _ | .list _, .num _ | .list _, .string _
  | .list _, .map _ =>
    isFalse (by intro e; cases e)
/-- Decidable equality of the entries of a map-valued `QVariant`. -/
def QVariant.decEqMap : (a b : List (String × QVariant)) → Decidable (a = b)
  | [], [] => isTrue rfl
  | [], _ :: _ => isFalse (by intro e; cases e)
  | _ :: _, [] => isFalse (by intro e; cases e)
  | (k, v) :: a, (k2, v2) :: b =>
    if hk : k = k2 then
      match QVariant.decEq v v2 with
      | isTrue hv =>
        match QVariant.decEqMap a b with
        | isTrue h => isTrue (by rw [hk, hv, h])
        | isFalse h => isFalse (by intro e; cases e; exact h rfl)
      | isFalse hv => isFalse (by intro e; cases e; exact hv rfl)
    else isFalse (by intro e; cases e; exact hk rfl)
/-- Decidable equality of the items of a list-valued `QVariant`. -/
def QVariant.decEqList : (a b : List QVariant) → Decidable (a = b)
  | [], [] => isTrue rfl
  | [], _ :: _ => isFalse (by intro e; cases e)
  | _ :: _, [] => isFalse (by intro e; cases e)
  | v :: a, v2 :: b =>
    match QVariant.decEq v v2 with
    | isTrue hv =>
      match QVariant.decEqList a b with
      | isTrue h => isTrue (by rw [hv, h])
      | isFalse h => isFalse (by intro e; cases e; exact h rfl)
    | isFalse hv => isFalse (by intro e; cases e; exact hv rfl)
end

instance : DecidableEq QVariant := QVariant.decEq

instance : Inhabited QVariant := ⟨QVariant.invalid⟩

/-- An associative Qt container (`QMap`, `QHash`) as an association list that holds at most
one pair per key.  The iteration order of a `QHash` is unspecified; the model enumerates the
most recently inserted key first. -/
abbrev QHash (K V : Type) := List (K × V)

namespace QHash

variable {K V : Type} [DecidableEq K]

/-- The value stored under `key`, if any. -/
def find : QHash K V → K → Option V
  | [], _ => none
  | (k, v) :: m, key => if k = key then some v else find m key

/-- Model of `contains(key)`. -/
def contains (m : QHash K V) (key : K) : Bool := (find m key).isSome

/-- Model of `value(key)`: the stored value, or a default-constructed one. -/
def value [Inhabited V] (m : QHash K V) (key : K) : V := (find m key).getD default

/-- Model of `remove(key)`. -/
def remove (m : QHash K V) (key : K) : QHash K V := m.filter (fun p => decide (p.1 ≠ key))

/-- Model of `insert(key, value)`: an existing value of the key is replaced. -/
def insert (m : QHash K V) (key : K) (v : V) : QHash K V := (key, v) :: remove m key

/-- Model of `keys()`. -/
def keys (m : QHash K V) : List K := m.map Prod.fst

/-- Model of `values()`. -/
def values (m : QHash K V) : List V := m.map Prod.snd

end QHash

/-- A `QVariantMap` (`QMap<QString, QVariant>`). -/
abbrev QVariantMap := QHash String QVariant

/-- A `QVariantList`. -/
abbrev QVariantList := List QVariant

/-- The bounds of `qlonglong`. -/
def LLONG_MIN : Int := -(2 ^ 63)

/-- The upper bound of `qlonglong`. -/
def LLONG_MAX : Int := 2 ^ 63 - 1

/-- Value of a string of decimal digits, `none` when a character is not a digit. -/
def digitsValue : List Char → Nat → Option Nat
  | [], acc => some acc
  | c :: cs, acc =>
    if c.isDigit then digitsValue cs (acc * 10 + (c.toNat - '0'.toNat)) else none

/-- Reads an optionally signed, non-empty string of decimal digits. -/
def signedValue : List Char → Option Int
  | [] => none
  | '-' :: ds => if ds = [] then none else (digitsValue ds 0).map (fun n => -(n : Int))
  | '+' :: ds => if ds = [] then none else (digitsValue ds 0).map (fun n => (n : Int))
  | ds => (digitsValue ds 0).map (fun n => (n : Int))

/-- Strips white space from both ends. -/
def trimmed (cs : List Char) : List Char :=
  ((cs.dropWhile Char.isWhitespace).reverse.dropWhile Char.isWhitespace).reverse

/-- Model of `QString::toLongLong(bool *ok)`, base 10: the value and the flag `ok`; the value
is `0` when the conversion fails (not a number, or outside of the 64-bit range). -/
def QString.toLongLong (s : String) : Int × Bool :=
  match signedValue (trimmed s.data) with
  | some v => if LLONG_MIN ≤ v ∧ v ≤ LLONG_MAX then (v, true) else (0, false)
  | none => (0, false)

/-- Wraps an integer into the range of a 32-bit `int`. -/
def wrapInt32 (n : Int) : Int := (n + 2 ^ 31) % 2 ^ 32 - 2 ^ 31

namespace QVariant

/-- Model of `QVariant::isNull()`. -/
def isNull : QVariant → Bool
  | .invalid => true
  | _ => false

/-- Model of `QVariant::toMap()`. -/
def toMap : QVariant → QVariantMap
  | .map m => m
  | _ => []

/-- Model of `QVariant::toLongLong(bool *ok)`: the value and the flag `ok`. -/
def toLongLongOk : QVariant → Int × Bool
  | .num n => (n, true)
  | .bool b => (if b then 1 else 0, true)
  | .string s => QString.toLongLong s
  | _ => (0, false)

/-- Model of `QVariant::toLongLong()`. -/
def toLongLong (v : QVariant) : Int := (toLongLongOk v).1

/-- Model of `QVariant::toInt()`. -/
def toInt : QVariant → Int
  | .num n => wrapInt32 n
  | .bool b => if b then 1 else 0
  | .string s =>
    let r := QString.toLongLong s
    if r.2 ∧ -(2 ^ 31) ≤ r.1 ∧ r.1 < 2 ^ 31 then r.1 else 0
  | _ => 0

/-- Model of `QVariant::toBool()`. -/
def toBool : QVariant → Bool
  | .bool b => b
  | .num n => decide (n ≠ 0)
  | .string s => !(s = "" || s = "0" || s.data.map Char.toLower = "false".data)
  | _ => false

/-- Model of `QVariant::toString()`. -/
def toString : QVariant → String
  | .string s => s
  | .num n => ToString.toString n
  | .bool b => if b then "true" else "false"
  | _ => ""

/-- Model of `QVariant::operator==`: two numeric values (booleans count as numbers) compare by
value, values of one type compare structurally, and a string compares with a number through its
conversion to a number. -/
def equals : QVariant → QVariant → Bool
  | .num a, .num b => decide (a = b)
  | .num a, .bool b => decide (a = if b then 1 else 0)
  | .bool a, .num b => decide ((if a then 1 else 0) = b)
  | .num a, .string s => (QString.toLongLong s).2 && decide ((QString.toLongLong s).1 = a)
  | .string s, .num b => (QString.toLongLong s).2 && decide ((QString.toLongLong s).1 = b)
  | a, b => decide (a = b)

end QVariant

/-! ## Types declared by the backend wrapper -/

namespace TDLibWrapper

/-- Modelled from the spec: the enum `TDLibWrapper::ChatType` is declared in `tdlibwrapper.h`,
which is not among the sources; these are the five values `isHidden` switches over. -/
inductive ChatType where
  | ChatTypeUnknown
  | ChatTypePrivate
  | ChatTypeBasicGroup
  | ChatTypeSupergroup
  | ChatTypeSecret
deriving DecidableEq, Repr

/-- Modelled from the spec: the enum `TDLibWrapper::ChatMemberStatus` of `tdlibwrapper.h`; these
are the seven values `isHidden` switches over. -/
inductive ChatMemberStatus where
  | ChatMemberStatusUnknown
  | ChatMemberStatusCreator
  | ChatMemberStatusAdministrator
  | ChatMemberStatusMember
  | ChatMemberStatusRestricted
  | ChatMemberStatusLeft
  | ChatMemberStatusBanned
deriving DecidableEq, Repr

/-- Modelled from the spec: the enum `TDLibWrapper::SecretChatState` of `tdlibwrapper.h`, with the
states Unknown, Pending, Active (ready) and Closed. -/
inductive SecretChatState where
  | SecretChatStateUnknown
  | SecretChatStateClosed
  | SecretChatStatePending
  | SecretChatStateReady
deriving DecidableEq, Repr

/-- The class `TDLibWrapper::Group`: its two members read by the model, and the result of its
accessor `chatMemberStatus()`. -/
structure Group where
  groupId : Int
  groupInfo : QVariantMap
  chatMemberStatus : ChatMemberStatus
deriving DecidableEq

end TDLibWrapper

open TDLibWrapper in
/-- What the model reads from the backend wrapper (and from `FernschreiberUtils`, whose function
`getMessageShortText` takes the wrapper as its first argument). -/
structure TDLibWrapper where
  chatTypeFromString : String → ChatType
  secretChatStateFromString : String → SecretChatState
  getGroup : Int → Option Group
  getSecretChatFromCache : Int → QVariantMap
  getUserInformation : QVariantMap
  getJoinChatRequested : Bool
  getMessageShortText : QVariantMap → Bool → Int → QVariantMap → String

/-- What the model reads from the application settings. -/
structure AppSettings where
  onlineOnlyMode : Bool

open TDLibWrapper

/-! ## Keys of the payload maps -/

def ID : String := "id"
def DATE : String := "date"
def TEXT : String := "text"
def TYPE : String := "type"
def TITLE : String := "title"
def PHOTO : String := "photo"
def SMALL : String := "small"
def ORDER : String := "order"
def CHAT_ID : String := "chat_id"
def CONTENT : String := "content"
def LAST_MESSAGE : String := "last_message"
def DRAFT_MESSAGE : String := "draft_message"
def SENDER_ID : String := "sender_id"
def USER_ID : String := "user_id"
def BASIC_GROUP_ID : String := "basic_group_id"
def SUPERGROUP_ID : String := "supergroup_id"
def UNREAD_COUNT : String := "unread_count"
def UNREAD_MENTION_COUNT : String := "unread_mention_count"
def UNREAD_REACTION_COUNT : String := "unread_reaction_count"
def AVAILABLE_REACTIONS : String := "available_reactions"
def NOTIFICATION_SETTINGS : String := "notification_settings"
def LAST_READ_INBOX_MESSAGE_ID : String := "last_read_inbox_message_id"
def LAST_READ_OUTBOX_MESSAGE_ID : String := "last_read_outbox_message_id"
def SENDING_STATE : String := "sending_state"
def IS_CHANNEL : String := "is_channel"
def IS_VERIFIED : String := "is_verified"
def IS_MARKED_AS_UNREAD : String := "is_marked_as_unread"
def IS_PINNED : String := "is_pinned"
def PINNED_MESSAGE_ID : String := "pinned_message_id"
def _TYPE : String := "@type"
def SECRET_CHAT_ID : String := "secret_chat_id"
def CHAT_FOLDERS : String := "chat_folders"
def MAIN_CHAT_LIST_POSITION_IN_FOLDERS : String := "main_chat_list_position"

/-- The enum `ChatListModel::Role`. -/
inductive Role where
  | RoleDisplay
  | RoleChatId
  | RoleChatType
  | RoleGroupId
  | RoleTitle
  | RolePhotoSmall
  | RoleUnreadCount
  | RoleUnreadMentionCount
  | RoleUnreadReactionCount
  | RoleAvailableReactions
  | RoleLastReadInboxMessageId
  | RoleLastMessageSenderId
  | RoleLastMessageDate
  | RoleLastMessageText
  | RoleLastMessageStatus
  | RoleChatMemberStatus
  | RoleSecretChatState
  | RoleIsVerified
  | RoleIsChannel
  | RoleIsMarkedAsUnread
  | RoleIsPinned
  | RoleFilter
  | RoleDraftMessageText
  | RoleDraftMessageDate
  | RoleChatFoldersList
  | RoleMainChatPositionId
deriving DecidableEq, Repr

open Role

/-! ## The entity: `ChatListModel::ChatData` -/

/-- The data members of `ChatListModel::ChatData` (the pointer to the wrapper is passed to the
member functions that use it). -/
structure ChatData where
  chatData : QVariantMap
  chatId : Int
  order : Int
  groupId : Int
  verified : Bool
  chatType : ChatType
  memberStatus : ChatMemberStatus
  secretChatState : SecretChatState
deriving DecidableEq

namespace ChatData

/-- The constructor `ChatData(tdLibWrapper, data)`. -/
def create (tdLibWrapper : TDLibWrapper) (data : QVariantMap) : ChatData :=
  let type := (QHash.value data TYPE).toMap
  let chatType := tdLibWrapper.chatTypeFromString (QHash.value type _TYPE).toString
  { chatData := data
    chatId := (QHash.value data ID).toLongLong
    order := (QHash.value data ORDER).toLongLong
    groupId :=
      match chatType with
      | .ChatTypeBasicGroup => (QHash.value type BASIC_GROUP_ID).toLongLong
      | .ChatTypeSupergroup => (QHash.value type SUPERGROUP_ID).toLongLong
      | .ChatTypeUnknown => 0
      | .ChatTypePrivate => 0
      | .ChatTypeSecret => 0
    verified := false
    chatType := chatType
    memberStatus := .ChatMemberStatusUnknown
    secretChatState := .SecretChatStateUnknown }

/-- The comparator `compareTo`: `-1` puts `this` before `other`. -/
def compareTo (self other : ChatData) : Int :=
  if self.order = other.order then
    if self.chatId < other.chatId then 1 else -1
  else
    -- This puts most recent ones to the top of the list
    if self.order < other.order then 1 else -1

/-- The member `setOrder`: the updated entity and the returned flag. -/
def setOrder (self : ChatData) (newOrder : String) : ChatData × Bool :=
  if newOrder ≠ "" then
    ({ self with
        chatData := QHash.insert self.chatData ORDER (.string newOrder)
        order := (QString.toLongLong newOrder).1 }, true)
  else (self, false)

/-- The accessor `lastMessage(key)`. -/
def lastMessage (self : ChatData) (key : String) : QVariant :=
  QHash.value (QHash.value self.chatData LAST_MESSAGE).toMap key

def title (self : ChatData) : String := (QHash.value self.chatData TITLE).toString

def unreadCount (self : ChatData) : Int := (QHash.value self.chatData UNREAD_COUNT).toInt

def unreadMentionCount (self : ChatData) : Int :=
  (QHash.value self.chatData UNREAD_MENTION_COUNT).toInt

def availableReactions (self : ChatData) : QVariant := QHash.value self.chatData AVAILABLE_REACTIONS

def unreadReactionCount (self : ChatData) : Int :=
  (QHash.value self.chatData UNREAD_REACTION_COUNT).toInt

def photoSmall (self : ChatData) : QVariant :=
  QHash.value (QHash.value self.chatData PHOTO).toMap SMALL

def lastReadInboxMessageId (self : ChatData) : Int :=
  (QHash.value self.chatData LAST_READ_INBOX_MESSAGE_ID).toLongLong

def senderUserId (self : ChatData) : Int :=
  (QHash.value (self.lastMessage SENDER_ID).toMap USER_ID).toLongLong

def senderChatId (self : ChatData) : Int :=
  (QHash.value (self.lastMessage SENDER_ID).toMap CHAT_ID).toLongLong

def senderIsChat (self : ChatData) : Bool :=
  decide ((QHash.value (self.lastMessage SENDER_ID).toMap _TYPE).toString = "messageSenderChat")

def senderMessageDate (self : ChatData) : Int := (self.lastMessage DATE).toLongLong

def isChannel (self : ChatData) : Bool :=
  (QHash.value (QHash.value self.chatData TYPE).toMap IS_CHANNEL).toBool

def senderMessageText (self : ChatData) (tdLibWrapper : TDLibWrapper) : String :=
  let myUserId := (QHash.value tdLibWrapper.getUserInformation ID).toLongLong
  tdLibWrapper.getMessageShortText (self.lastMessage CONTENT).toMap self.isChannel myUserId
    (self.lastMessage SENDER_ID).toMap

/-- The member `senderMessageStatus`: the delivery glyph of the last message. -/
def senderMessageStatus (self : ChatData) (tdLibWrapper : TDLibWrapper) : String :=
  let myUserId := (QHash.value tdLibWrapper.getUserInformation ID).toLongLong
  if self.isChannel ∨ myUserId ≠ self.senderUserId ∨ myUserId = self.chatId then
    ""
  else if (self.lastMessage ID).equals (QHash.value self.chatData LAST_READ_OUTBOX_MESSAGE_ID) then
    "&nbsp;&nbsp;✅"
  else
    let lastMessage := (QHash.value self.chatData LAST_MESSAGE).toMap
    if QHash.contains lastMessage SENDING_STATE then
      let sendingState := (QHash.value lastMessage SENDING_STATE).toMap
      if (QHash.value sendingState _TYPE).toString = "messageSendingStatePending" then
        "&nbsp;&nbsp;🕙"
      else
        "&nbsp;&nbsp;❌"
    else
      "&nbsp;&nbsp;☑️"

def draftMessageDate (self : ChatData) : Int :=
  let draft := (QHash.value self.chatData DRAFT_MESSAGE).toMap
  if draft.isEmpty then 0 else (QHash.value draft DATE).toLongLong

def draftMessageText (self : ChatData) : String :=
  let draft := (QHash.value self.chatData DRAFT_MESSAGE).toMap
  if draft.isEmpty then ""
  else
    (QHash.value (QHash.value (QHash.value draft "input_message_text").toMap TEXT).toMap
      TEXT).toString

/-- The visibility classifier `isHidden`. -/
def isHidden (self : ChatData) : Bool :=
  match self.chatType with
  | .ChatTypeBasicGroup | .ChatTypeSupergroup =>
    match self.memberStatus with
    | .ChatMemberStatusLeft | .ChatMemberStatusUnknown | .ChatMemberStatusBanned => true
    | .ChatMemberStatusCreator | .ChatMemberStatusAdministrator | .ChatMemberStatusMember
    | .ChatMemberStatusRestricted =>
      if (QHash.value self.chatData LAST_MESSAGE).isNull then true else false
  | .ChatTypeUnknown => true
  | .ChatTypePrivate =>
    if (QHash.value self.chatData LAST_MESSAGE).isNull then true else false
  | .ChatTypeSecret =>
    if self.secretChatState = .SecretChatStateClosed then true else false

def isMarkedAsUnread (self : ChatData) : Bool :=
  (QHash.value self.chatData IS_MARKED_AS_UNREAD).toBool

def isPinned (self : ChatData) : Bool := (QHash.value self.chatData IS_PINNED).toBool

/-- The member `updateUnreadCount`: the updated entity and the returned flag. -/
def updateUnreadCount (self : ChatData) (count : Int) : ChatData × Bool :=
  let prevUnreadCount := self.unreadCount
  let self1 := { self with chatData := QHash.insert self.chatData UNREAD_COUNT (.num count) }
  (self1, decide (prevUnreadCount ≠ self1.unreadCount))

/-- The member `updateLastReadInboxMessageId`: the updated entity and the returned flag. -/
def updateLastReadInboxMessageId (self : ChatData) (messageId : Int) : ChatData × Bool :=
  let prevLastReadInboxMessageId := self.lastReadInboxMessageId
  let self1 :=
    { self with
      chatData := QHash.insert self.chatData LAST_READ_INBOX_MESSAGE_ID (.num messageId) }
  (self1, decide (prevLastReadInboxMessageId ≠ self1.lastReadInboxMessageId))

/-- The member `updateLastMessage`: the updated entity and the changed roles. -/
def updateLastMessage (self : ChatData) (tdLibWrapper : TDLibWrapper) (message : QVariantMap) :
    ChatData × List Role :=
  let prevSenderUserId := self.senderUserId
  let prevSenderMessageDate := self.senderMessageDate
  let prevSenderMessageText := self.senderMessageText tdLibWrapper
  let prevSenderMessageStatus := self.senderMessageStatus tdLibWrapper
  let self1 := { self with chatData := QHash.insert self.chatData LAST_MESSAGE (.map message) }
  let changedRoles : List Role := [RoleDisplay]
  let changedRoles :=
    if prevSenderUserId ≠ self1.senderUserId then changedRoles ++ [RoleLastMessageSenderId]
    else changedRoles
  let changedRoles :=
    if prevSenderMessageDate ≠ self1.senderMessageDate then changedRoles ++ [RoleLastMessageDate]
    else changedRoles
  let changedRoles :=
    if prevSenderMessageText ≠ self1.senderMessageText tdLibWrapper then
      changedRoles ++ [RoleFilter, RoleLastMessageText]
    else changedRoles
  let changedRoles :=
    if prevSenderMessageStatus ≠ self1.senderMessageStatus tdLibWrapper then
      changedRoles ++ [RoleLastMessageStatus]
    else changedRoles
  (self1, changedRoles)

/-- The member `updateGroup`; `none` is the null pointer. -/
def updateGroup (self : ChatData) (group : Option Group) : ChatData × List Role :=
  match group with
  | none => (self, [])
  | some group =>
    if self.groupId = group.groupId then
      let groupMemberStatus := group.chatMemberStatus
      let changed1 := decide (self.memberStatus ≠ groupMemberStatus)
      let self1 := if changed1 then { self with memberStatus := groupMemberStatus } else self
      let changedRoles : List Role := if changed1 then [RoleChatMemberStatus] else []
      -- There's no "is_verified" in "basic_group" but that's ok since
      -- it naturally becomes false
      let groupIsVerified := (QHash.value group.groupInfo IS_VERIFIED).toBool
      let changed2 := decide (self1.verified ≠ groupIsVerified)
      let self2 := if changed2 then { self1 with verified := groupIsVerified } else self1
      let changedRoles := if changed2 then changedRoles ++ [RoleIsVerified] else changedRoles
      (self2, changedRoles)
    else (self, [])

/-- The member `updateSecretChat`. -/
def updateSecretChat (self : ChatData) (tdLibWrapper : TDLibWrapper)
    (secretChatDetails : QVariantMap) : ChatData × List Role :=
  let newSecretChatState :=
    tdLibWrapper.secretChatStateFromString
      (QHash.value (QHash.value secretChatDetails "state").toMap _TYPE).toString
  if newSecretChatState ≠ self.secretChatState then
    ({ self with secretChatState := newSecretChatState }, [RoleSecretChatState])
  else (self, [])

/-- The member `clone`: the attribute bag is copied key by key, a new entity is constructed from
it and the scalar members are overwritten with the ones of the original. -/
def clone (self : ChatData) (tdLibWrapper : TDLibWrapper) : ChatData :=
  let clonedChatData : QVariantMap :=
    (QHash.keys self.chatData).foldl
      (fun cloned key => QHash.insert cloned key (QHash.value self.chatData key)) []
  let res := ChatData.create tdLibWrapper clonedChatData
  { res with
    chatId := self.chatId
    order := self.order
    groupId := self.groupId
    verified := self.verified
    chatType := self.chatType
    memberStatus := self.memberStatus
    secretChatState := self.secretChatState }

end ChatData

/-! ## The model: `ChatListModel` -/

/-- The signals the model emits, and the call `registerJoinChat()` it makes on the wrapper.
A `QModelIndex` is the row it points to, `none` when invalid. -/
inductive Signal where
  | rowsInserted (first last : Nat)
  | rowsRemoved (first last : Nat)
  | rowsMoved (sourceFirst sourceLast destinationChild : Nat)
  | dataChanged (topLeft bottomRight : Option Nat) (roles : List Role)
  | layoutChanged
  | countChanged
  | showAllChatsChanged
  | chatChanged (changedChatId : Int)
  | chatJoined (chatId : Int) (chatTitle : String)
  | unreadStateChanged (unreadMessagesCount unreadChatsCount : Int)
  | chatFoldersChanged (chatFolders : QVariantMap)
  | chatFolderInforamtionChanged (chatFolderInforamtion : QVariantMap)
  | registerJoinChat
deriving DecidableEq

open Signal

/-- The data members of `ChatListModel`, the state of the refresh timer and the signals emitted
so far. -/
structure ChatListModel where
  chatList : List ChatData
  chatFolders : QVariantMap
  chatFolderTitles : QVariantList
  chatFolderList : QVariantMap
  chatIndexMap : QHash Int Nat
  hiddenChats : QHash Int ChatData
  showHiddenChats : Bool
  selectedFolder : String
  mainAllChatFolderPosition : Int
  relativeTimeRefreshTimerActive : Bool
  emitted : List Signal
deriving DecidableEq

namespace QList

variable {α : Type}

/-- Model of `QList::insert(i, value)`. -/
def insert (l : List α) (i : Nat) (x : α) : List α := l.take i ++ x :: l.drop i

/-- Model of `QList::removeAt(i)`. -/
def removeAt (l : List α) (i : Nat) : List α := l.take i ++ l.drop (i + 1)

/-- Model of `QList::move(src, dst)`: the item is taken out and inserted at `dst`. -/
def move (l : List α) (src dst : Nat) : List α :=
  match l[src]? with
  | some x => insert (removeAt l src) dst x
  | none => l

end QList

/-- Writes through the pointer stored under `key`: the entity there becomes `v`, the container
itself is not touched. -/
def QHash.assign {K V : Type} [DecidableEq K] (m : QHash K V) (key : K) (v : V) : QHash K V :=
  m.map (fun p => if p.1 = key then (p.1, v) else p)

namespace ChatListModel

/-- The constructor: the model is empty, the timer is not started. -/
def empty : ChatListModel :=
  { chatList := []
    chatFolders := []
    chatFolderTitles := []
    chatFolderList := []
    chatIndexMap := []
    hiddenChats := []
    showHiddenChats := false
    selectedFolder := "All Chats"
    mainAllChatFolderPosition := 0
    relativeTimeRefreshTimerActive := false
    emitted := [] }

/-- Emits a signal. -/
def emit (m : ChatListModel) (s : Signal) : ChatListModel := { m with emitted := m.emitted ++ [s] }

/-- Model of `index(row)`: valid for the rows of the model only. -/
def index (m : ChatListModel) (row : Int) : Option Nat :=
  if 0 ≤ row ∧ row < m.chatList.length then some row.toNat else none

def reset (m : ChatListModel) : ChatListModel := { m with chatList := [], hiddenChats := [] }

def rowCount (m : ChatListModel) : Nat := m.chatList.length

/-- The member `getById`; `none` when the null pointer returned by `chatList.value` for a
position outside of the list is dereferenced. -/
def getById (m : ChatListModel) (chatId : Int) : Option QVariantMap :=
  if QHash.contains m.chatIndexMap chatId then
    (m.chatList[QHash.value m.chatIndexMap chatId]?).map (fun chat => chat.chatData)
  else some []

/-- The loop body `chatIndexMap.insert(chatList.at(i)->chatId, i)` run over the entities
`chats`, which stand at the positions `i`, `i + 1`, ... -/
def insertPositions (chatIndexMap : QHash Int Nat) : List ChatData → Nat → QHash Int Nat
  | [], _ => chatIndexMap
  | chat :: rest, i => insertPositions (QHash.insert chatIndexMap chat.chatId i) rest (i + 1)

/-- The loop `for (int i = first; i < stop; i++) chatIndexMap.insert(chatList.at(i)->chatId, i);`
for `stop` up to the size of the list. -/
def reindex (chatList : List ChatData) (chatIndexMap : QHash Int Nat) (first stop : Nat) :
    QHash Int Nat :=
  insertPositions chatIndexMap ((chatList.take stop).drop first) first

/-- The scan of `addVisibleChat`:
`for (pos = 0; pos < n && chat->compareTo(chatList.at(pos)) >= 0; pos++);`
The first argument bounds the number of rounds that are left; the scan starts with `n`. -/
def scanPosition (chat : ChatData) (chatList : List ChatData) : Nat → Nat → Nat
  | 0, pos => pos
  | rounds + 1, pos =>
    if h : pos < chatList.length then
      if chat.compareTo (chatList.get ⟨pos, h⟩) ≥ 0 then scanPosition chat chatList rounds (pos + 1)
      else pos
    else pos

def enableRefreshTimer (m : ChatListModel) : ChatListModel :=
  if ¬ m.relativeTimeRefreshTimerActive then { m with relativeTimeRefreshTimerActive := true }
  else m

/-- The member `addVisibleChat`. -/
def addVisibleChat (tdLibWrapper : TDLibWrapper) (m : ChatListModel) (chat : ChatData) :
    ChatListModel :=
  let n := m.chatList.length
  let pos := scanPosition chat m.chatList n 0
  let chatList := QList.insert m.chatList pos chat
  let chatIndexMap := QHash.insert m.chatIndexMap chat.chatId pos
  -- Update damaged part of the map
  let chatIndexMap := reindex chatList chatIndexMap (pos + 1) (n + 1)
  let m1 :=
    { m with
      chatList := chatList
      chatIndexMap := chatIndexMap
      emitted := m.emitted ++ [rowsInserted pos pos, countChanged] }
  let m2 :=
    if tdLibWrapper.getJoinChatRequested then
      { m1 with
        emitted :=
          m1.emitted ++
            [registerJoinChat, chatJoined chat.chatId (QHash.value chat.chatData "title").toString] }
    else m1
  enableRefreshTimer m2

/-- The backward probe of `updateChatOrder`:
`while (newIndex > 0 && chat->compareTo(chatList.at(newIndex-1)) < 0) newIndex--;` -/
def probeBackward (chat : ChatData) (chatList : List ChatData) :
    (newIndex : Nat) → newIndex ≤ chatList.length → Nat
  | 0, _ => 0
  | k + 1, h =>
    if chat.compareTo (chatList.get ⟨k, h⟩) < 0 then probeBackward chat chatList k (Nat.le_of_succ_le h)
    else k + 1

/-- The forward probe of `updateChatOrder`:
`while (newIndex < n-1 && chat->compareTo(chatList.at(newIndex+1)) > 0) newIndex++;`
The first argument bounds the number of rounds that are left; the probe starts with `n`. -/
def probeForward (chat : ChatData) (chatList : List ChatData) : Nat → Nat → Nat
  | 0, newIndex => newIndex
  | rounds + 1, newIndex =>
    if h : newIndex + 1 < chatList.length then
      if chat.compareTo (chatList.get ⟨newIndex + 1, h⟩) > 0 then
        probeForward chat chatList rounds (newIndex + 1)
      else newIndex
    else newIndex

/-- The member `updateChatOrder`: the new state and the returned index; `none` when `chatIndex`
is not a position of the list. -/
def updateChatOrder (m : ChatListModel) (chatIndex : Nat) : Option (ChatListModel × Nat) :=
  if h : chatIndex < m.chatList.length then
    let chat := m.chatList.get ⟨chatIndex, h⟩
    let n := m.chatList.length
    let newIndex := probeBackward chat m.chatList chatIndex (Nat.le_of_lt h)
    let newIndex :=
      if newIndex = chatIndex then probeForward chat m.chatList n newIndex else newIndex
    if newIndex ≠ chatIndex then
      let chatList := QList.move m.chatList chatIndex newIndex
      let chatIndexMap := QHash.insert m.chatIndexMap chat.chatId newIndex
      -- Update damaged part of the map
      let last := max chatIndex newIndex
      let chatIndexMap :=
        if newIndex < chatIndex then
          -- First index is already correct
          reindex chatList chatIndexMap (newIndex + 1) (last + 1)
        else
          -- Last index is already correct
          reindex chatList chatIndexMap chatIndex last
      some
        ({ m with
            chatList := chatList
            chatIndexMap := chatIndexMap
            emitted :=
              m.emitted ++
                [rowsMoved chatIndex chatIndex
                  (if newIndex < chatIndex then newIndex else newIndex + 1)] },
          newIndex)
    else some (m, newIndex)
  else none

/-- The branch of the visibility loops that hides the entity at position `i`: it is taken out
of the list, the map is rewritten from `i` on, and the entity enters `hiddenChats`. -/
def hideChatAt (m : ChatListModel) (i : Nat) (chat : ChatData) : ChatListModel :=
  let chatList := QList.removeAt m.chatList i
  -- Update damaged part of the map
  let n := chatList.length
  let chatIndexMap := reindex chatList m.chatIndexMap i n
  { m with
    chatList := chatList
    chatIndexMap := chatIndexMap
    hiddenChats := QHash.insert m.hiddenChats chat.chatId chat
    emitted := m.emitted ++ [rowsRemoved i i, countChanged] }

/-- The first loop of `updateChatVisibility`, `for (int i = 0; i < chatList.size(); i++)`, from
position `i` on.  A round either removes the entity at `i` (and stays at `i`) or moves on to
`i + 1`; the first argument bounds the number of rounds that are left and starts with the size of
the list. -/
def hideLoop (group : Option Group) : Nat → ChatListModel → Nat → ChatListModel
  | 0, m, _ => m
  | rounds + 1, m, i =>
    if h : i < m.chatList.length then
      let chat := m.chatList.get ⟨i, h⟩
      let (chat1, changedRoles) := chat.updateGroup group
      let m1 := { m with chatList := m.chatList.set i chat1 }
      if chat1.isHidden ∧ ¬ m1.showHiddenChats then
        hideLoop group rounds (hideChatAt m1 i chat1) i
      else if changedRoles ≠ [] then
        hideLoop group rounds (m1.emit (dataChanged (m1.index i) (m1.index i) changedRoles))
          (i + 1)
      else hideLoop group rounds m1 (i + 1)
    else m

/-- The second loop of `updateChatVisibility`, over the snapshot `hiddenChats.values()`. -/
def showLoop (tdLibWrapper : TDLibWrapper) (group : Option Group) :
    List ChatData → ChatListModel → ChatListModel
  | [], m => m
  | chat :: rest, m =>
    let chat1 := (chat.updateGroup group).1
    let m1 := { m with hiddenChats := QHash.assign m.hiddenChats chat.chatId chat1 }
    if ¬ chat1.isHidden ∨ m1.showHiddenChats then
      let m2 := { m1 with hiddenChats := QHash.remove m1.hiddenChats chat1.chatId }
      showLoop tdLibWrapper group rest (addVisibleChat tdLibWrapper m2 chat1)
    else showLoop tdLibWrapper group rest m1

/-- The member `updateChatVisibility`; `none` is the null pointer. -/
def updateChatVisibility (tdLibWrapper : TDLibWrapper) (m : ChatListModel)
    (group : Option Group) : ChatListModel :=
  -- See if any group has been removed from from view
  let m1 := hideLoop group m.chatList.length m 0
  -- And see if any group been added to the view
  let hiddenChatList := QHash.values m1.hiddenChats
  showLoop tdLibWrapper group hiddenChatList m1

/-- The loop of `updateSecretChatVisibility`, from position `i` on; the first argument bounds
the number of rounds that are left and starts with the size of the list. -/
def secretLoop (tdLibWrapper : TDLibWrapper) (secretChatDetails : QVariantMap) :
    Nat → ChatListModel → Nat → ChatListModel
  | 0, m, _ => m
  | rounds + 1, m, i =>
    if h : i < m.chatList.length then
      let chat := m.chatList.get ⟨i, h⟩
      if chat.chatType ≠ .ChatTypeSecret then
        secretLoop tdLibWrapper secretChatDetails rounds m (i + 1)
      else if (QHash.value (QHash.value chat.chatData TYPE).toMap SECRET_CHAT_ID).toLongLong ≠
          (QHash.value secretChatDetails ID).toLongLong then
        secretLoop tdLibWrapper secretChatDetails rounds m (i + 1)
      else
        let (chat1, changedRoles) := chat.updateSecretChat tdLibWrapper secretChatDetails
        let m1 := { m with chatList := m.chatList.set i chat1 }
        if chat1.isHidden ∧ ¬ m1.showHiddenChats then
          secretLoop tdLibWrapper secretChatDetails rounds (hideChatAt m1 i chat1) i
        else if changedRoles ≠ [] then
          secretLoop tdLibWrapper secretChatDetails rounds
            (m1.emit (dataChanged (m1.index i) (m1.index i) changedRoles)) (i + 1)
        else secretLoop tdLibWrapper secretChatDetails rounds m1 (i + 1)
    else m

/-- The member `updateSecretChatVisibility`. -/
def updateSecretChatVisibility (tdLibWrapper : TDLibWrapper) (m : ChatListModel)
    (secretChatDetails : QVariantMap) : ChatListModel :=
  -- See if any secret chat has been closed
  secretLoop tdLibWrapper secretChatDetails m.chatList.length m 0

def showAllChats (m : ChatListModel) : Bool := m.showHiddenChats

/-- The member `setShowAllChats`. -/
def setShowAllChats (tdLibWrapper : TDLibWrapper) (m : ChatListModel) (showAll : Bool) :
    ChatListModel :=
  if m.showHiddenChats ≠ showAll then
    let m1 := { m with showHiddenChats := showAll }
    (updateChatVisibility tdLibWrapper m1 none).emit showAllChatsChanged
  else m

/-- The member `calculateUnreadState`. The pair is (`unreadMessages`, `unreadChats`); both
counters are of the type `int`, so the additions wrap at 32 bits. -/
def calculateUnreadState (appSettings : AppSettings) (m : ChatListModel) : ChatListModel :=
  if appSettings.onlineOnlyMode then
    let counts : Int × Int :=
      m.chatList.foldl
        (fun acc currentChat =>
          let unreadCount := currentChat.unreadCount
          if unreadCount > 0 then (wrapInt32 (acc.1 + unreadCount), wrapInt32 (acc.2 + 1))
          else acc)
        (0, 0)
    m.emit (unreadStateChanged counts.1 counts.2)
  else m

def setSelectedFolderName (m : ChatListModel) (title : String) : ChatListModel :=
  { m with selectedFolder := title }

def redrawModel (m : ChatListModel) : ChatListModel := m.emit layoutChanged

/-- The slot `handleChatDiscovered`. -/
def handleChatDiscovered (tdLibWrapper : TDLibWrapper) (m : ChatListModel)
    (chatToBeAdded : QVariantMap) : ChatListModel :=
  let chat := ChatData.create tdLibWrapper chatToBeAdded
  let group := tdLibWrapper.getGroup chat.groupId
  let chat := if group.isSome then (chat.updateGroup group).1 else chat
  let chat :=
    if chat.chatType = .ChatTypeSecret then
      let secretChatDetails :=
        tdLibWrapper.getSecretChatFromCache
          (QHash.value (QHash.value chatToBeAdded TYPE).toMap SECRET_CHAT_ID).toLongLong
      if ¬ secretChatDetails.isEmpty then (chat.updateSecretChat tdLibWrapper secretChatDetails).1
      else chat
    else chat
  if chat.isHidden ∧ ¬ m.showHiddenChats then
    { m with hiddenChats := QHash.insert m.hiddenChats chat.chatId chat }
  else addVisibleChat tdLibWrapper m chat

/-- The slot `handleChatLastMessageUpdated`. -/
def handleChatLastMessageUpdated (tdLibWrapper : TDLibWrapper) (m : ChatListModel)
    (id order : String) (lastMessage : QVariantMap) : Option ChatListModel :=
  let (chatId, ok) := QString.toLongLong id
  if ok then
    if QHash.contains m.chatIndexMap chatId then
      let chatIndex := QHash.value m.chatIndexMap chatId
      match m.chatList[chatIndex]? with
      | none => none
      | some chat =>
        let (chat1, changed) := chat.setOrder order
        let m1 := { m with chatList := m.chatList.set chatIndex chat1 }
        match (if changed then updateChatOrder m1 chatIndex else some (m1, chatIndex)) with
        | none => none
        | some (m2, chatIndex) =>
          let modelIndex := m2.index chatIndex
          let (chat2, changedRoles) := chat1.updateLastMessage tdLibWrapper lastMessage
          let m3 := { m2 with chatList := m2.chatList.set chatIndex chat2 }
          some ((m3.emit (dataChanged modelIndex modelIndex changedRoles)).emit
            (chatChanged chatId))
    else
      match QHash.find m.hiddenChats chatId with
      | some chat =>
        let chat1 := (chat.setOrder order).1
        let chat2 :=
          { chat1 with chatData := QHash.insert chat1.chatData LAST_MESSAGE (.map lastMessage) }
        let m1 := { m with hiddenChats := QHash.assign m.hiddenChats chatId chat2 }
        -- A chat can become visible (e.g. when a known contact joins Telegram)
        -- When the private chat is discovered it doesn't have any messages, now it could be there...
        if ¬ chat2.isHidden ∨ m1.showHiddenChats then
          some (addVisibleChat tdLibWrapper
            { m1 with hiddenChats := QHash.remove m1.hiddenChats chatId } chat2)
        else some m1
      | none => some m
  else some m

/-- The slot `handleChatOrderUpdated`. -/
def handleChatOrderUpdated (m : ChatListModel) (id order : String) : Option ChatListModel :=
  let (chatId, ok) := QString.toLongLong id
  if ok then
    if QHash.contains m.chatIndexMap chatId then
      let chatIndex := QHash.value m.chatIndexMap chatId
      match m.chatList[chatIndex]? with
      | none => none
      | some chat =>
        let (chat1, changed) := chat.setOrder order
        let m1 := { m with chatList := m.chatList.set chatIndex chat1 }
        if changed then (updateChatOrder m1 chatIndex).map Prod.fst else some m1
    else
      match QHash.find m.hiddenChats chatId with
      | some chat =>
        some { m with hiddenChats := QHash.assign m.hiddenChats chatId (chat.setOrder order).1 }
      | none => some m
  else some m

/-- The shape shared by the slots that store one attribute of a chat:
`if (chatIndexMap.contains(chatId)) { chat = chatList.at(chatIndexMap.value(chatId));`
`chat->chatData.insert(key, value); emit dataChanged(index, index, roles); }`
`else { chat = hiddenChats.value(chatId); if (chat) chat->chatData.insert(key, value); }`
where `roles` is `none` for a slot that emits nothing for a visible chat. -/
def storeAttribute (m : ChatListModel) (chatId : Int) (key : String) (value : QVariant)
    (roles : Option (List Role)) : Option ChatListModel :=
  if QHash.contains m.chatIndexMap chatId then
    let chatIndex := QHash.value m.chatIndexMap chatId
    match m.chatList[chatIndex]? with
    | none => none
    | some chat =>
      let chat1 := { chat with chatData := QHash.insert chat.chatData key value }
      let m1 := { m with chatList := m.chatList.set chatIndex chat1 }
      match roles with
      | some changedRoles =>
        some (m1.emit (dataChanged (m1.index chatIndex) (m1.index chatIndex) changedRoles))
      | none => some m1
  else
    match QHash.find m.hiddenChats chatId with
    | some chat =>
      let chat1 := { chat with chatData := QHash.insert chat.chatData key value }
      some { m with hiddenChats := QHash.assign m.hiddenChats chatId chat1 }
    | none => some m

/-- The slot `handleChatReadInboxUpdated`. -/
def handleChatReadInboxUpdated (appSettings : AppSettings) (m : ChatListModel)
    (id lastReadInboxMessageId : String) (unreadCount : Int) : Option ChatListModel :=
  let (chatId, ok) := QString.toLongLong id
  if ok then
    let messageId := (QString.toLongLong lastReadInboxMessageId).1
    if QHash.contains m.chatIndexMap chatId then
      let chatIndex := QHash.value m.chatIndexMap chatId
      match m.chatList[chatIndex]? with
      | none => none
      | some chat =>
        let changedRoles : List Role := [RoleDisplay]
        let (chat1, changed1) := chat.updateUnreadCount unreadCount
        let changedRoles := if changed1 then changedRoles ++ [RoleUnreadCount] else changedRoles
        let (chat2, changed2) := chat1.updateLastReadInboxMessageId messageId
        let changedRoles :=
          if changed2 then changedRoles ++ [RoleLastReadInboxMessageId] else changedRoles
        let m1 := { m with chatList := m.chatList.set chatIndex chat2 }
        some (calculateUnreadState appSettings
          (m1.emit (dataChanged (m1.index chatIndex) (m1.index chatIndex) changedRoles)))
    else
      match QHash.find m.hiddenChats chatId with
      | some chat =>
        let chat1 := (chat.updateUnreadCount unreadCount).1
        let chat2 := (chat1.updateLastReadInboxMessageId messageId).1
        some { m with hiddenChats := QHash.assign m.hiddenChats chatId chat2 }
      | none => some m
  else some m

/-- The slot `handleChatReadOutboxUpdated`. -/
def handleChatReadOutboxUpdated (m : ChatListModel) (id lastReadOutboxMessageId : String) :
    Option ChatListModel :=
  let (chatId, ok) := QString.toLongLong id
  if ok then
    storeAttribute m chatId LAST_READ_OUTBOX_MESSAGE_ID (.string lastReadOutboxMessageId) (some [])
  else some m

/-- The slot `handleChatPhotoUpdated`. -/
def handleChatPhotoUpdated (m : ChatListModel) (chatId : Int) (photo : QVariantMap) :
    Option ChatListModel :=
  storeAttribute m chatId PHOTO (.map photo) (some [RolePhotoSmall])

/-- The slot `handleChatPinnedMessageUpdated`. -/
def handleChatPinnedMessageUpdated (m : ChatListModel) (chatId pinnedMessageId : Int) :
    Option ChatListModel :=
  storeAttribute m chatId PINNED_MESSAGE_ID (.num pinnedMessageId) none

/-- The slot `handleMessageSendSucceeded` (the two message ids are only logged). -/
def handleMessageSendSucceeded (tdLibWrapper : TDLibWrapper) (m : ChatListModel)
    (message : QVariantMap) : Option ChatListModel :=
  let (chatId, ok) := (QHash.value message CHAT_ID).toLongLongOk
  if ok then
    if QHash.contains m.chatIndexMap chatId then
      let chatIndex := QHash.value m.chatIndexMap chatId
      let modelIndex := m.index chatIndex
      match m.chatList[chatIndex]? with
      | none => none
      | some chat =>
        let (chat1, changedRoles) := chat.updateLastMessage tdLibWrapper message
        let m1 := { m with chatList := m.chatList.set chatIndex chat1 }
        some (m1.emit (dataChanged modelIndex modelIndex changedRoles))
    else
      match QHash.find m.hiddenChats chatId with
      | some chat =>
        let chat1 :=
          { chat with chatData := QHash.insert chat.chatData LAST_MESSAGE (.map message) }
        some { m with hiddenChats := QHash.assign m.hiddenChats chatId chat1 }
      | none => some m
  else some m

/-- The slot `handleChatNotificationSettingsUpdated`. -/
def handleChatNotificationSettingsUpdated (m : ChatListModel) (id : String)
    (chatNotificationSettings : QVariantMap) : Option ChatListModel :=
  let (chatId, ok) := QString.toLongLong id
  if ok then
    storeAttribute m chatId NOTIFICATION_SETTINGS (.map chatNotificationSettings) (some [])
  else some m

/-- The slot `handleGroupUpdated`. -/
def handleGroupUpdated (tdLibWrapper : TDLibWrapper) (m : ChatListModel) (groupId : Int) :
    ChatListModel :=
  updateChatVisibility tdLibWrapper m (tdLibWrapper.getGroup groupId)

/-- The slot `handleSecretChatUpdated` (the id is only logged). -/
def handleSecretChatUpdated (tdLibWrapper : TDLibWrapper) (m : ChatListModel)
    (secretChat : QVariantMap) : ChatListModel :=
  updateSecretChatVisibility tdLibWrapper m secretChat

/-- The slot `handleChatTitleUpdated`. -/
def handleChatTitleUpdated (m : ChatListModel) (chatId title : String) : Option ChatListModel :=
  let chatIdLongLong := (QString.toLongLong chatId).1
  storeAttribute m chatIdLongLong TITLE (.string title) (some [RoleTitle, RoleFilter])

/-- The slot `handleChatPinnedUpdated`. -/
def handleChatPinnedUpdated (m : ChatListModel) (chatId : Int) (chatIsPinned : Bool) :
    Option ChatListModel :=
  storeAttribute m chatId IS_PINNED (.bool chatIsPinned) (some [RoleIsPinned])

/-- The slot `handleChatIsMarkedAsUnreadUpdated`. -/
def handleChatIsMarkedAsUnreadUpdated (m : ChatListModel) (chatId : Int)
    (chatIsMarkedAsUnread : Bool) : Option ChatListModel :=
  storeAttribute m chatId IS_MARKED_AS_UNREAD (.bool chatIsMarkedAsUnread)
    (some [RoleIsMarkedAsUnread])

/-- The slot `handleChatDraftMessageUpdated`. -/
def handleChatDraftMessageUpdated (m : ChatListModel) (chatId : Int)
    (draftMessage : QVariantMap) (order : String) : Option ChatListModel :=
  if QHash.contains m.chatIndexMap chatId then
    let chatIndex := QHash.value m.chatIndexMap chatId
    match m.chatList[chatIndex]? with
    | none => none
    | some chat =>
      let chat1 :=
        { chat with chatData := QHash.insert chat.chatData DRAFT_MESSAGE (.map draftMessage) }
      let m1 := { m with chatList := m.chatList.set chatIndex chat1 }
      let m2 :=
        m1.emit (dataChanged (m1.index chatIndex) (m1.index chatIndex)
          [RoleDraftMessageDate, RoleDraftMessageText])
      let (chat2, changed) := chat1.setOrder order
      let m3 := { m2 with chatList := m2.chatList.set chatIndex chat2 }
      if changed then (updateChatOrder m3 chatIndex).map Prod.fst else some m3
  else some m

/-- The slot `handleChatUnreadMentionCountUpdated`. -/
def handleChatUnreadMentionCountUpdated (m : ChatListModel) (chatId : Int)
    (unreadMentionCount : Int) : Option ChatListModel :=
  storeAttribute m chatId UNREAD_MENTION_COUNT (.num unreadMentionCount)
    (some [RoleUnreadMentionCount])

/-- The slot `handleChatUnreadReactionCountUpdated`. -/
def handleChatUnreadReactionCountUpdated (m : ChatListModel) (chatId : Int)
    (unreadReactionCount : Int) : Option ChatListModel :=
  storeAttribute m chatId UNREAD_REACTION_COUNT (.num unreadReactionCount)
    (some [RoleUnreadReactionCount])

/-- The slot `handleChatAvailableReactionsUpdated`. -/
def handleChatAvailableReactionsUpdated (m : ChatListModel) (chatId : Int)
    (availableReactions : QVariantMap) : Option ChatListModel :=
  storeAttribute m chatId AVAILABLE_REACTIONS (.map availableReactions)
    (some [RoleAvailableReactions])

/-- The slot `handleRelativeTimeRefreshTimer`. -/
def handleRelativeTimeRefreshTimer (m : ChatListModel) : ChatListModel :=
  m.emit (dataChanged (m.index 0) (m.index ((m.chatList.length : Int) - 1))
    [RoleLastMessageDate, RoleLastMessageStatus])

/-- The slot `handleChatFolders`. -/
def handleChatFolders (m : ChatListModel) (foldersInformation : QVariantList)
    (mainChatlistPosition : Int) : ChatListModel :=
  let chatFolders : QVariantMap := []
  let chatFolderTitles : QVariantList := []
  let chatFolders := QHash.insert chatFolders "-1" (.string "All Chats")
  let chatFolderTitles := chatFolderTitles ++ [.string "All Chats"]
  let chatFolders := QHash.insert chatFolders "-2" (.string "Chats only")
  let chatFolderTitles := chatFolderTitles ++ [.string "Chats only"]
  let chatFolders := QHash.insert chatFolders "-3" (.string "Channels only")
  let chatFolderTitles := chatFolderTitles ++ [.string "Channels only"]
  let folders : QVariantMap × QVariantList :=
    foldersInformation.foldl
      (fun acc folder =>
        let map := folder.toMap
        let id := (QHash.value map "id").toString
        let title := (QHash.value map "title").toString
        (QHash.insert acc.1 id (.string title), acc.2 ++ [.string title]))
      (chatFolders, chatFolderTitles)
  { m with
    mainAllChatFolderPosition := mainChatlistPosition
    chatFolders := folders.1
    chatFolderTitles := folders.2
    emitted := m.emitted ++ [chatFoldersChanged folders.1] }

/-- The slot `handleChatFolderInformation`. -/
def handleChatFolderInformation (m : ChatListModel) (chatFolderInformation : QVariantMap) :
    ChatListModel :=
  let title := (QHash.value chatFolderInformation "title").toString
  let chatFolderList :=
    if title ∈ QHash.keys m.chatFolderList then QHash.remove m.chatFolderList title
    else m.chatFolderList
  let chatFolderList := QHash.insert chatFolderList title (.map chatFolderInformation)
  { m with
    chatFolderList := chatFolderList
    emitted := m.emitted ++ [chatFolderInforamtionChanged chatFolderList] }

def getChatFolderList (m : ChatListModel) : QVariantList := m.chatFolderTitles

end ChatListModel

/-! ## Events -/

/-- The signals of the backend wrapper the model is connected to, the time-out of the refresh
timer, and the toggle of "show all chats". -/
inductive Event where
  | newChatDiscovered (chatId : String) (chatInformation : QVariantMap)
  | chatLastMessageUpdated (chatId order : String) (lastMessage : QVariantMap)
  | chatOrderUpdated (chatId order : String)
  | chatReadInboxUpdated (chatId lastReadInboxMessageId : String) (unreadCount : Int)
  | chatReadOutboxUpdated (chatId lastReadOutboxMessageId : String)
  | chatPhotoUpdated (chatId : Int) (photo : QVariantMap)
  | chatPinnedMessageUpdated (chatId pinnedMessageId : Int)
  | messageSendSucceeded (messageId oldMessageId : Int) (message : QVariantMap)
  | chatNotificationSettingsUpdated (chatId : String) (chatNotificationSettings : QVariantMap)
  | superGroupUpdated (groupId : Int)
  | basicGroupUpdated (groupId : Int)
  | secretChatUpdated (secretChatId : Int) (secretChat : QVariantMap)
  | secretChatReceived (secretChatId : Int) (secretChat : QVariantMap)
  | chatTitleUpdated (chatId title : String)
  | chatIsMarkedAsUnreadUpdated (chatId : Int) (chatIsMarkedAsUnread : Bool)
  | chatPinnedUpdated (chatId : Int) (chatIsPinned : Bool)
  | chatDraftMessageUpdated (chatId : Int) (draftMessage : QVariantMap) (order : String)
  | chatUnreadMentionCountUpdated (chatId : Int) (unreadMentionCount : Int)
  | chatUnreadReactionCountUpdated (chatId : Int) (unreadReactionCount : Int)
  | chatAvailableReactionsUpdated (chatId : Int) (availableReactions : QVariantMap)
  | chatFolders (foldersInformation : QVariantList) (mainChatlistPosition : Int)
  | chatFolder (chatFolderInformation : QVariantMap)
  | timeout
  | setShowAllChats (showAll : Bool)
deriving DecidableEq

/-- The state of the collaborators at the moment an event is delivered. -/
structure Collaborators where
  tdLibWrapper : TDLibWrapper
  appSettings : AppSettings

open ChatListModel in
/-- Delivers one event to the slot connected to it (see the constructor of `ChatListModel`);
`none` when the slot reads a list outside of its bounds. -/
def step (env : Collaborators) (m : ChatListModel) : Event → Option ChatListModel
  | .newChatDiscovered _ chatInformation =>
    some (handleChatDiscovered env.tdLibWrapper m chatInformation)
  | .chatLastMessageUpdated chatId order lastMessage =>
    handleChatLastMessageUpdated env.tdLibWrapper m chatId order lastMessage
  | .chatOrderUpdated chatId order => handleChatOrderUpdated m chatId order
  | .chatReadInboxUpdated chatId lastReadInboxMessageId unreadCount =>
    handleChatReadInboxUpdated env.appSettings m chatId lastReadInboxMessageId unreadCount
  | .chatReadOutboxUpdated chatId lastReadOutboxMessageId =>
    handleChatReadOutboxUpdated m chatId lastReadOutboxMessageId
  | .chatPhotoUpdated chatId photo => handleChatPhotoUpdated m chatId photo
  | .chatPinnedMessageUpdated chatId pinnedMessageId =>
    handleChatPinnedMessageUpdated m chatId pinnedMessageId
  | .messageSendSucceeded _ _ message => handleMessageSendSucceeded env.tdLibWrapper m message
  | .chatNotificationSettingsUpdated chatId chatNotificationSettings =>
    handleChatNotificationSettingsUpdated m chatId chatNotificationSettings
  | .superGroupUpdated groupId => some (handleGroupUpdated env.tdLibWrapper m groupId)
  | .basicGroupUpdated groupId => some (handleGroupUpdated env.tdLibWrapper m groupId)
  | .secretChatUpdated _ secretChat => some (handleSecretChatUpdated env.tdLibWrapper m secretChat)
  | .secretChatReceived _ secretChat =>
    some (handleSecretChatUpdated env.tdLibWrapper m secretChat)
  | .chatTitleUpdated chatId title => handleChatTitleUpdated m chatId title
  | .chatIsMarkedAsUnreadUpdated chatId chatIsMarkedAsUnread =>
    handleChatIsMarkedAsUnreadUpdated m chatId chatIsMarkedAsUnread
  | .chatPinnedUpdated chatId chatIsPinned => handleChatPinnedUpdated m chatId chatIsPinned
  | .chatDraftMessageUpdated chatId draftMessage order =>
    handleChatDraftMessageUpdated m chatId draftMessage order
  | .chatUnreadMentionCountUpdated chatId unreadMentionCount =>
    handleChatUnreadMentionCountUpdated m chatId unreadMentionCount
  | .chatUnreadReactionCountUpdated chatId unreadReactionCount =>
    handleChatUnreadReactionCountUpdated m chatId unreadReactionCount
  | .chatAvailableReactionsUpdated chatId availableReactions =>
    handleChatAvailableReactionsUpdated m chatId availableReactions
  | .chatFolders foldersInformation mainChatlistPosition =>
    some (handleChatFolders m foldersInformation mainChatlistPosition)
  | .chatFolder chatFolderInformation => some (handleChatFolderInformation m chatFolderInformation)
  | .timeout => some (handleRelativeTimeRefreshTimer m)
  | .setShowAllChats showAll => some (ChatListModel.setShowAllChats env.tdLibWrapper m showAll)

/-- Delivers a sequence of events, each with the state of the collaborators at its time. -/
def run : ChatListModel → List (Collaborators × Event) → Option ChatListModel
  | m, [] => some m
  | m, (env, e) :: rest =>
    match step env m e with
    | some m1 => run m1 rest
    | none => none

/-- The states the model can be in: those a sequence of events leads to from the empty model. -/
def Reachable (m : ChatListModel) : Prop :=
  ∃ events : List (Collaborators × Event), run ChatListModel.empty events = some m

/-! ## Predicates of the specification -/

/-- The entity `a` sorts before `b`: `a.compareTo(b)` is negative. -/
def SortsBefore (a b : ChatData) : Prop := a.compareTo b < 0

instance (a b : ChatData) : Decidable (SortsBefore a b) :=
  inferInstanceAs (Decidable (a.compareTo b < 0))

instance : IsTrans ChatData SortsBefore :=
  ⟨fun a b c h1 h2 => by
    unfold SortsBefore ChatData.compareTo at h1 h2 ⊢
    split_ifs at h1 h2 ⊢ <;> omega⟩

instance : IsTotal ChatData SortsBefore :=
  ⟨fun a b => by
    unfold SortsBefore ChatData.compareTo
    split_ifs <;> omega⟩

/-- The sequence is sorted: each entity sorts before its successor. -/
def SortedChats (l : List ChatData) : Prop := List.Chain' SortsBefore l

/-- Decides whether a sequence is sorted, pair by pair. -/
def decideSortedChats : (l : List ChatData) → Decidable (SortedChats l)
  | [] => isTrue List.chain'_nil
  | [a] => isTrue (List.chain'_singleton a)
  | a :: b :: rest =>
    match (inferInstance : Decidable (SortsBefore a b)), decideSortedChats (b :: rest) with
    | isTrue h1, isTrue h2 => isTrue (List.chain'_cons.mpr ⟨h1, h2⟩)
    | isFalse h1, _ => isFalse (fun h => h1 (List.chain'_cons.mp h).1)
    | isTrue _, isFalse h2 => isFalse (fun h => h2 (List.chain'_cons.mp h).2)

instance (l : List ChatData) : Decidable (SortedChats l) := decideSortedChats l

/-- The identities of a sequence of entities. -/
def chatIds (l : List ChatData) : List Int := l.map (fun c => c.chatId)

/-- The identity→position index is correct for the sequence: every entity is mapped to the
position it stands at. -/
def IndexCorrect (chatList : List ChatData) (chatIndexMap : QHash Int Nat) : Prop :=
  ∀ (p : Nat) (h : p < chatList.length),
    QHash.find chatIndexMap (chatList.get ⟨p, h⟩).chatId = some p

/-- The insertion notifications among the signals. -/
def Signal.isRowsInserted : Signal → Bool
  | .rowsInserted _ _ => true
  | _ => false

/-- The test of the scan: the new entity sorts before the one it is compared with. -/
def sortsBeforeTest (chat : ChatData) (x : ChatData) : Bool := decide (chat.compareTo x < 0)

/-- The index `updateChatOrder` computes for the entity at `chatIndex`: the result of the backward
probe if it moved, otherwise the result of the forward probe. -/
def probedIndex (l : List ChatData) (chatIndex : Nat) (h : chatIndex < l.length) : Nat :=
  if ChatListModel.probeBackward (l.get ⟨chatIndex, h⟩) l chatIndex (Nat.le_of_lt h) = chatIndex
  then
    ChatListModel.probeForward (l.get ⟨chatIndex, h⟩) l l.length
      (ChatListModel.probeBackward (l.get ⟨chatIndex, h⟩) l chatIndex (Nat.le_of_lt h))
  else ChatListModel.probeBackward (l.get ⟨chatIndex, h⟩) l chatIndex (Nat.le_of_lt h)

/-- An entity for examples: a private chat with the given identity and order key. -/
def sampleChat (chatId order : Int) : ChatData :=
  { chatData := []
    chatId := chatId
    order := order
    groupId := 0
    verified := false
    chatType := .ChatTypePrivate
    memberStatus := .ChatMemberStatusUnknown
    secretChatState := .SecretChatStateUnknown }

/-- A model for examples: two visible chats in order, with a correct index. -/
def sampleModel : ChatListModel :=
  { ChatListModel.empty with
    chatList := [sampleChat 2 20, sampleChat 1 10]
    chatIndexMap := [(2, 0), (1, 1)] }

/-- A model for examples: three visible chats, the last of which is out of place (its order key
puts it between the other two), with a correct index. -/
def sampleModelToReorder : ChatListModel :=
  { ChatListModel.empty with
    chatList := [sampleChat 2 20, sampleChat 1 10, sampleChat 3 15]
    chatIndexMap := [(2, 0), (1, 1), (3, 2)] }

/-- A backend wrapper for examples: it knows no group, has no secret chat in its cache, and
decodes the type and state names of the backend. -/
def sampleWrapper : TDLibWrapper :=
  { chatTypeFromString := fun s =>
      if s = "chatTypePrivate" then .ChatTypePrivate
      else if s = "chatTypeBasicGroup" then .ChatTypeBasicGroup
      else if s = "chatTypeSupergroup" then .ChatTypeSupergroup
      else if s = "chatTypeSecret" then .ChatTypeSecret
      else .ChatTypeUnknown
    secretChatStateFromString := fun s =>
      if s = "secretChatStateClosed" then .SecretChatStateClosed
      else if s = "secretChatStatePending" then .SecretChatStatePending
      else if s = "secretChatStateReady" then .SecretChatStateReady
      else .SecretChatStateUnknown
    getGroup := fun _ => none
    getSecretChatFromCache := fun _ => []
    getUserInformation := []
    getJoinChatRequested := false
    getMessageShortText := fun _ _ _ _ => "" }

/-- Collaborators for examples. -/
def sampleCollaborators : Collaborators :=
  { tdLibWrapper := sampleWrapper, appSettings := { onlineOnlyMode := false } }

/-- The payload of a secret chat with the given identity, order key and secret chat id. -/
def secretChatPayload (chatId : Int) (order : String) (secretChatId : Int) : QVariantMap :=
  [("id", .num chatId), ("order", .string order),
    ("type", .map [("@type", .string "chatTypeSecret"), ("secret_chat_id", .num secretChatId)])]

/-- The payload of a private chat with the given identity and order key, with or without a last
message. -/
def privateChatPayload (chatId : Int) (order : String) (withLastMessage : Bool) : QVariantMap :=
  [("id", .num chatId), ("order", .string order),
    ("type", .map [("@type", .string "chatTypePrivate")])] ++
  (if withLastMessage then [("last_message", .map [("id", .num 5)])] else [])

/-- The payload of a secret chat update that reports the state "closed". -/
def secretChatClosed (secretChatId : Int) : QVariantMap :=
  [("id", .num secretChatId), ("state", .map [("@type", .string "secretChatStateClosed")])]

/-- A secret chat is discovered and then reported as closed. -/
def secretChatClosedEvents : List (Collaborators × Event) :=
  [(sampleCollaborators, .newChatDiscovered "1" (secretChatPayload 1 "10" 7)),
   (sampleCollaborators, .secretChatUpdated 7 (secretChatClosed 7))]

/-- A chat of unknown kind is discovered while "show all" is on, then the toggle is switched
off. -/
def shownThenHiddenEvents : List (Collaborators × Event) :=
  [(sampleCollaborators, .setShowAllChats true),
   (sampleCollaborators, .newChatDiscovered "2" [("id", .num 2), ("order", .string "10")]),
   (sampleCollaborators, .setShowAllChats false)]

/-- The identity 1 is reported twice: as a private chat with a last message, then as one
without. -/
def discoveredTwiceEvents : List (Collaborators × Event) :=
  [(sampleCollaborators, .newChatDiscovered "1" (privateChatPayload 1 "10" true)),
   (sampleCollaborators, .newChatDiscovered "1" (privateChatPayload 1 "10" false))]

/-- The identities reported by the `newChatDiscovered` events of a sequence. -/
def discoveredIds : List (Collaborators × Event) → List Int
  | [] => []
  | (_, .newChatDiscovered _ chatInformation) :: rest =>
    (QHash.value chatInformation ID).toLongLong :: discoveredIds rest
  | _ :: rest => discoveredIds rest

/-- The identities the model holds: those of the visible sequence, then the keys of the Hidden
Set. -/
def allIds (m : ChatListModel) : List Int := chatIds m.chatList ++ QHash.keys m.hiddenChats

/-- Every entity of the Hidden Set is stored under its own identity. -/
def Keyed (hiddenChats : QHash Int ChatData) : Prop := ∀ p ∈ hiddenChats, p.2.chatId = p.1

/-- No identity is held twice (neither twice in the visible sequence, nor twice in the Hidden
Set, nor in both), and the Hidden Set is keyed by identity. -/
def WellFormed (m : ChatListModel) : Prop := (allIds m).Nodup ∧ Keyed m.hiddenChats

/-- The step from `m` to `m1` neither creates nor loses an identity and keeps the model well
formed. -/
def SameIds (m m1 : ChatListModel) : Prop :=
  WellFormed m → WellFormed m1 ∧ (allIds m1).Perm (allIds m)


/-- The entity has no last message: the value stored under `last_message` is null. -/
def hasNoLastMessage (c : ChatData) : Prop := (QHash.value c.chatData LAST_MESSAGE).isNull = true

instance (c : ChatData) : Decidable (hasNoLastMessage c) :=
  inferInstanceAs (Decidable ((QHash.value c.chatData LAST_MESSAGE).isNull = true))

/-- A backend wrapper for examples that knows the group 5, in which the user is a member. -/
def sampleWrapperWithGroup : TDLibWrapper :=
  { sampleWrapper with
    getGroup := fun groupId =>
      if groupId = 5 then
        some { groupId := 5, groupInfo := [], chatMemberStatus := .ChatMemberStatusMember }
      else none }

/-- Collaborators for examples, with the group 5. -/
def sampleCollaboratorsWithGroup : Collaborators :=
  { tdLibWrapper := sampleWrapperWithGroup, appSettings := { onlineOnlyMode := false } }

/-- The payload of a supergroup chat of the given group, without a last message. -/
def supergroupChatPayload (chatId : Int) (order : String) (groupId : Int) : QVariantMap :=
  [("id", .num chatId), ("order", .string order),
    ("type", .map [("@type", .string "chatTypeSupergroup"), ("supergroup_id", .num groupId)])]

/-- A private chat 2 is discovered; while "show all" is on, the supergroup chat 1 (member, no
last message) is discovered in front of it; then the toggle is switched off. -/
def groupShownThenHiddenEvents : List (Collaborators × Event) :=
  [(sampleCollaboratorsWithGroup, .newChatDiscovered "2" (privateChatPayload 2 "10" true)),
   (sampleCollaboratorsWithGroup, .setShowAllChats true),
   (sampleCollaboratorsWithGroup, .newChatDiscovered "1" (supergroupChatPayload 1 "30" 5)),
   (sampleCollaboratorsWithGroup, .setShowAllChats false)]

/-- The secret chat 1 and, behind it, the private chat 2 are discovered; then the secret chat is
reported as closed. -/
def secretChatOvertakenEvents : List (Collaborators × Event) :=
  [(sampleCollaborators, .newChatDiscovered "1" (secretChatPayload 1 "20" 7)),
   (sampleCollaborators, .newChatDiscovered "2" (privateChatPayload 2 "10" true)),
   (sampleCollaborators, .secretChatUpdated 7 (secretChatClosed 7))]

/-- An entity for examples: a supergroup chat in which the user is a member, without a last
message. -/
def sampleGroupChat : ChatData :=
  { chatData := []
    chatId := 1
    order := 30
    groupId := 5
    verified := false
    chatType := .ChatTypeSupergroup
    memberStatus := .ChatMemberStatusMember
    secretChatState := .SecretChatStateUnknown }


/-- A model for examples: one visible chat, with a correct index. -/
def sampleSingletonModel : ChatListModel :=
  { ChatListModel.empty with
    chatList := [sampleChat 1 10]
    chatIndexMap := [(1, 0)] }

/-- The identity 1 is discovered, then the identity 2 behind it, then the identity 1 a second
time, behind both. -/
def duplicateIdentityEvents : List (Collaborators × Event) :=
  [(sampleCollaborators, .newChatDiscovered "1" (privateChatPayload 1 "30" true)),
   (sampleCollaborators, .newChatDiscovered "2" (privateChatPayload 2 "10" true)),
   (sampleCollaborators, .newChatDiscovered "1" (privateChatPayload 1 "5" true))]

/-- The identity an update event for one chat carries (for the events that carry it as text: the
result of the conversion, which is 0 when the text is not a number); `none` for the other
events. -/
def updatedIdentity : Event → Option Int
  | .chatLastMessageUpdated chatId _ _ => some (QString.toLongLong chatId).1
  | .chatOrderUpdated chatId _ => some (QString.toLongLong chatId).1
  | .chatReadInboxUpdated chatId _ _ => some (QString.toLongLong chatId).1
  | .chatReadOutboxUpdated chatId _ => some (QString.toLongLong chatId).1
  | .chatPhotoUpdated chatId _ => some chatId
  | .chatPinnedMessageUpdated chatId _ => some chatId
  | .messageSendSucceeded _ _ message => some (QHash.value message CHAT_ID).toLongLong
  | .chatNotificationSettingsUpdated chatId _ => some (QString.toLongLong chatId).1
  | .chatTitleUpdated chatId _ => some (QString.toLongLong chatId).1
  | .chatIsMarkedAsUnreadUpdated chatId _ => some chatId
  | .chatPinnedUpdated chatId _ => some chatId
  | .chatDraftMessageUpdated chatId _ _ => some chatId
  | .chatUnreadMentionCountUpdated chatId _ => some chatId
  | .chatUnreadReactionCountUpdated chatId _ => some chatId
  | .chatAvailableReactionsUpdated chatId _ => some chatId
  | _ => none


/-- A model for examples: a visible sequence in which the identity 1 occurs twice, and whose last
entity is out of place. -/
def duplicateIdentityModel : ChatListModel :=
  { ChatListModel.empty with
    chatList := [sampleChat 1 30, sampleChat 2 10, sampleChat 1 20]
    chatIndexMap := [(1, 2), (2, 1)] }


/-- The glyph for a last message the other side has read. -/
def glyphRead : String := "&nbsp;&nbsp;✅"

/-- The glyph for a last message that is still being sent. -/
def glyphPending : String := "&nbsp;&nbsp;🕙"

/-- The glyph for a last message that could not be sent. -/
def glyphFailed : String := "&nbsp;&nbsp;❌"

/-- The glyph for a last message that was sent and not yet read. -/
def glyphSent : String := "&nbsp;&nbsp;☑️"

/-- The id of the local user, as `senderMessageStatus` reads it from the wrapper. -/
def myUserId (tdLibWrapper : TDLibWrapper) : Int :=
  (QHash.value tdLibWrapper.getUserInformation ID).toLongLong

/-- The last message carries a sending state. -/
def hasSendingState (c : ChatData) : Bool :=
  QHash.contains (QHash.value c.chatData LAST_MESSAGE).toMap SENDING_STATE

/-- The last message carries a sending state of the type `messageSendingStatePending`. -/
def hasPendingState (c : ChatData) : Bool :=
  hasSendingState c &&
    decide ((QHash.value (QHash.value (QHash.value c.chatData LAST_MESSAGE).toMap
      SENDING_STATE).toMap _TYPE).toString = "messageSendingStatePending")

/-- The id of the last message equals the last-read-outbox id of the chat (`==` of `QVariant`). -/
def lastMessageIsRead (c : ChatData) : Bool :=
  (c.lastMessage ID).equals (QHash.value c.chatData LAST_READ_OUTBOX_MESSAGE_ID)

/-- A backend wrapper for examples whose local user has the id 100. -/
def sampleWrapperWithUser : TDLibWrapper :=
  { sampleWrapper with getUserInformation := [("id", .num 100)] }

/-- An entity for examples: the private chat 1 whose last message, with the id 42, was sent by
the user 100 and carries a pending sending state; the chat's last-read-outbox id is 42. -/
def sampleChatWithStatus : ChatData :=
  { sampleChat 1 10 with
    chatData :=
      [("last_message",
          .map [("id", .num 42), ("sender_id", .map [("user_id", .num 100)]),
            ("sending_state", .map [("@type", .string "messageSendingStatePending")])]),
        ("last_read_outbox_message_id", .num 42)] }


/-- The move notifications among the signals. -/
def Signal.isRowsMoved : Signal → Bool
  | .rowsMoved _ _ _ => true
  | _ => false

/-- The events that carry an order key, when the key they carry is empty. -/
def hasEmptyOrder : Event → Bool
  | .chatOrderUpdated _ order => decide (order = "")
  | .chatLastMessageUpdated _ order _ => decide (order = "")
  | .chatDraftMessageUpdated _ _ order => decide (order = "")
  | _ => false

/-- Nothing was reordered from `m` to `m1`: the signals emitted in between contain no move
notification, and the entities of the visible sequence of `m` stand in `m1` in the same relative
order. -/
def NotReordered (m m1 : ChatListModel) : Prop :=
  (∃ extra : List Signal, m1.emitted = m.emitted ++ extra ∧ ∀ s ∈ extra, s.isRowsMoved = false) ∧
  (chatIds m.chatList).Sublist (chatIds m1.chatList)

/-- An entity for examples: a private chat whose last message has the id 5. -/
def sampleChatWithMessage : ChatData :=
  { sampleChat 1 10 with chatData := [("last_message", .map [("id", .num 5)])] }


/-- The unread counts that `calculateUnreadState` adds up: those of the entities of the sequence
that have a positive unread count. -/
def unreadCounts (l : List ChatData) : List Int :=
  (l.map ChatData.unreadCount).filter (fun n => decide (n > 0))

/-- An entity for examples: a private chat with the given identity and unread count. -/
def sampleUnreadChat (chatId unreadCount : Int) : ChatData :=
  { sampleChat chatId 10 with chatData := [("unread_count", .num unreadCount)] }

/-- A model for examples: four visible chats with the unread counts 0, 3, 0 and 5, and a hidden
chat with the unread count 7. -/
def sampleUnreadModel : ChatListModel :=
  { ChatListModel.empty with
    chatList :=
      [sampleUnreadChat 4 0, sampleUnreadChat 3 3, sampleUnreadChat 2 0, sampleUnreadChat 1 5]
    chatIndexMap := [(4, 0), (3, 1), (2, 2), (1, 3)]
    hiddenChats := [(9, sampleUnreadChat 9 7)] }

/-- A model for examples: two visible chats with the unread count 2147483647 each. -/
def sampleOverflowModel : ChatListModel :=
  { ChatListModel.empty with
    chatList := [sampleUnreadChat 2 2147483647, sampleUnreadChat 1 2147483647]
    chatIndexMap := [(2, 0), (1, 1)] }


/-- A private chat without a last message is discovered: it enters the Hidden Set. -/
def hiddenPrivateChatEvents : List (Collaborators × Event) :=
  [(sampleCollaborators, .newChatDiscovered "1" (privateChatPayload 1 "10" false))]

/-- A message that was sent to the chat 1. -/
def sampleSentMessage : QVariantMap := [("chat_id", .num 1), ("id", .num 9)]


/-- The sequence `addVisibleChat` produces from the sequence `l` and the new entity `chat`:
`chat` is spliced in at the first position whose entity it sorts before. -/
def placeChat (chat : ChatData) (l : List ChatData) : List ChatData :=
  QList.insert l (l.findIdx (sortsBeforeTest chat)) chat

/-- A group for examples: the group 5, verified, in which the user is an administrator. -/
def sampleGroup : TDLibWrapper.Group :=
  { groupId := 5
    groupInfo := [("is_verified", .bool true)]
    chatMemberStatus := .ChatMemberStatusAdministrator }


/-- The member `ChatListModel::clone`: a new model is constructed, its timer is stopped, and the
clones of the entities of the visible sequence are appended to its list, in order. -/
def ChatListModel.clone (tdLibWrapper : TDLibWrapper) (m : ChatListModel) : ChatListModel :=
  let res := { ChatListModel.empty with relativeTimeRefreshTimerActive := false }
  m.chatList.foldl
    (fun res chat => { res with chatList := res.chatList ++ [chat.clone tdLibWrapper] }) res

/-- The numeric values of the three enums of the backend wrapper, which `data` returns for the
roles of the chat type, the member status and the secret chat state; the enums are declared in
`tdlibwrapper.h`. -/
structure EnumValues where
  chatType : TDLibWrapper.ChatType → Int
  memberStatus : TDLibWrapper.ChatMemberStatus → Int
  secretChatState : TDLibWrapper.SecretChatState → Int

/-- The member `roleNames`. -/
def ChatListModel.roleNames : List (Role × String) :=
  [(.RoleDisplay, "display"),
   (.RoleChatId, "chat_id"),
   (.RoleChatType, "chat_type"),
   (.RoleGroupId, "group_id"),
   (.RoleTitle, "title"),
   (.RolePhotoSmall, "photo_small"),
   (.RoleUnreadCount, "unread_count"),
   (.RoleUnreadMentionCount, "unread_mention_count"),
   (.RoleUnreadReactionCount, "unread_reaction_count"),
   (.RoleAvailableReactions, "available_reactions"),
   (.RoleLastReadInboxMessageId, "last_read_inbox_message_id"),
   (.RoleLastMessageSenderId, "last_message_sender_id"),
   (.RoleLastMessageDate, "last_message_date"),
   (.RoleLastMessageText, "last_message_text"),
   (.RoleLastMessageStatus, "last_message_status"),
   (.RoleChatMemberStatus, "chat_member_status"),
   (.RoleSecretChatState, "secret_chat_state"),
   (.RoleIsVerified, "is_verified"),
   (.RoleIsChannel, "is_channel"),
   (.RoleIsMarkedAsUnread, "is_marked_as_unread"),
   (.RoleIsPinned, "is_pinned"),
   (.RoleFilter, "filter"),
   (.RoleDraftMessageDate, "draft_message_date"),
   (.RoleDraftMessageText, "draft_message_text"),
   (.RoleChatFoldersList, "chat_folder"),
   (.RoleMainChatPositionId, "main_chats_folder_position")]

/-- The member `data(index, role)` for the row of the index; `none` when a list is read outside
of its bounds. -/
def ChatListModel.data (tdLibWrapper : TDLibWrapper) (enums : EnumValues) (m : ChatListModel)
    (row : Int) (role : Role) : Option QVariant :=
  if 0 ≤ row ∧ row < m.chatList.length then
    match m.chatList[row.toNat]? with
    | none => none
    | some data =>
      match role with
      | .RoleDisplay => some (.map data.chatData)
      | .RoleChatId => some (.num data.chatId)
      | .RoleChatType => some (.num (enums.chatType data.chatType))
      | .RoleGroupId => some (.num data.groupId)
      | .RoleTitle => some (.string data.title)
      | .RolePhotoSmall => some data.photoSmall
      | .RoleUnreadCount => some (.num data.unreadCount)
      | .RoleUnreadMentionCount => some (.num data.unreadMentionCount)
      | .RoleAvailableReactions => some data.availableReactions
      | .RoleUnreadReactionCount => some (.num data.unreadReactionCount)
      | .RoleLastReadInboxMessageId => some (.num data.lastReadInboxMessageId)
      | .RoleLastMessageSenderId => some (.num data.senderUserId)
      | .RoleLastMessageText => some (.string (data.senderMessageText tdLibWrapper))
      | .RoleLastMessageDate => some (.num data.senderMessageDate)
      | .RoleLastMessageStatus => some (.string (data.senderMessageStatus tdLibWrapper))
      | .RoleChatMemberStatus => some (.num (enums.memberStatus data.memberStatus))
      | .RoleSecretChatState => some (.num (enums.secretChatState data.secretChatState))
      | .RoleIsVerified => some (.bool data.verified)
      | .RoleIsChannel => some (.bool data.isChannel)
      | .RoleIsMarkedAsUnread => some (.bool data.isMarkedAsUnread)
      | .RoleIsPinned => some (.bool data.isPinned)
      | .RoleFilter =>
        some (.string (data.title ++ " " ++ data.senderMessageText tdLibWrapper))
      | .RoleDraftMessageText => some (.string data.draftMessageText)
      | .RoleDraftMessageDate => some (.num data.draftMessageDate)
      | .RoleChatFoldersList => (ChatListModel.getChatFolderList m)[row.toNat]?
      | .RoleMainChatPositionId => some (.num m.mainAllChatFolderPosition)
  else some .invalid

/-- The member `get(row)`: the values of all roles of `roleNames` at the row, under the names of
the roles; `none` when reading one of them reads a list outside of its bounds. -/
def ChatListModel.get (tdLibWrapper : TDLibWrapper) (enums : EnumValues) (m : ChatListModel)
    (row : Int) : Option QVariantMap :=
  ChatListModel.roleNames.foldl
    (fun res entry =>
      match res, ChatListModel.data tdLibWrapper enums m row entry.1 with
      | some res, some data => some (QHash.insert res entry.2 data)
      | _, _ => none)
    (some [])

/-- Enum values for examples: every value is numbered 0. -/
def sampleEnums : EnumValues :=
  { chatType := fun _ => 0, memberStatus := fun _ => 0, secretChatState := fun _ => 0 }

/-- A private chat with a last message is discovered: it is visible. -/
def visiblePrivateChatEvents : List (Collaborators × Event) :=
  [(sampleCollaborators, .newChatDiscovered "1" (privateChatPayload 1 "10" true))]


/-- A model for examples: the private chats 3 and 1 are visible, the chat 2 of unknown kind is
in the Hidden Set; the index is correct. -/
def sampleMixedModel : ChatListModel :=
  { ChatListModel.empty with
    chatList :=
      [{ sampleChat 3 30 with chatData := [("last_message", .map [("id", .num 5)])] },
       { sampleChat 1 10 with chatData := [("last_message", .map [("id", .num 5)])] }]
    chatIndexMap := [(3, 0), (1, 1)]
    hiddenChats := [(2, { sampleChat 2 20 with chatType := .ChatTypeUnknown })] }


/-- The removal notifications among the signals. -/
def Signal.isRowsRemoved : Signal → Bool
  | .rowsRemoved _ _ => true
  | _ => false

/-- The notifications emitted from `m` to `r` account for the rows: one removal notification
for each row that was removed and one insertion notification for each row that was inserted, so
that the removals and the length of the sequence of `r` add up to the length of the sequence of
`m` and the insertions. -/
def RowsAccounted (m r : ChatListModel) : Prop :=
  ∃ extra : List Signal, r.emitted = m.emitted ++ extra ∧
    extra.countP Signal.isRowsRemoved + r.chatList.length
      = m.chatList.length + extra.countP Signal.isRowsInserted

/-- The step from `m` to `r` keeps the model well formed and the index correct, and accounts
for the rows. -/
def KeepsIndex (m r : ChatListModel) : Prop :=
  WellFormed m ∧ IndexCorrect m.chatList m.chatIndexMap →
    (WellFormed r ∧ IndexCorrect r.chatList r.chatIndexMap) ∧ RowsAccounted m r

/-- How an observer that holds the sequence of identities `before` applies a list of signals:
a removal notification for the row `i` takes the row at position `i` out, an insertion
notification for the row `pos` puts a row (with some identity, which the observer reads from the
model) in at position `pos`, and a signal that is no row notification leaves the rows as they
are. `RowsReplay before signals after` says that the observer ends with the sequence `after`. -/
inductive RowsReplay : List Int → List Signal → List Int → Prop where
  | done (ids : List Int) : RowsReplay ids [] ids
  | removed (ids : List Int) (i : Nat) (rest : List Signal) (after : List Int)
      (hi : i < ids.length) (h : RowsReplay (QList.removeAt ids i) rest after) :
      RowsReplay ids (Signal.rowsRemoved i i :: rest) after
  | inserted (ids : List Int) (pos : Nat) (id : Int) (rest : List Signal) (after : List Int)
      (hpos : pos ≤ ids.length) (h : RowsReplay (QList.insert ids pos id) rest after) :
      RowsReplay ids (Signal.rowsInserted pos pos :: rest) after
  | other (ids : List Int) (s : Signal) (rest : List Signal) (after : List Int)
      (h1 : s.isRowsRemoved = false) (h2 : s.isRowsInserted = false)
      (h3 : s.isRowsMoved = false) (h : RowsReplay ids rest after) :
      RowsReplay ids (s :: rest) after

/-- The signals emitted from `m` to `r` announce every change of the rows at its position: an
observer that holds the identities of the visible sequence of `m` and applies the signals in
their order ends with the identities of the visible sequence of `r`. -/
def RowsReplayed (m r : ChatListModel) : Prop :=
  ∃ extra : List Signal, r.emitted = m.emitted ++ extra ∧
    RowsReplay (chatIds m.chatList) extra (chatIds r.chatList)

/-- A model for examples: the private chat 2, without a last message, is visible, and the private
chat 1, with a last message, is in the Hidden Set; the index is correct. -/
def sampleSwapModel : ChatListModel :=
  { ChatListModel.empty with
    chatList := [sampleChat 2 20]
    chatIndexMap := [(2, 0)]
    hiddenChats := [(1, sampleChatWithMessage)] }


/-- No entity classified hidden is shown while "show all" is off. -/
def NoHiddenShown (m : ChatListModel) : Prop :=
  m.showHiddenChats = false → ∀ c ∈ m.chatList, c.isHidden = false

/-- The step from `m` to `m1` does not show an entity classified hidden while "show all" is
off, if `m` shows none. -/
def KeepsShown (m m1 : ChatListModel) : Prop := NoHiddenShown m → NoHiddenShown m1

/-! ## The comparator -/

theorem compareTo_eq_neg_one_or_one (a b : ChatData) :
    a.compareTo b = -1 ∨ a.compareTo b = 1 := by
  unfold ChatData.compareTo
  split_ifs <;> simp

/-- The relation "sorts before" spelled out on the two keys. -/
theorem sortsBefore_iff (a b : ChatData) :
    SortsBefore a b ↔ b.order < a.order ∨ (a.order = b.order ∧ b.chatId ≤ a.chatId) := by
  unfold SortsBefore ChatData.compareTo
  split_ifs with h1 h2 h3 <;> constructor <;> intro h <;> omega

theorem sortsBefore_trans {a b c : ChatData} (hab : SortsBefore a b) (hbc : SortsBefore b c) :
    SortsBefore a c := by
  rw [sortsBefore_iff] at hab hbc ⊢
  omega

theorem sortsBefore_total (a b : ChatData) : SortsBefore a b ∨ SortsBefore b a := by
  rw [sortsBefore_iff, sortsBefore_iff]
  omega

/-- Of two entities, the one that does not sort before the other sorts after it. -/
theorem sortsBefore_of_not {a b : ChatData} (h : ¬ SortsBefore a b) : SortsBefore b a := by
  rw [sortsBefore_iff] at h ⊢
  omega

theorem not_sortsBefore_of_sortsBefore {a b : ChatData} (hne : a.chatId ≠ b.chatId)
    (h : SortsBefore a b) : ¬ SortsBefore b a := by
  intro hba
  rw [sortsBefore_iff] at h hba
  omega

/-- C8. `compareTo` is the documented order and never reports equality: the result is `-1` or
`1`, never `0`; it is `-1` when `a.order > b.order` and `1` when `a.order < b.order`; with equal
order keys and different identities it is `-1` exactly when `a.chatId > b.chatId`, so identity
200 sorts before identity 100. -/
theorem compareTo_documented_order (a b : ChatData) :
    (a.compareTo b = -1 ∨ a.compareTo b = 1) ∧ a.compareTo b ≠ 0 ∧
    (a.order > b.order → a.compareTo b = -1) ∧
    (a.order < b.order → a.compareTo b = 1) ∧
    (a.order = b.order → a.chatId ≠ b.chatId →
      (a.compareTo b = -1 ↔ a.chatId > b.chatId)) ∧
    (a.order = b.order → a.chatId = 200 → b.chatId = 100 →
      a.compareTo b = -1 ∧ b.compareTo a = 1) := by
  refine ⟨compareTo_eq_neg_one_or_one a b, ?_, ?_, ?_, ?_, ?_⟩
  · rcases compareTo_eq_neg_one_or_one a b with h | h <;> rw [h] <;> decide
  · intro h
    unfold ChatData.compareTo
    rw [if_neg (by omega), if_neg (by omega)]
  · intro h
    unfold ChatData.compareTo
    rw [if_neg (by omega), if_pos h]
  · intro h hne
    unfold ChatData.compareTo
    rw [if_pos h]
    split_ifs with h1
    · constructor
      · intro h2; simp at h2
      · intro h2; omega
    · constructor
      · intro _; omega
      · intro _; rfl
  · intro h ha hb
    unfold ChatData.compareTo
    rw [if_pos h, if_pos h.symm, ha, hb]
    decide

/-- C8, at two entities with order key 5 and the identities 200 and 100. -/
theorem compareTo_documented_order_witness :
    (sampleChat 200 5).compareTo (sampleChat 100 5) = -1 ∧
    (sampleChat 100 5).compareTo (sampleChat 200 5) = 1 :=
  (compareTo_documented_order (sampleChat 200 5) (sampleChat 100 5)).2.2.2.2.2 rfl rfl rfl

/-- C9. `compareTo` is transitive: for entities `a`, `b`, `c` with pairwise distinct identities,
if `a` sorts before `b` and `b` sorts before `c` then `a` sorts before `c`, whatever the order
keys and identities are. -/
theorem compareTo_transitive (a b c : ChatData) (_hab : a.chatId ≠ b.chatId)
    (_hbc : b.chatId ≠ c.chatId) (_hac : a.chatId ≠ c.chatId)
    (h1 : a.compareTo b < 0) (h2 : b.compareTo c < 0) : a.compareTo c < 0 :=
  @sortsBefore_trans a b c h1 h2

/-- C9, at three entities with the order keys 30, 20, 20 and the identities 1, 3, 2. -/
theorem compareTo_transitive_witness :
    (sampleChat 1 30).compareTo (sampleChat 2 20) < 0 :=
  compareTo_transitive (sampleChat 1 30) (sampleChat 3 20) (sampleChat 2 20)
    (by decide) (by decide) (by decide) (by decide) (by decide)

/-- C10. `compareTo` is antisymmetric on distinct entities: for entities with different
identities `a.compareTo(b) = -(b.compareTo(a))`, so exactly one of the two sorts before the
other. -/
theorem compareTo_antisymmetric (a b : ChatData) (hne : a.chatId ≠ b.chatId) :
    a.compareTo b = -(b.compareTo a) ∧
    ((a.compareTo b < 0 ∧ ¬ b.compareTo a < 0) ∨ (¬ a.compareTo b < 0 ∧ b.compareTo a < 0)) := by
  have key : a.compareTo b = -(b.compareTo a) := by
    unfold ChatData.compareTo
    split_ifs <;> first | rfl | omega
  refine ⟨key, ?_⟩
  rcases compareTo_eq_neg_one_or_one b a with h | h <;> rw [key, h] <;> decide

/-- C10, at two entities with equal order key. -/
theorem compareTo_antisymmetric_witness :
    (sampleChat 100 5).compareTo (sampleChat 200 5) =
      -((sampleChat 200 5).compareTo (sampleChat 100 5)) :=
  (compareTo_antisymmetric (sampleChat 100 5) (sampleChat 200 5) (by decide)).1

/-! ## Containers -/

section Containers

variable {K V : Type} [DecidableEq K]

theorem QHash.find_remove (m : QHash K V) (key k : K) :
    QHash.find (QHash.remove m key) k = if k = key then none else QHash.find m k := by
  induction m with
  | nil => simp [QHash.remove, QHash.find]
  | cons p m ih =>
    obtain ⟨k1, v1⟩ := p
    unfold QHash.remove at ih ⊢
    by_cases h1 : k1 = key
    · subst h1
      simp only [List.filter_cons, ne_eq, not_true_eq_false, decide_False, Bool.false_eq_true,
        if_false, ih, QHash.find]
      by_cases h2 : k = k1
      · simp [h2]
      · have h3 : ¬ k1 = k := fun e => h2 e.symm
        simp [h2, h3]
    · simp only [List.filter_cons, ne_eq, h1, not_false_eq_true, decide_True, if_true,
        QHash.find, ih]
      by_cases h2 : k1 = k
      · subst h2
        simp [h1]
      · simp [h2]

theorem QHash.find_insert_self (m : QHash K V) (key : K) (v : V) :
    QHash.find (QHash.insert m key v) key = some v := by
  simp [QHash.insert, QHash.find]

theorem QHash.find_insert_of_ne (m : QHash K V) {key k : K} (v : V) (h : k ≠ key) :
    QHash.find (QHash.insert m key v) k = QHash.find m k := by
  have h1 : ¬ key = k := fun e => h e.symm
  simp [QHash.insert, QHash.find, h1, QHash.find_remove, h]

theorem QList.insert_zero {α : Type} (l : List α) (x : α) : QList.insert l 0 x = x :: l := by
  simp [QList.insert]

theorem QList.insert_cons_succ {α : Type} (y : α) (l : List α) (k : Nat) (x : α) :
    QList.insert (y :: l) (k + 1) x = y :: QList.insert l k x := by
  simp [QList.insert]

theorem QList.insert_nil {α : Type} (k : Nat) (x : α) : QList.insert [] k x = [x] := by
  simp [QList.insert]

theorem QList.length_insert {α : Type} (l : List α) (k : Nat) (x : α) :
    (QList.insert l k x).length = l.length + 1 := by
  simp only [QList.insert, List.length_append, List.length_cons, List.length_take,
    List.length_drop]
  omega

theorem QList.insert_perm {α : Type} (l : List α) (k : Nat) (x : α) :
    (QList.insert l k x).Perm (x :: l) := by
  unfold QList.insert
  have h : (x :: l).Perm (x :: (List.take k l ++ List.drop k l)) := by
    rw [List.take_append_drop]
  exact List.perm_middle.trans h.symm

end Containers

/-! ## The scan of `addVisibleChat` -/

/-- The scan stops at the first position from `pos` on whose entity the new one sorts before. -/
theorem scanPosition_eq (chat : ChatData) (l : List ChatData) :
    ∀ (rounds pos : Nat), l.length ≤ pos + rounds →
      ChatListModel.scanPosition chat l rounds pos
        = pos + (l.drop pos).findIdx (sortsBeforeTest chat) := by
  intro rounds
  induction rounds with
  | zero =>
    intro pos h
    have h1 : l.drop pos = [] := List.drop_eq_nil_of_le (by omega)
    simp [ChatListModel.scanPosition, h1]
  | succ r ih =>
    intro pos h
    unfold ChatListModel.scanPosition
    by_cases hp : pos < l.length
    · rw [dif_pos hp, List.drop_eq_getElem_cons hp, List.findIdx_cons]
      by_cases hc : chat.compareTo (l.get ⟨pos, hp⟩) ≥ 0
      · rw [if_pos hc, ih (pos + 1) (by omega)]
        have h2 : sortsBeforeTest chat l[pos] = false := by
          simp only [sortsBeforeTest, decide_eq_false_iff_not, not_lt]
          exact hc
        rw [h2]
        simp only [cond_false]
        omega
      · rw [if_neg hc]
        have h2 : sortsBeforeTest chat l[pos] = true := by
          simp only [sortsBeforeTest, decide_eq_true_eq]
          simpa using hc
        rw [h2]
        simp
    · have h1 : l.drop pos = [] := List.drop_eq_nil_of_le (by omega)
      rw [dif_neg hp, h1]
      simp

/-- The position found by `addVisibleChat`: the first position whose entity the new one sorts
before, the length of the list if there is none. -/
theorem scanPosition_eq_findIdx (chat : ChatData) (l : List ChatData) :
    ChatListModel.scanPosition chat l l.length 0 = l.findIdx (sortsBeforeTest chat) := by
  rw [scanPosition_eq chat l l.length 0 (by omega)]
  simp

/-! ## `addVisibleChat` -/

/-- The visible sequence after `addVisibleChat`: the new entity is spliced in at the position
the scan found. -/
theorem addVisibleChat_chatList (td : TDLibWrapper) (m : ChatListModel) (chat : ChatData) :
    (ChatListModel.addVisibleChat td m chat).chatList
      = QList.insert m.chatList (m.chatList.findIdx (sortsBeforeTest chat)) chat := by
  unfold ChatListModel.addVisibleChat ChatListModel.enableRefreshTimer
  simp only [scanPosition_eq_findIdx]
  split_ifs <;> rfl

theorem addVisibleChat_hiddenChats (td : TDLibWrapper) (m : ChatListModel) (chat : ChatData) :
    (ChatListModel.addVisibleChat td m chat).hiddenChats = m.hiddenChats := by
  unfold ChatListModel.addVisibleChat ChatListModel.enableRefreshTimer
  dsimp only
  split_ifs <;> rfl

theorem addVisibleChat_showHiddenChats (td : TDLibWrapper) (m : ChatListModel)
    (chat : ChatData) :
    (ChatListModel.addVisibleChat td m chat).showHiddenChats = m.showHiddenChats := by
  unfold ChatListModel.addVisibleChat ChatListModel.enableRefreshTimer
  dsimp only
  split_ifs <;> rfl

/-- Splicing an entity into a sorted sequence, at the first position whose entity it sorts
before, gives a sorted sequence. -/
theorem sortedChats_insert_findIdx (chat : ChatData) :
    ∀ l : List ChatData, SortedChats l →
      SortedChats (QList.insert l (l.findIdx (sortsBeforeTest chat)) chat) := by
  intro l
  induction l with
  | nil =>
    intro _
    simp [QList.insert_nil, SortedChats]
  | cons x xs ih =>
    intro hs
    rw [List.findIdx_cons]
    by_cases hc : sortsBeforeTest chat x = true
    · rw [hc]
      simp only [cond_true, QList.insert_zero]
      unfold SortedChats at hs ⊢
      rw [List.chain'_cons]
      refine ⟨?_, hs⟩
      simpa [sortsBeforeTest] using hc
    · have hc2 : sortsBeforeTest chat x = false := by simpa using hc
      rw [hc2]
      simp only [cond_false, QList.insert_cons_succ]
      have hxs : SortedChats xs := by
        unfold SortedChats at hs ⊢
        exact hs.tail
      have ih1 := ih hxs
      have hx : SortsBefore x chat := by
        apply sortsBefore_of_not
        simpa [sortsBeforeTest, SortsBefore] using hc2
      unfold SortedChats at hs ih1 ⊢
      rw [List.chain'_cons']
      refine ⟨?_, ih1⟩
      intro y hy
      cases xs with
      | nil =>
        simp [QList.insert_nil] at hy
        rw [← hy]; exact hx
      | cons z zs =>
        rw [List.findIdx_cons] at hy
        by_cases hz : sortsBeforeTest chat z = true
        · rw [hz] at hy
          simp [QList.insert_zero] at hy
          rw [← hy]; exact hx
        · have hz2 : sortsBeforeTest chat z = false := by simpa using hz
          rw [hz2] at hy
          simp [QList.insert_cons_succ] at hy
          rw [← hy]
          exact (List.chain'_cons.mp hs).1

/-- C1. `addVisibleChat` preserves the total order: if the visible sequence is sorted (each
entity sorts before its successor under `compareTo`) and the identity of the new entity does not
occur in it, the sequence after `addVisibleChat` is sorted again. -/
theorem addVisibleChat_preserves_order (td : TDLibWrapper) (m : ChatListModel)
    (chat : ChatData) (hsorted : SortedChats m.chatList)
    (_hnew : ∀ x ∈ m.chatList, x.chatId ≠ chat.chatId) :
    SortedChats (ChatListModel.addVisibleChat td m chat).chatList := by
  rw [addVisibleChat_chatList]
  exact sortedChats_insert_findIdx chat m.chatList hsorted

/-- C1, at a sorted sequence of two chats and a new chat that belongs between them. -/
theorem addVisibleChat_preserves_order_witness :
    SortedChats
      (ChatListModel.addVisibleChat sampleWrapper sampleModel (sampleChat 3 15)).chatList :=
  addVisibleChat_preserves_order sampleWrapper sampleModel (sampleChat 3 15)
    (by decide) (by decide)

/-! ## The identity→position index -/

theorem indexCorrect_iff (l : List ChatData) (map : QHash Int Nat) :
    IndexCorrect l map ↔ ∀ (p : Nat) (c : ChatData), l[p]? = some c →
      QHash.find map c.chatId = some p := by
  constructor
  · intro h p c hc
    obtain ⟨hp, rfl⟩ := List.getElem?_eq_some.mp hc
    exact h p hp
  · intro h p hp
    exact h p _ (List.getElem?_eq_getElem hp)

theorem chatIds_getElem? (l : List ChatData) (p : Nat) :
    (chatIds l)[p]? = (l[p]?).map (fun c => c.chatId) := by
  simp [chatIds]

/-- In a sequence with pairwise distinct identities, an identity determines the position. -/
theorem position_unique {l : List ChatData} (hnd : (chatIds l).Nodup) {p q : Nat}
    {c d : ChatData} (hc : l[p]? = some c) (hd : l[q]? = some d)
    (hid : c.chatId = d.chatId) : p = q := by
  have h1 : (chatIds l)[p]? = some c.chatId := by rw [chatIds_getElem?, hc]; rfl
  have h2 : (chatIds l)[q]? = some d.chatId := by rw [chatIds_getElem?, hd]; rfl
  obtain ⟨hp, e1⟩ := List.getElem?_eq_some.mp h1
  obtain ⟨hq, e2⟩ := List.getElem?_eq_some.mp h2
  exact (List.Nodup.getElem_inj_iff hnd).mp (by rw [e1, e2, hid])

/-- A correct index forces the identities of the sequence to be pairwise distinct. -/
theorem IndexCorrect.nodup {l : List ChatData} {map : QHash Int Nat}
    (h : IndexCorrect l map) : (chatIds l).Nodup := by
  rw [indexCorrect_iff] at h
  rw [List.nodup_iff_injective_get]
  intro i j hij
  have hi : i.1 < l.length := by simpa [chatIds] using i.2
  have hj : j.1 < l.length := by simpa [chatIds] using j.2
  have e1 := h i.1 _ (List.getElem?_eq_getElem hi)
  have e2 := h j.1 _ (List.getElem?_eq_getElem hj)
  have hij2 : l[i.1].chatId = l[j.1].chatId := by
    simpa [chatIds] using hij
  rw [hij2, e2] at e1
  exact Fin.ext (Option.some.inj e1).symm

theorem insertPositions_find_outside (key : Int) :
    ∀ (chats : List ChatData) (map : QHash Int Nat) (i : Nat), key ∉ chatIds chats →
      QHash.find (ChatListModel.insertPositions map chats i) key = QHash.find map key := by
  intro chats
  induction chats with
  | nil => intro map i _; rfl
  | cons c rest ih =>
    intro map i hk
    simp only [chatIds, List.map_cons, List.mem_cons, not_or] at hk
    rw [ChatListModel.insertPositions, ih _ _ hk.2, QHash.find_insert_of_ne _ _ hk.1]

theorem insertPositions_find_inside :
    ∀ (chats : List ChatData) (map : QHash Int Nat) (i : Nat), (chatIds chats).Nodup →
      ∀ (j : Nat) (c : ChatData), chats[j]? = some c →
        QHash.find (ChatListModel.insertPositions map chats i) c.chatId = some (i + j) := by
  intro chats
  induction chats with
  | nil => intro map i _ j c hc; simp at hc
  | cons c0 rest ih =>
    intro map i hnd j c hc
    simp only [chatIds, List.map_cons, List.nodup_cons] at hnd
    rw [ChatListModel.insertPositions]
    cases j with
    | zero =>
      simp only [List.getElem?_cons_zero, Option.some.injEq] at hc
      subst hc
      rw [insertPositions_find_outside _ _ _ _ hnd.1, QHash.find_insert_self]
      rfl
    | succ j =>
      simp only [List.getElem?_cons_succ] at hc
      rw [ih _ (i + 1) hnd.2 j c hc]
      congr 1
      omega

theorem reindex_find_inside {l : List ChatData} (hnd : (chatIds l).Nodup)
    (map : QHash Int Nat) {a b q : Nat} {c : ChatData} (ha : a ≤ q) (hb : q < b)
    (hc : l[q]? = some c) :
    QHash.find (ChatListModel.reindex l map a b) c.chatId = some q := by
  unfold ChatListModel.reindex
  have hsub : (chatIds ((l.take b).drop a)).Nodup := by
    unfold chatIds at hnd ⊢
    exact List.Nodup.sublist
      (((List.drop_sublist a _).trans (List.take_sublist b l)).map _) hnd
  have hget : ((l.take b).drop a)[q - a]? = some c := by
    rw [List.getElem?_drop, List.getElem?_take]
    have e : a + (q - a) = q := by omega
    rw [e, if_pos hb, hc]
  rw [insertPositions_find_inside _ map a hsub (q - a) c hget]
  congr 1
  omega

theorem reindex_find_outside (l : List ChatData) (map : QHash Int Nat) (a b : Nat)
    (key : Int)
    (hout : ∀ (q : Nat) (c : ChatData), a ≤ q → q < b → l[q]? = some c → c.chatId ≠ key) :
    QHash.find (ChatListModel.reindex l map a b) key = QHash.find map key := by
  unfold ChatListModel.reindex
  apply insertPositions_find_outside
  intro hmem
  simp only [chatIds, List.mem_map] at hmem
  obtain ⟨c, hc, hid⟩ := hmem
  obtain ⟨j, hj, e⟩ := List.mem_iff_getElem.mp hc
  have hget : ((l.take b).drop a)[j]? = some c := by
    rw [List.getElem?_eq_getElem hj, e]
  rw [List.getElem?_drop, List.getElem?_take] at hget
  by_cases hlt : a + j < b
  · rw [if_pos hlt] at hget
    exact hout (a + j) c (by omega) hlt hget hid
  · rw [if_neg hlt] at hget
    cases hget

theorem QList.getElem?_insert {α : Type} (l : List α) {k : Nat} (hk : k ≤ l.length) (x : α)
    (p : Nat) :
    (QList.insert l k x)[p]? = if p < k then l[p]? else if p = k then some x else l[p - 1]? := by
  unfold QList.insert
  have hlen : (List.take k l).length = k := by
    rw [List.length_take]; omega
  rw [List.getElem?_append, hlen]
  by_cases h1 : p < k
  · rw [if_pos h1, if_pos h1, List.getElem?_take, if_pos h1]
  · rw [if_neg h1, if_neg h1]
    by_cases h2 : p = k
    · subst h2
      simp
    · rw [if_neg h2]
      obtain ⟨r, hr⟩ : ∃ r, p - k = r + 1 := ⟨p - k - 1, by omega⟩
      rw [hr, List.getElem?_cons_succ, List.getElem?_drop]
      congr 1
      omega

theorem addVisibleChat_chatIndexMap (td : TDLibWrapper) (m : ChatListModel)
    (chat : ChatData) :
    (ChatListModel.addVisibleChat td m chat).chatIndexMap
      = ChatListModel.reindex
          (QList.insert m.chatList (m.chatList.findIdx (sortsBeforeTest chat)) chat)
          (QHash.insert m.chatIndexMap chat.chatId (m.chatList.findIdx (sortsBeforeTest chat)))
          (m.chatList.findIdx (sortsBeforeTest chat) + 1) (m.chatList.length + 1) := by
  unfold ChatListModel.addVisibleChat ChatListModel.enableRefreshTimer
  simp only [scanPosition_eq_findIdx]
  split_ifs <;> rfl

theorem addVisibleChat_emitted (td : TDLibWrapper) (m : ChatListModel) (chat : ChatData) :
    (ChatListModel.addVisibleChat td m chat).emitted
      = m.emitted ++
          ([Signal.rowsInserted (m.chatList.findIdx (sortsBeforeTest chat))
              (m.chatList.findIdx (sortsBeforeTest chat)), Signal.countChanged] ++
            if td.getJoinChatRequested then
              [Signal.registerJoinChat,
                Signal.chatJoined chat.chatId (QHash.value chat.chatData "title").toString]
            else []) := by
  unfold ChatListModel.addVisibleChat ChatListModel.enableRefreshTimer
  simp only [scanPosition_eq_findIdx]
  split_ifs <;> simp

/-- Splicing a new entity in and rewriting the map from the next position on keeps the index
correct. -/
theorem indexCorrect_insert {l : List ChatData} {map : QHash Int Nat}
    (hidx : IndexCorrect l map) (chat : ChatData)
    (hnew : ∀ x ∈ l, x.chatId ≠ chat.chatId) {pos : Nat} (hpos : pos ≤ l.length) :
    IndexCorrect (QList.insert l pos chat)
      (ChatListModel.reindex (QList.insert l pos chat) (QHash.insert map chat.chatId pos)
        (pos + 1) (l.length + 1)) := by
  have hnd : (chatIds l).Nodup := hidx.nodup
  have hnd1 : (chatIds (QList.insert l pos chat)).Nodup := by
    have hp : (chatIds (QList.insert l pos chat)).Perm (chatIds (chat :: l)) :=
      (QList.insert_perm l pos chat).map _
    rw [hp.nodup_iff]
    simp only [chatIds, List.map_cons, List.nodup_cons, List.mem_map, not_exists, not_and]
    exact ⟨fun x hx => hnew x hx, hnd⟩
  rw [indexCorrect_iff] at hidx ⊢
  intro p c hc
  by_cases h1 : pos + 1 ≤ p
  · have hlt : p < l.length + 1 := by
      have := (List.getElem?_eq_some.mp hc).1
      rw [QList.length_insert] at this
      exact this
    exact reindex_find_inside hnd1 _ h1 hlt hc
  · rw [reindex_find_outside]
    · rw [QList.getElem?_insert l hpos] at hc
      by_cases h2 : p < pos
      · rw [if_pos h2] at hc
        have hne : c.chatId ≠ chat.chatId := hnew c (List.getElem?_mem hc)
        rw [QHash.find_insert_of_ne _ _ hne]
        exact hidx p c hc
      · have h3 : p = pos := by omega
        rw [if_neg h2, if_pos h3] at hc
        cases hc
        rw [QHash.find_insert_self, h3]
    · intro q d hq1 _ hd hid
      have := position_unique hnd1 hd hc hid
      omega

/-- C4. `addVisibleChat` keeps the identity→position index correct: if `chatIndexMap` maps every
entity of the visible sequence to its position and the identity of the new entity `chat` is not
in the sequence, then afterwards the sequence is the old one with `chat` spliced in at `pos`
(the first position whose entity `chat` sorts before, or the old length if there is none), its
length grew by one, `chatIndexMap` maps every entity of the new sequence (`chat` included) to its
position, and exactly one insertion notification, for position `pos`, was emitted. -/
theorem addVisibleChat_keeps_index (td : TDLibWrapper) (m : ChatListModel) (chat : ChatData)
    (hidx : IndexCorrect m.chatList m.chatIndexMap)
    (hnew : ∀ x ∈ m.chatList, x.chatId ≠ chat.chatId) :
    ∃ pos : Nat, pos ≤ m.chatList.length ∧
      (∀ (q : Nat) (c : ChatData), q < pos → m.chatList[q]? = some c → ¬ SortsBefore chat c) ∧
      (∀ c : ChatData, m.chatList[pos]? = some c → SortsBefore chat c) ∧
      (ChatListModel.addVisibleChat td m chat).chatList
        = m.chatList.take pos ++ chat :: m.chatList.drop pos ∧
      (ChatListModel.addVisibleChat td m chat).chatList.length = m.chatList.length + 1 ∧
      IndexCorrect (ChatListModel.addVisibleChat td m chat).chatList
        (ChatListModel.addVisibleChat td m chat).chatIndexMap ∧
      QHash.find (ChatListModel.addVisibleChat td m chat).chatIndexMap chat.chatId = some pos ∧
      ∃ more : List Signal,
        (ChatListModel.addVisibleChat td m chat).emitted = m.emitted ++ more ∧
        more.filter Signal.isRowsInserted = [Signal.rowsInserted pos pos] := by
  have hpos : m.chatList.findIdx (sortsBeforeTest chat) ≤ m.chatList.length :=
    List.findIdx_le_length _
  have hcorrect := indexCorrect_insert hidx chat hnew hpos
  refine ⟨m.chatList.findIdx (sortsBeforeTest chat), hpos, ?_, ?_, ?_, ?_, ?_, ?_, ?_⟩
  · intro q c hq hc
    have h := List.not_of_lt_findIdx hq
    obtain ⟨hq2, e⟩ := List.getElem?_eq_some.mp hc
    rw [e] at h
    simpa [sortsBeforeTest, SortsBefore] using h
  · intro c hc
    have h := List.findIdx_of_getElem?_eq_some hc
    simpa [sortsBeforeTest, SortsBefore] using h
  · rw [addVisibleChat_chatList]
    rfl
  · rw [addVisibleChat_chatList, QList.length_insert]
  · rw [addVisibleChat_chatList, addVisibleChat_chatIndexMap]
    exact hcorrect
  · rw [addVisibleChat_chatIndexMap]
    rw [indexCorrect_iff] at hcorrect
    apply hcorrect
    rw [QList.getElem?_insert _ hpos]
    simp
  · refine ⟨_, addVisibleChat_emitted td m chat, ?_⟩
    split_ifs <;> simp [Signal.isRowsInserted]

theorem sampleModel_indexCorrect : IndexCorrect sampleModel.chatList sampleModel.chatIndexMap := by
  rw [indexCorrect_iff]
  intro p c hc
  match p, hc with
  | 0, hc => cases hc; decide
  | 1, hc => cases hc; decide
  | p + 2, hc => simp [sampleModel] at hc

/-- C4, at a sorted sequence of two chats with a correct index and a new chat that belongs
between them. -/
theorem addVisibleChat_keeps_index_witness :
    IndexCorrect
      (ChatListModel.addVisibleChat sampleWrapper sampleModel (sampleChat 3 15)).chatList
      (ChatListModel.addVisibleChat sampleWrapper sampleModel (sampleChat 3 15)).chatIndexMap :=
  (addVisibleChat_keeps_index sampleWrapper sampleModel (sampleChat 3 15)
    sampleModel_indexCorrect (by decide)).elim (fun _ h => h.2.2.2.2.2.1)

/-! ## `updateChatOrder` -/

/-- The backward probe moves down, over entities the probing one sorts before, and stops at the
front or behind an entity it does not sort before. -/
theorem probeBackward_spec (chat : ChatData) (l : List ChatData) :
    ∀ (k : Nat) (h : k ≤ l.length),
      ChatListModel.probeBackward chat l k h ≤ k ∧
      (∀ (q : Nat) (c : ChatData), ChatListModel.probeBackward chat l k h ≤ q → q < k →
        l[q]? = some c → SortsBefore chat c) ∧
      (∀ (q : Nat) (c : ChatData), q + 1 = ChatListModel.probeBackward chat l k h →
        l[q]? = some c → ¬ SortsBefore chat c) := by
  intro k
  induction k with
  | zero =>
    intro h
    refine ⟨Nat.le_refl _, ?_, ?_⟩
    · intro q c _ hq; omega
    · intro q c hq; simp [ChatListModel.probeBackward] at hq
  | succ k ih =>
    intro h
    have hk : k < l.length := h
    unfold ChatListModel.probeBackward
    by_cases hc : chat.compareTo (l.get ⟨k, h⟩) < 0
    · rw [if_pos hc]
      obtain ⟨h1, h2, h3⟩ := ih (Nat.le_of_succ_le h)
      refine ⟨by omega, ?_, h3⟩
      intro q c hq1 hq2 hqc
      by_cases hqk : q = k
      · subst hqk
        rw [List.getElem?_eq_getElem hk] at hqc
        cases hqc
        exact hc
      · exact h2 q c hq1 (by omega) hqc
    · rw [if_neg hc]
      refine ⟨Nat.le_refl _, ?_, ?_⟩
      · intro q c hq1 hq2; omega
      · intro q c hq hqc
        have hqk : q = k := by omega
        subst hqk
        rw [List.getElem?_eq_getElem hk] at hqc
        cases hqc
        exact hc

/-- The forward probe moves up, over entities the probing one sorts after, and stops at the last
position or in front of an entity it does not sort after. -/
theorem probeForward_spec (chat : ChatData) (l : List ChatData) :
    ∀ (rounds j0 : Nat), l.length ≤ j0 + 1 + rounds →
      j0 ≤ ChatListModel.probeForward chat l rounds j0 ∧
      (j0 < l.length → ChatListModel.probeForward chat l rounds j0 < l.length) ∧
      (∀ (q : Nat) (c : ChatData), j0 < q → q ≤ ChatListModel.probeForward chat l rounds j0 →
        l[q]? = some c → chat.compareTo c > 0) ∧
      (∀ c : ChatData, l[ChatListModel.probeForward chat l rounds j0 + 1]? = some c →
        ¬ chat.compareTo c > 0) := by
  intro rounds
  induction rounds with
  | zero =>
    intro j0 h
    refine ⟨Nat.le_refl _, fun h0 => h0, ?_, ?_⟩
    · intro q c h1 h2; simp only [ChatListModel.probeForward] at h2; omega
    · intro c hc
      have := (List.getElem?_eq_some.mp hc).1
      simp only [ChatListModel.probeForward] at this
      omega
  | succ r ih =>
    intro j0 h
    unfold ChatListModel.probeForward
    by_cases hn : j0 + 1 < l.length
    · rw [dif_pos hn]
      by_cases hc : chat.compareTo (l.get ⟨j0 + 1, hn⟩) > 0
      · rw [if_pos hc]
        obtain ⟨h1, h2, h3, h4⟩ := ih (j0 + 1) (by omega)
        refine ⟨by omega, fun _ => h2 hn, ?_, h4⟩
        intro q c hq1 hq2 hqc
        by_cases hqk : q = j0 + 1
        · subst hqk
          rw [List.getElem?_eq_getElem hn] at hqc
          cases hqc
          exact hc
        · exact h3 q c (by omega) hq2 hqc
      · rw [if_neg hc]
        refine ⟨Nat.le_refl _, fun h0 => h0, ?_, ?_⟩
        · intro q c h1 h2; omega
        · intro c hqc
          rw [List.getElem?_eq_getElem hn] at hqc
          cases hqc
          exact hc
    · rw [dif_neg hn]
      refine ⟨Nat.le_refl _, fun h0 => h0, ?_, ?_⟩
      · intro q c h1 h2; omega
      · intro c hqc
        have := (List.getElem?_eq_some.mp hqc).1
        omega

/-- The result of `updateChatOrder` at a position of the list, in one expression. -/
theorem updateChatOrder_eq (m : ChatListModel) (i : Nat) (h : i < m.chatList.length) :
    ChatListModel.updateChatOrder m i =
      some
        (if probedIndex m.chatList i h ≠ i then
          { m with
            chatList := QList.move m.chatList i (probedIndex m.chatList i h)
            chatIndexMap :=
              if probedIndex m.chatList i h < i then
                ChatListModel.reindex (QList.move m.chatList i (probedIndex m.chatList i h))
                  (QHash.insert m.chatIndexMap (m.chatList.get ⟨i, h⟩).chatId
                    (probedIndex m.chatList i h))
                  (probedIndex m.chatList i h + 1) (max i (probedIndex m.chatList i h) + 1)
              else
                ChatListModel.reindex (QList.move m.chatList i (probedIndex m.chatList i h))
                  (QHash.insert m.chatIndexMap (m.chatList.get ⟨i, h⟩).chatId
                    (probedIndex m.chatList i h))
                  i (max i (probedIndex m.chatList i h))
            emitted :=
              m.emitted ++
                [Signal.rowsMoved i i
                  (if probedIndex m.chatList i h < i then probedIndex m.chatList i h
                   else probedIndex m.chatList i h + 1)] }
         else m,
         probedIndex m.chatList i h) := by
  unfold ChatListModel.updateChatOrder
  rw [dif_pos h]
  unfold probedIndex
  dsimp only
  split_ifs <;> rfl

theorem updateChatOrder_none (m : ChatListModel) (i : Nat) (h : ¬ i < m.chatList.length) :
    ChatListModel.updateChatOrder m i = none := by
  unfold ChatListModel.updateChatOrder
  rw [dif_neg h]

theorem probedIndex_lt (l : List ChatData) (i : Nat) (h : i < l.length) :
    probedIndex l i h < l.length := by
  unfold probedIndex
  have hb := (probeBackward_spec (l.get ⟨i, h⟩) l i (Nat.le_of_lt h)).1
  split_ifs with he
  · rw [he]
    exact (probeForward_spec (l.get ⟨i, h⟩) l l.length i (by omega)).2.1 h
  · omega

/-- What the probes establish when the entity moves towards the front. -/
theorem probedIndex_backward (l : List ChatData) (i : Nat) (h : i < l.length)
    (hlt : probedIndex l i h < i) :
    (∀ (q : Nat) (c : ChatData), probedIndex l i h ≤ q → q < i → l[q]? = some c →
      SortsBefore (l.get ⟨i, h⟩) c) ∧
    (∀ (q : Nat) (c : ChatData), q + 1 = probedIndex l i h → l[q]? = some c →
      ¬ SortsBefore (l.get ⟨i, h⟩) c) := by
  have hb := probeBackward_spec (l.get ⟨i, h⟩) l i (Nat.le_of_lt h)
  unfold probedIndex at hlt ⊢
  split_ifs at hlt ⊢ with he
  · have := (probeForward_spec (l.get ⟨i, h⟩) l l.length i (by omega)).1
    rw [he] at hlt
    omega
  · exact ⟨hb.2.1, hb.2.2⟩

/-- What the probes establish when the entity does not move towards the front. -/
theorem probedIndex_forward (l : List ChatData) (i : Nat) (h : i < l.length)
    (hge : i ≤ probedIndex l i h) :
    (∀ (q : Nat) (c : ChatData), q + 1 = i → l[q]? = some c → ¬ SortsBefore (l.get ⟨i, h⟩) c) ∧
    (∀ (q : Nat) (c : ChatData), i < q → q ≤ probedIndex l i h → l[q]? = some c →
      (l.get ⟨i, h⟩).compareTo c > 0) ∧
    (∀ c : ChatData, l[probedIndex l i h + 1]? = some c → ¬ (l.get ⟨i, h⟩).compareTo c > 0) := by
  have hb := probeBackward_spec (l.get ⟨i, h⟩) l i (Nat.le_of_lt h)
  unfold probedIndex at hge ⊢
  split_ifs at hge ⊢ with he
  · have hf := probeForward_spec (l.get ⟨i, h⟩) l l.length i (by omega)
    rw [he]
    refine ⟨?_, hf.2.2.1, hf.2.2.2⟩
    intro q c hq hc
    exact hb.2.2 q c (by omega) hc
  · omega

theorem QList.removeAt_eq_eraseIdx {α : Type} (l : List α) (i : Nat) :
    QList.removeAt l i = l.eraseIdx i := by
  rw [List.eraseIdx_eq_take_drop_succ]
  rfl

theorem QList.getElem?_removeAt {α : Type} (l : List α) (i p : Nat) :
    (QList.removeAt l i)[p]? = if p < i then l[p]? else l[p + 1]? := by
  rw [QList.removeAt_eq_eraseIdx, List.getElem?_eraseIdx]

theorem QList.length_removeAt {α : Type} (l : List α) {i : Nat} (h : i < l.length) :
    (QList.removeAt l i).length = l.length - 1 := by
  rw [QList.removeAt_eq_eraseIdx, List.length_eraseIdx, if_pos h]

theorem QList.cons_removeAt_perm {α : Type} (l : List α) {i : Nat} {x : α}
    (h : l[i]? = some x) : (x :: QList.removeAt l i).Perm l := by
  obtain ⟨hi, e⟩ := List.getElem?_eq_some.mp h
  have h1 : l = List.take i l ++ x :: List.drop (i + 1) l := by
    conv_lhs => rw [← List.take_append_drop i l, List.drop_eq_getElem_cons hi, e]
  unfold QList.removeAt
  conv_rhs => rw [h1]
  exact List.perm_middle.symm

theorem QList.move_eq {α : Type} (l : List α) {i : Nat} {x : α} (h : l[i]? = some x)
    (j : Nat) : QList.move l i j = QList.insert (QList.removeAt l i) j x := by
  unfold QList.move
  rw [h]

theorem QList.move_perm {α : Type} (l : List α) (i j : Nat) : (QList.move l i j).Perm l := by
  unfold QList.move
  cases h : l[i]? with
  | none => exact List.Perm.refl _
  | some x => exact (QList.insert_perm _ j x).trans (QList.cons_removeAt_perm l h)

/-- The positions of the list after `move(i, j)`. -/
theorem QList.getElem?_move {α : Type} (l : List α) {i j : Nat} (hi : i < l.length)
    (hj : j < l.length) (p : Nat) :
    (QList.move l i j)[p]? =
      if p = j then l[i]?
      else if p < j then (if p < i then l[p]? else l[p + 1]?)
      else (if p - 1 < i then l[p - 1]? else l[p]?) := by
  have hx : l[i]? = some l[i] := List.getElem?_eq_getElem hi
  rw [QList.move_eq l hx, QList.getElem?_insert _ (by rw [QList.length_removeAt l hi]; omega)]
  simp only [QList.getElem?_removeAt]
  by_cases h1 : p = j
  · subst h1
    simp [hx]
  · by_cases h2 : p < j
    · simp only [h1, h2, if_true, if_false]
    · simp only [h1, h2, if_false]
      by_cases h3 : p - 1 < i
      · simp only [h3, if_true]
      · simp only [h3, if_false]
        congr 1
        omega

theorem QList.move_self {α : Type} (l : List α) {i : Nat} (hi : i < l.length) :
    QList.move l i i = l := by
  apply List.ext_getElem?
  intro p
  rw [QList.getElem?_move l hi hi]
  by_cases h1 : p = i
  · rw [if_pos h1, h1]
  · rw [if_neg h1]
    by_cases h2 : p < i
    · rw [if_pos h2, if_pos h2]
    · rw [if_neg h2, if_neg (by omega)]

/-- In a sorted sequence every entity sorts before all later ones. -/
theorem SortedChats.sortsBefore_of_lt {l : List ChatData} (hs : SortedChats l) {p q : Nat}
    {c d : ChatData} (hpq : p < q) (hc : l[p]? = some c) (hd : l[q]? = some d) :
    SortsBefore c d := by
  have hpw : l.Pairwise SortsBefore := List.chain'_iff_pairwise.mp hs
  obtain ⟨hp, rfl⟩ := List.getElem?_eq_some.mp hc
  obtain ⟨hq, rfl⟩ := List.getElem?_eq_some.mp hd
  exact List.pairwise_iff_getElem.mp hpw p q hp hq hpq

theorem not_sortsBefore_of_compareTo_pos {a b : ChatData} (h : a.compareTo b > 0) :
    ¬ SortsBefore a b := by
  unfold SortsBefore
  omega

theorem sortsBefore_of_not_compareTo_pos {a b : ChatData} (h : ¬ a.compareTo b > 0) :
    SortsBefore a b := by
  unfold SortsBefore
  rcases compareTo_eq_neg_one_or_one a b with e | e <;> omega

theorem findIdx_eq_of_spec {α : Type} (test : α → Bool) (r : List α) {j : Nat}
    (hj : j ≤ r.length) (hbelow : ∀ (q : Nat) (c : α), q < j → r[q]? = some c → test c = false)
    (hat : ∀ c : α, r[j]? = some c → test c = true) : r.findIdx test = j := by
  by_cases hlt : j < r.length
  · rw [List.findIdx_eq hlt]
    refine ⟨hat _ (List.getElem?_eq_getElem hlt), ?_⟩
    intro q hq
    exact hbelow q _ hq (List.getElem?_eq_getElem (by omega))
  · have he : j = r.length := by omega
    rw [he, List.findIdx_eq_length]
    intro x hx
    obtain ⟨q, hq, e⟩ := List.mem_iff_getElem.mp hx
    exact hbelow q x (by omega) (by rw [List.getElem?_eq_getElem hq, e])

/-- In a sequence that is sorted once position `i` is taken out, an entity in front of `i` that
the entity at `i` does not sort before, and all entities in front of it, sort before the entity
at `i`. -/
theorem not_sortsBefore_front {l : List ChatData} {i : Nat} (h : i < l.length)
    (hnd : (chatIds l).Nodup) (hs : SortedChats (QList.removeAt l i)) {k : Nat} {d : ChatData}
    (hk : k < i) (hd : l[k]? = some d) (hnot : ¬ SortsBefore (l.get ⟨i, h⟩) d)
    {q : Nat} {c : ChatData} (hq : q ≤ k) (hc : l[q]? = some c) :
    ¬ SortsBefore (l.get ⟨i, h⟩) c := by
  have hchat : l[i]? = some (l.get ⟨i, h⟩) := List.getElem?_eq_getElem h
  have hcne : c.chatId ≠ (l.get ⟨i, h⟩).chatId := by
    intro e
    have := position_unique hnd hc hchat e
    omega
  have hdchat : SortsBefore d (l.get ⟨i, h⟩) := sortsBefore_of_not hnot
  by_cases hqk : q = k
  · subst hqk
    rw [hd] at hc
    cases hc
    exact hnot
  · have hrc : (QList.removeAt l i)[q]? = some c := by
      rw [QList.getElem?_removeAt, if_pos (by omega), hc]
    have hrd : (QList.removeAt l i)[k]? = some d := by
      rw [QList.getElem?_removeAt, if_pos hk, hd]
    have hcd : SortsBefore c d := hs.sortsBefore_of_lt (by omega) hrc hrd
    exact not_sortsBefore_of_sortsBefore hcne (sortsBefore_trans hcd hdchat)

/-- The local probe finds the position of the full scan: in a sequence with pairwise distinct
identities that is sorted once position `i` is taken out, the index the probes of
`updateChatOrder` compute is the position the scan of `addVisibleChat` finds for the entity in
the sequence without it. -/
theorem probedIndex_eq_findIdx (l : List ChatData) (i : Nat) (h : i < l.length)
    (hnd : (chatIds l).Nodup) (hs : SortedChats (QList.removeAt l i)) :
    probedIndex l i h = (QList.removeAt l i).findIdx (sortsBeforeTest (l.get ⟨i, h⟩)) := by
  symm
  have hjlt := probedIndex_lt l i h
  have hlen := QList.length_removeAt l h
  apply findIdx_eq_of_spec
  · omega
  · intro q c hq hc
    simp only [sortsBeforeTest, decide_eq_false_iff_not]
    rw [QList.getElem?_removeAt] at hc
    by_cases hcase : probedIndex l i h < i
    · obtain ⟨_, hb2⟩ := probedIndex_backward l i h hcase
      rw [if_pos (by omega)] at hc
      obtain ⟨k, hk⟩ : ∃ k, k + 1 = probedIndex l i h := ⟨probedIndex l i h - 1, by omega⟩
      have hkn : k < l.length := by omega
      exact not_sortsBefore_front h hnd hs (by omega) (List.getElem?_eq_getElem hkn)
        (hb2 k _ hk (List.getElem?_eq_getElem hkn)) (by omega) hc
    · obtain ⟨hf1, hf2, _⟩ := probedIndex_forward l i h (by omega)
      by_cases hqi : q < i
      · rw [if_pos hqi] at hc
        obtain ⟨k, hk⟩ : ∃ k, k + 1 = i := ⟨i - 1, by omega⟩
        have hkn : k < l.length := by omega
        exact not_sortsBefore_front h hnd hs (by omega) (List.getElem?_eq_getElem hkn)
          (hf1 k _ hk (List.getElem?_eq_getElem hkn)) (by omega) hc
      · rw [if_neg hqi] at hc
        exact not_sortsBefore_of_compareTo_pos (hf2 (q + 1) c (by omega) (by omega) hc)
  · intro c hc
    simp only [sortsBeforeTest, decide_eq_true_eq]
    rw [QList.getElem?_removeAt] at hc
    by_cases hcase : probedIndex l i h < i
    · obtain ⟨hb1, _⟩ := probedIndex_backward l i h hcase
      rw [if_pos hcase] at hc
      exact hb1 _ c (Nat.le_refl _) hcase hc
    · obtain ⟨_, _, hf3⟩ := probedIndex_forward l i h (by omega)
      rw [if_neg hcase] at hc
      exact sortsBefore_of_not_compareTo_pos (hf3 c hc)

/-- The state after `updateChatOrder` at a position of the list: the returned index is the
probed one, the sequence is the old one with the entity moved there, and only the map and the
emitted signals change besides. -/
theorem updateChatOrder_result (m : ChatListModel) (i : Nat) (h : i < m.chatList.length) :
    ∃ m1 : ChatListModel,
      ChatListModel.updateChatOrder m i = some (m1, probedIndex m.chatList i h) ∧
      m1.chatList = QList.move m.chatList i (probedIndex m.chatList i h) ∧
      m1.hiddenChats = m.hiddenChats ∧ m1.showHiddenChats = m.showHiddenChats ∧
      m1.chatIndexMap =
        (if probedIndex m.chatList i h = i then m.chatIndexMap
         else if probedIndex m.chatList i h < i then
            ChatListModel.reindex (QList.move m.chatList i (probedIndex m.chatList i h))
              (QHash.insert m.chatIndexMap (m.chatList.get ⟨i, h⟩).chatId
                (probedIndex m.chatList i h))
              (probedIndex m.chatList i h + 1) (i + 1)
          else
            ChatListModel.reindex (QList.move m.chatList i (probedIndex m.chatList i h))
              (QHash.insert m.chatIndexMap (m.chatList.get ⟨i, h⟩).chatId
                (probedIndex m.chatList i h))
              i (probedIndex m.chatList i h)) := by
  rw [updateChatOrder_eq m i h]
  by_cases hj : probedIndex m.chatList i h = i
  · refine ⟨m, ?_, ?_, rfl, rfl, ?_⟩
    · simp [hj]
    · rw [hj, QList.move_self _ h]
    · rw [if_pos hj]
  · refine ⟨_, rfl, ?_, ?_, ?_, ?_⟩
    · simp [hj]
    · simp [hj]
    · simp [hj]
    · simp only [ne_eq, hj, not_false_eq_true, if_true, if_false]
      by_cases hlt : probedIndex m.chatList i h < i
      · simp only [hlt, if_true]
        congr 1
        omega
      · simp only [hlt, if_false]
        congr 1
        omega

/-- The entity moved by `move(i, j)` stands at `j`. -/
theorem QList.getElem?_move_self {α : Type} (l : List α) {i j : Nat} (hi : i < l.length)
    (hj : j < l.length) : (QList.move l i j)[j]? = l[i]? := by
  rw [QList.getElem?_move l hi hj, if_pos rfl]

/-- The sequence after `updateChatOrder`, for a sequence with pairwise distinct identities that is
sorted once position `i` is taken out: the entity is spliced into the rest where the scan of
`addVisibleChat` puts it. -/
theorem move_probedIndex_eq_insert_scan (l : List ChatData) (i : Nat) (h : i < l.length)
    (hnd : (chatIds l).Nodup) (hs : SortedChats (QList.removeAt l i)) :
    QList.move l i (probedIndex l i h)
      = QList.insert (QList.removeAt l i)
          (ChatListModel.scanPosition (l.get ⟨i, h⟩) (QList.removeAt l i)
            (QList.removeAt l i).length 0)
          (l.get ⟨i, h⟩) := by
  rw [scanPosition_eq_findIdx, ← probedIndex_eq_findIdx l i h hnd hs]
  exact QList.move_eq l (List.getElem?_eq_getElem h) _

theorem sortedChats_move_probedIndex (l : List ChatData) (i : Nat) (h : i < l.length)
    (hnd : (chatIds l).Nodup) (hs : SortedChats (QList.removeAt l i)) :
    SortedChats (QList.move l i (probedIndex l i h)) := by
  rw [move_probedIndex_eq_insert_scan l i h hnd hs, scanPosition_eq_findIdx]
  exact sortedChats_insert_findIdx _ _ hs

/-- C2. `updateChatOrder` restores the total order: for a visible sequence with pairwise
distinct identities and a valid position `i` such that the sequence with position `i` deleted is
sorted under `compareTo`, the call returns, the sequence afterwards is a sorted permutation of
the original one, and the returned index is the position at which the moved entity now stands. -/
theorem updateChatOrder_restores_order (m : ChatListModel) (i : Nat)
    (hi : i < m.chatList.length) (hnd : (chatIds m.chatList).Nodup)
    (hs : SortedChats (QList.removeAt m.chatList i)) :
    ∃ (m1 : ChatListModel) (j : Nat),
      ChatListModel.updateChatOrder m i = some (m1, j) ∧
      m1.chatList.Perm m.chatList ∧ SortedChats m1.chatList ∧
      m1.chatList[j]? = some (m.chatList.get ⟨i, hi⟩) := by
  obtain ⟨m1, h1, h2, _⟩ := updateChatOrder_result m i hi
  refine ⟨m1, probedIndex m.chatList i hi, h1, ?_, ?_, ?_⟩
  · rw [h2]
    exact QList.move_perm _ _ _
  · rw [h2]
    exact sortedChats_move_probedIndex _ i hi hnd hs
  · rw [h2, QList.getElem?_move_self _ hi (probedIndex_lt _ i hi)]
    exact List.getElem?_eq_getElem hi

/-- C2, at a sequence of three chats whose last one is out of place. -/
theorem updateChatOrder_restores_order_witness :
    ∃ (m1 : ChatListModel) (j : Nat),
      ChatListModel.updateChatOrder sampleModelToReorder 2 = some (m1, j) ∧
      m1.chatList.Perm sampleModelToReorder.chatList ∧ SortedChats m1.chatList ∧
      m1.chatList[j]? = some (sampleChat 3 15) :=
  updateChatOrder_restores_order sampleModelToReorder 2 (by decide) (by decide) (by decide)

/-- Two sorted sequences with the same entities, of pairwise distinct identities, are equal. -/
theorem eq_of_perm_of_sorted :
    ∀ (l1 l2 : List ChatData), l1.Perm l2 → (chatIds l1).Nodup → l1.Pairwise SortsBefore →
      l2.Pairwise SortsBefore → l1 = l2 := by
  intro l1
  induction l1 with
  | nil =>
    intro l2 hp _ _ _
    exact (List.Perm.nil_eq hp)
  | cons a t1 ih =>
    intro l2 hp hnd h1 h2
    cases l2 with
    | nil =>
      have e := List.Perm.nil_eq hp.symm
      cases e
    | cons b t2 =>
      have hab : a = b := by
        by_contra hne
        have ha : a ∈ t2 := by
          have : a ∈ b :: t2 := hp.subset (List.mem_cons_self _ _)
          rcases List.mem_cons.mp this with e | e
          · exact absurd e hne
          · exact e
        have hb : b ∈ t1 := by
          have : b ∈ a :: t1 := hp.symm.subset (List.mem_cons_self _ _)
          rcases List.mem_cons.mp this with e | e
          · exact absurd e.symm hne
          · exact e
        have hba : SortsBefore b a := (List.pairwise_cons.mp h2).1 a ha
        have hab : SortsBefore a b := (List.pairwise_cons.mp h1).1 b hb
        have hid : a.chatId ≠ b.chatId := by
          simp only [chatIds, List.map_cons, List.nodup_cons, List.mem_map, not_exists,
            not_and] at hnd
          exact fun e => hnd.1 b hb e.symm
        exact not_sortsBefore_of_sortsBefore hid hab hba
      subst hab
      have hp2 : t1.Perm t2 := (List.perm_cons a).mp hp
      have hnd2 : (chatIds t1).Nodup := by
        simp only [chatIds, List.map_cons, List.nodup_cons] at hnd
        exact hnd.2
      rw [ih t2 hp2 hnd2 (List.pairwise_cons.mp h1).2 (List.pairwise_cons.mp h2).2]

/-- C3. The local-probe reorder equals a full re-sort: for a visible sequence with pairwise
distinct identities that is sorted except possibly for the entity at position `i`, the sequence
produced by `updateChatOrder(i)` is the one obtained by removing that entity and re-inserting it
with the scan of `addVisibleChat`, and it is the sequence obtained by sorting the whole sequence
with `compareTo`. -/
theorem updateChatOrder_eq_resort (td : TDLibWrapper) (m : ChatListModel) (i : Nat)
    (hi : i < m.chatList.length) (hnd : (chatIds m.chatList).Nodup)
    (hs : SortedChats (QList.removeAt m.chatList i)) :
    ∃ (m1 : ChatListModel) (j : Nat),
      ChatListModel.updateChatOrder m i = some (m1, j) ∧
      m1.chatList =
        (ChatListModel.addVisibleChat td { m with chatList := QList.removeAt m.chatList i }
          (m.chatList.get ⟨i, hi⟩)).chatList ∧
      m1.chatList = m.chatList.insertionSort SortsBefore := by
  obtain ⟨m1, h1, h2, _⟩ := updateChatOrder_result m i hi
  refine ⟨m1, probedIndex m.chatList i hi, h1, ?_, ?_⟩
  · rw [h2, addVisibleChat_chatList, move_probedIndex_eq_insert_scan _ i hi hnd hs,
      scanPosition_eq_findIdx]
  · apply eq_of_perm_of_sorted
    · rw [h2]
      exact (QList.move_perm _ _ _).trans (List.perm_insertionSort _ _).symm
    · have hp : (chatIds m1.chatList).Perm (chatIds m.chatList) := by
        rw [h2]
        exact (QList.move_perm _ _ _).map _
      exact hp.nodup_iff.mpr hnd
    · rw [h2]
      exact List.chain'_iff_pairwise.mp (sortedChats_move_probedIndex _ i hi hnd hs)
    · exact List.sorted_insertionSort _ _

/-- C3, at a sequence of three chats whose last one is out of place. -/
theorem updateChatOrder_eq_resort_witness :
    ∃ (m1 : ChatListModel) (j : Nat),
      ChatListModel.updateChatOrder sampleModelToReorder 2 = some (m1, j) ∧
      m1.chatList =
        (ChatListModel.addVisibleChat sampleWrapper
          { sampleModelToReorder with
            chatList := QList.removeAt sampleModelToReorder.chatList 2 }
          (sampleChat 3 15)).chatList ∧
      m1.chatList = sampleModelToReorder.chatList.insertionSort SortsBefore :=
  updateChatOrder_eq_resort sampleWrapper sampleModelToReorder 2 (by decide) (by decide)
    (by decide)

/-- Rewriting the map over a range of positions, after an entity was put to position `j`, gives a
correct index when all other positions outside of the range hold what they held before. -/
theorem indexCorrect_reindex {l l1 : List ChatData} {map : QHash Int Nat}
    (hidx : IndexCorrect l map) (hnd1 : (chatIds l1).Nodup) {a b j : Nat} {chat : ChatData}
    (hj : l1[j]? = some chat)
    (hsame : ∀ p : Nat, p ≠ j → ¬ (a ≤ p ∧ p < b) → l1[p]? = l[p]?) :
    IndexCorrect l1 (ChatListModel.reindex l1 (QHash.insert map chat.chatId j) a b) := by
  rw [indexCorrect_iff] at hidx ⊢
  intro p c hc
  by_cases hin : a ≤ p ∧ p < b
  · exact reindex_find_inside hnd1 _ hin.1 hin.2 hc
  · rw [reindex_find_outside]
    · by_cases hpj : p = j
      · subst hpj
        rw [hj] at hc
        cases hc
        exact QHash.find_insert_self _ _ _
      · have hne : c.chatId ≠ chat.chatId := fun e => hpj (position_unique hnd1 hc hj e)
        rw [QHash.find_insert_of_ne _ _ hne]
        apply hidx
        rw [← hsame p hpj hin]
        exact hc
    · intro q d hq1 hq2 hd e
      have := position_unique hnd1 hd hc e
      exact hin (this ▸ ⟨hq1, hq2⟩)

/-- C5. `updateChatOrder` keeps the identity→position index correct: in a state with pairwise
distinct identities in which `chatIndexMap` maps every entity of the visible sequence to its
position, `updateChatOrder(i)` returns for every valid `i`, and the same holds for the reordered
sequence. -/
theorem updateChatOrder_keeps_index (m : ChatListModel) (i : Nat)
    (hi : i < m.chatList.length) (hnd : (chatIds m.chatList).Nodup)
    (hidx : IndexCorrect m.chatList m.chatIndexMap) :
    ∃ (m1 : ChatListModel) (j : Nat),
      ChatListModel.updateChatOrder m i = some (m1, j) ∧
      IndexCorrect m1.chatList m1.chatIndexMap := by
  obtain ⟨m1, h1, h2, _, _, h5⟩ := updateChatOrder_result m i hi
  refine ⟨m1, probedIndex m.chatList i hi, h1, ?_⟩
  have hjlt := probedIndex_lt m.chatList i hi
  have hnd1 : (chatIds (QList.move m.chatList i (probedIndex m.chatList i hi))).Nodup :=
    (((QList.move_perm m.chatList i (probedIndex m.chatList i hi))).map _).nodup_iff.mpr hnd
  have hlen : (QList.move m.chatList i (probedIndex m.chatList i hi)).length
      = m.chatList.length := (QList.move_perm _ _ _).length_eq
  have hat : (QList.move m.chatList i (probedIndex m.chatList i hi))[probedIndex m.chatList i hi]?
      = some (m.chatList.get ⟨i, hi⟩) := by
    rw [QList.getElem?_move_self _ hi hjlt]
    exact List.getElem?_eq_getElem hi
  rw [h2, h5]
  by_cases hj : probedIndex m.chatList i hi = i
  · rw [if_pos hj, hj, QList.move_self _ hi]
    exact hidx
  · rw [if_neg hj]
    by_cases hlt : probedIndex m.chatList i hi < i
    · rw [if_pos hlt]
      apply indexCorrect_reindex hidx hnd1 hat
      intro p hp hout
      rw [QList.getElem?_move _ hi hjlt, if_neg hp]
      by_cases h3 : p < probedIndex m.chatList i hi
      · rw [if_pos h3, if_pos (by omega)]
      · rw [if_neg h3, if_neg (by omega)]
    · rw [if_neg hlt]
      apply indexCorrect_reindex hidx hnd1 hat
      intro p hp hout
      rw [QList.getElem?_move _ hi hjlt, if_neg hp]
      by_cases h3 : p < probedIndex m.chatList i hi
      · rw [if_pos h3, if_pos (by omega)]
      · rw [if_neg h3, if_neg (by omega)]

theorem sampleModelToReorder_indexCorrect :
    IndexCorrect sampleModelToReorder.chatList sampleModelToReorder.chatIndexMap := by
  rw [indexCorrect_iff]
  intro p c hc
  match p, hc with
  | 0, hc => cases hc; decide
  | 1, hc => cases hc; decide
  | 2, hc => cases hc; decide
  | p + 3, hc => simp [sampleModelToReorder] at hc

/-- C5, at a sequence of three chats with a correct index whose last one is out of place. -/
theorem updateChatOrder_keeps_index_witness :
    ∃ (m1 : ChatListModel) (j : Nat),
      ChatListModel.updateChatOrder sampleModelToReorder 2 = some (m1, j) ∧
      IndexCorrect m1.chatList m1.chatIndexMap :=
  updateChatOrder_keeps_index sampleModelToReorder 2 (by decide) (by decide)
    sampleModelToReorder_indexCorrect

/-! ## The Hidden Set and the index -/

/-- C6, evaluated on the code. A secret chat is discovered (it is visible) and then reported as
closed: `updateSecretChatVisibility` moves it to the Hidden Set, and its identity is still a key
of `chatIndexMap`; a title update for it then reads `chatList` outside of its bounds. The same
happens through `updateChatVisibility`, when a chat of unknown kind is discovered while "show
all" is on and the toggle is switched off. So it is not the case that in every reachable state
no identity of the Hidden Set is a key of `chatIndexMap`. -/
theorem hidden_identity_stays_in_chatIndexMap :
    (∃ m : ChatListModel,
      run ChatListModel.empty secretChatClosedEvents = some m ∧
      Reachable m ∧ m.chatList = [] ∧
      QHash.contains m.hiddenChats 1 = true ∧ QHash.contains m.chatIndexMap 1 = true ∧
      step sampleCollaborators m (.chatTitleUpdated "1" "title") = none) ∧
    (∃ m : ChatListModel,
      run ChatListModel.empty shownThenHiddenEvents = some m ∧
      Reachable m ∧ m.chatList = [] ∧
      QHash.contains m.hiddenChats 2 = true ∧ QHash.contains m.chatIndexMap 2 = true) ∧
    ¬ (∀ m : ChatListModel, Reachable m →
        ∀ id : Int, QHash.contains m.hiddenChats id = true →
          QHash.contains m.chatIndexMap id = false) := by
  have h1 : ∃ m : ChatListModel,
      run ChatListModel.empty secretChatClosedEvents = some m ∧
      Reachable m ∧ m.chatList = [] ∧
      QHash.contains m.hiddenChats 1 = true ∧ QHash.contains m.chatIndexMap 1 = true ∧
      step sampleCollaborators m (.chatTitleUpdated "1" "title") = none := by
    refine ⟨_, rfl, ⟨secretChatClosedEvents, rfl⟩, ?_, ?_, ?_, ?_⟩ <;> decide
  refine ⟨h1, ?_, ?_⟩
  · refine ⟨_, rfl, ⟨shownThenHiddenEvents, rfl⟩, ?_, ?_, ?_⟩ <;> decide
  · intro hall
    obtain ⟨m, _, hr, _, hh, hi, _⟩ := h1
    have := hall m hr 1 hh
    rw [hi] at this
    cases this

/-- C7 as stated fails: when the backend reports the identity 1 twice, first as a private chat
with a last message (visible) and then as one without (hidden), the identity is in the visible
sequence and in the Hidden Set at the same time. -/
theorem disjointness_fails_for_repeated_discovery :
    ∃ m : ChatListModel,
      run ChatListModel.empty discoveredTwiceEvents = some m ∧
      (1 : Int) ∈ chatIds m.chatList ∧ QHash.contains m.hiddenChats 1 = true := by
  refine ⟨_, rfl, ?_, ?_⟩ <;> decide

/-! ## Disjointness of the visible sequence and the Hidden Set -/

section HiddenSet

variable {K V : Type} [DecidableEq K]

theorem QHash.keys_assign (H : QHash K V) (k : K) (v : V) :
    QHash.keys (QHash.assign H k v) = QHash.keys H := by
  unfold QHash.keys QHash.assign
  rw [List.map_map]
  apply List.map_congr_left
  intro p _
  simp only [Function.comp]
  split_ifs <;> rfl

theorem QHash.mem_assign {H : QHash K V} {k : K} {v : V} {p : K × V}
    (hp : p ∈ QHash.assign H k v) : (p.1 = k ∧ p.2 = v) ∨ p ∈ H := by
  unfold QHash.assign at hp
  obtain ⟨q, hq, e⟩ := List.mem_map.mp hp
  by_cases hk : q.1 = k
  · rw [if_pos hk] at e
    left
    rw [← e]
    exact ⟨hk, rfl⟩
  · rw [if_neg hk] at e
    right
    rw [← e]
    exact hq

theorem QHash.remove_sublist (H : QHash K V) (k : K) : List.Sublist (QHash.remove H k) H :=
  List.filter_sublist H

theorem QHash.remove_of_not_mem {H : QHash K V} {k : K} (h : k ∉ QHash.keys H) :
    QHash.remove H k = H := by
  unfold QHash.remove
  rw [List.filter_eq_self]
  intro p hp
  simp only [ne_eq, decide_eq_true_eq]
  intro e
  exact h (List.mem_map.mpr ⟨p, hp, e⟩)

theorem QHash.not_mem_keys_remove (H : QHash K V) (k : K) :
    k ∉ QHash.keys (QHash.remove H k) := by
  intro hmem
  obtain ⟨p, hp, e⟩ := List.mem_map.mp hmem
  unfold QHash.remove at hp
  have := (List.mem_filter.mp hp).2
  simp only [ne_eq, decide_eq_true_eq] at this
  exact this e

theorem QHash.mem_keys_remove_of_ne {H : QHash K V} {k k1 : K} (hne : k1 ≠ k)
    (h : k1 ∈ QHash.keys H) : k1 ∈ QHash.keys (QHash.remove H k) := by
  obtain ⟨p, hp, e⟩ := List.mem_map.mp h
  refine List.mem_map.mpr ⟨p, ?_, e⟩
  unfold QHash.remove
  refine List.mem_filter.mpr ⟨hp, ?_⟩
  simp only [ne_eq, decide_eq_true_eq]
  rw [e]
  exact hne

theorem QHash.keys_perm_remove :
    ∀ (H : QHash K V) (k : K), (QHash.keys H).Nodup → k ∈ QHash.keys H →
      (QHash.keys H).Perm (k :: QHash.keys (QHash.remove H k)) := by
  intro H
  induction H with
  | nil => intro k _ hk; simp [QHash.keys] at hk
  | cons p H ih =>
    intro k hnd hk
    obtain ⟨k1, v1⟩ := p
    simp only [QHash.keys, List.map_cons, List.nodup_cons] at hnd
    by_cases h1 : k1 = k
    · subst h1
      have hrem : QHash.remove ((k1, v1) :: H) k1 = H := by
        have h2 : QHash.remove ((k1, v1) :: H) k1 = QHash.remove H k1 := by
          simp [QHash.remove]
        rw [h2]
        exact QHash.remove_of_not_mem hnd.1
      rw [hrem]
      exact List.Perm.refl _
    · have hk2 : k ∈ QHash.keys H := by
        simp only [QHash.keys, List.map_cons, List.mem_cons] at hk
        rcases hk with e | e
        · exact absurd e.symm h1
        · exact e
      have hrem : QHash.remove ((k1, v1) :: H) k = (k1, v1) :: QHash.remove H k := by
        simp [QHash.remove, h1]
      rw [hrem]
      have := ih k hnd.2 hk2
      simp only [QHash.keys, List.map_cons] at this ⊢
      exact (List.Perm.cons k1 this).trans (List.Perm.swap k k1 _)

theorem QHash.mem_of_find {H : QHash K V} {k : K} {v : V} (h : QHash.find H k = some v) :
    (k, v) ∈ H := by
  induction H with
  | nil => simp [QHash.find] at h
  | cons p H ih =>
    obtain ⟨k1, v1⟩ := p
    unfold QHash.find at h
    by_cases h1 : k1 = k
    · rw [if_pos h1] at h
      cases h
      subst h1
      exact List.mem_cons_self _ _
    · rw [if_neg h1] at h
      exact List.mem_cons_of_mem _ (ih h)

theorem QHash.contains_iff_mem_keys (H : QHash K V) (k : K) :
    QHash.contains H k = true ↔ k ∈ QHash.keys H := by
  induction H with
  | nil => simp [QHash.contains, QHash.find, QHash.keys]
  | cons p H ih =>
    obtain ⟨k1, v1⟩ := p
    unfold QHash.contains QHash.find
    by_cases h1 : k1 = k
    · simp [h1, QHash.keys]
    · rw [if_neg h1]
      have : k ≠ k1 := fun e => h1 e.symm
      simp only [QHash.keys, List.map_cons, List.mem_cons, this, false_or]
      exact ih

end HiddenSet

theorem Keyed.assign {H : QHash Int ChatData} (h : Keyed H) {k : Int} {c : ChatData}
    (hc : c.chatId = k) : Keyed (QHash.assign H k c) := by
  intro p hp
  rcases QHash.mem_assign hp with ⟨e1, e2⟩ | hmem
  · rw [e1, e2, hc]
  · exact h p hmem

theorem Keyed.remove {H : QHash Int ChatData} (h : Keyed H) (k : Int) :
    Keyed (QHash.remove H k) :=
  fun p hp => h p ((QHash.remove_sublist H k).subset hp)

theorem Keyed.insert {H : QHash Int ChatData} (h : Keyed H) {k : Int} {c : ChatData}
    (hc : c.chatId = k) : Keyed (QHash.insert H k c) := by
  intro p hp
  unfold QHash.insert at hp
  rcases List.mem_cons.mp hp with e | hmem
  · rw [e]
    exact hc
  · exact h.remove k p hmem

theorem Keyed.chatId_of_find {H : QHash Int ChatData} (h : Keyed H) {k : Int} {c : ChatData}
    (hf : QHash.find H k = some c) : c.chatId = k :=
  h (k, c) (QHash.mem_of_find hf)

theorem Keyed.chatIds_values {H : QHash Int ChatData} (h : Keyed H) :
    chatIds (QHash.values H) = QHash.keys H := by
  unfold chatIds QHash.values QHash.keys
  rw [List.map_map]
  apply List.map_congr_left
  intro p hp
  exact h p hp

theorem chatIds_set {l : List ChatData} {i : Nat} {c c1 : ChatData} (hc : l[i]? = some c)
    (hid : c1.chatId = c.chatId) : chatIds (l.set i c1) = chatIds l := by
  apply List.ext_getElem?
  intro p
  rw [chatIds_getElem?, chatIds_getElem?, List.getElem?_set]
  by_cases hp : i = p
  · subst hp
    rw [if_pos rfl, if_pos (List.getElem?_eq_some.mp hc).1, hc]
    simp [hid]
  · rw [if_neg hp]

theorem getElem?_set_self {l : List ChatData} {i : Nat} {c : ChatData} (hc : l[i]? = some c)
    (c1 : ChatData) : (l.set i c1)[i]? = some c1 := by
  rw [List.getElem?_set, if_pos rfl, if_pos (List.getElem?_eq_some.mp hc).1]

theorem SameIds.refl (m : ChatListModel) : SameIds m m := fun h => ⟨h, List.Perm.refl _⟩

theorem SameIds.trans {m m1 m2 : ChatListModel} (h1 : SameIds m m1) (h2 : SameIds m1 m2) :
    SameIds m m2 := by
  intro h
  obtain ⟨hw1, hp1⟩ := h1 h
  obtain ⟨hw2, hp2⟩ := h2 hw1
  exact ⟨hw2, hp2.trans hp1⟩

/-- A step that keeps the identities of the visible sequence and the keys of the Hidden Set, and
keeps the Hidden Set keyed by identity, keeps the identities. -/
theorem SameIds.of_fields {m m1 : ChatListModel}
    (hl : chatIds m1.chatList = chatIds m.chatList)
    (hk : QHash.keys m1.hiddenChats = QHash.keys m.hiddenChats)
    (hkeyed : Keyed m.hiddenChats → Keyed m1.hiddenChats) : SameIds m m1 := by
  intro h
  have e : allIds m1 = allIds m := by unfold allIds; rw [hl, hk]
  refine ⟨⟨?_, hkeyed h.2⟩, ?_⟩
  · rw [e]; exact h.1
  · rw [e]

theorem SameIds.set (m : ChatListModel) {i : Nat} {c d : ChatData}
    (hc : m.chatList[i]? = some c) (hid : d.chatId = c.chatId) :
    SameIds m { m with chatList := m.chatList.set i d } :=
  SameIds.of_fields (chatIds_set hc hid) rfl id

theorem SameIds.emit (m : ChatListModel) (s : Signal) : SameIds m (m.emit s) :=
  SameIds.of_fields rfl rfl id

theorem SameIds.assign_same (m : ChatListModel) {k : Int} {c : ChatData} (hid : c.chatId = k) :
    SameIds m { m with hiddenChats := QHash.assign m.hiddenChats k c } :=
  SameIds.of_fields rfl (QHash.keys_assign _ _ _) (fun h => h.assign hid)

/-- Taking an entity out of the Hidden Set and adding it to the visible sequence keeps the
identities. -/
theorem SameIds.promote (td : TDLibWrapper) (m : ChatListModel) {chat : ChatData}
    (hk : chat.chatId ∈ QHash.keys m.hiddenChats) :
    SameIds m
      (ChatListModel.addVisibleChat td
        { m with hiddenChats := QHash.remove m.hiddenChats chat.chatId } chat) := by
  intro hwf
  obtain ⟨hnd, hkeyed⟩ := hwf
  have hperm : (allIds (ChatListModel.addVisibleChat td
      { m with hiddenChats := QHash.remove m.hiddenChats chat.chatId } chat)).Perm
      (allIds m) := by
    unfold allIds
    rw [addVisibleChat_chatList, addVisibleChat_hiddenChats]
    have h1 : (chatIds (QList.insert m.chatList
        (m.chatList.findIdx (sortsBeforeTest chat)) chat)).Perm
        (chat.chatId :: chatIds m.chatList) := (QList.insert_perm _ _ _).map _
    have h2 : (QHash.keys m.hiddenChats).Perm
        (chat.chatId :: QHash.keys (QHash.remove m.hiddenChats chat.chatId)) :=
      QHash.keys_perm_remove _ _ hnd.of_append_right hk
    refine (List.Perm.append_right _ h1).trans ?_
    refine List.Perm.trans ?_ (List.Perm.append_left _ h2.symm)
    exact List.perm_middle.symm
  refine ⟨⟨hperm.nodup_iff.mpr hnd, ?_⟩, hperm⟩
  rw [addVisibleChat_hiddenChats]
  exact hkeyed.remove _

/-- Hiding the entity at position `i` keeps the identities. -/
theorem SameIds.hideChatAt (m : ChatListModel) {i : Nat} {chat : ChatData}
    (hc : m.chatList[i]? = some chat) : SameIds m (ChatListModel.hideChatAt m i chat) := by
  intro hwf
  obtain ⟨hnd, hkeyed⟩ := hwf
  have hmem : chat.chatId ∈ chatIds m.chatList :=
    List.mem_map.mpr ⟨chat, List.getElem?_mem hc, rfl⟩
  have hnot : chat.chatId ∉ QHash.keys m.hiddenChats :=
    fun h => List.disjoint_of_nodup_append hnd hmem h
  have hperm : (allIds (ChatListModel.hideChatAt m i chat)).Perm (allIds m) := by
    unfold allIds ChatListModel.hideChatAt
    simp only [QHash.insert, QHash.remove_of_not_mem hnot]
    have h1 : (chat.chatId :: chatIds (QList.removeAt m.chatList i)).Perm (chatIds m.chatList) :=
      (QList.cons_removeAt_perm _ hc).map _
    exact List.perm_middle.trans (List.Perm.append_right _ h1)
  refine ⟨⟨hperm.nodup_iff.mpr hnd, ?_⟩, hperm⟩
  exact hkeyed.insert rfl

/-- What a successful `updateChatOrder` does to the two containers. -/
theorem updateChatOrder_some {m m1 : ChatListModel} {i j : Nat}
    (h : ChatListModel.updateChatOrder m i = some (m1, j)) :
    i < m.chatList.length ∧ m1.chatList.Perm m.chatList ∧ m1.hiddenChats = m.hiddenChats ∧
    m1.showHiddenChats = m.showHiddenChats ∧ m1.chatList[j]? = m.chatList[i]? := by
  by_cases hi : i < m.chatList.length
  · obtain ⟨m2, h1, h2, h3, h4, _⟩ := updateChatOrder_result m i hi
    rw [h1] at h
    simp only [Option.some.injEq, Prod.mk.injEq] at h
    obtain ⟨e1, e2⟩ := h
    subst e1 e2
    refine ⟨hi, ?_, h3, h4, ?_⟩
    · rw [h2]; exact QList.move_perm _ _ _
    · rw [h2]; exact QList.getElem?_move_self _ hi (probedIndex_lt _ i hi)
  · rw [updateChatOrder_none m i hi] at h
    cases h

theorem SameIds.updateChatOrder {m m1 : ChatListModel} {i j : Nat}
    (h : ChatListModel.updateChatOrder m i = some (m1, j)) : SameIds m m1 := by
  obtain ⟨_, hp, hh, _, _⟩ := updateChatOrder_some h
  intro hwf
  have hperm : (allIds m1).Perm (allIds m) := by
    unfold allIds
    rw [hh]
    exact List.Perm.append_right _ (hp.map _)
  refine ⟨⟨hperm.nodup_iff.mpr hwf.1, ?_⟩, hperm⟩
  rw [hh]
  exact hwf.2

theorem setOrder_chatId (c : ChatData) (order : String) : (c.setOrder order).1.chatId = c.chatId := by
  unfold ChatData.setOrder
  split_ifs <;> rfl

theorem updateLastMessage_chatId (c : ChatData) (td : TDLibWrapper) (message : QVariantMap) :
    (c.updateLastMessage td message).1.chatId = c.chatId := rfl

theorem updateGroup_chatId (c : ChatData) (group : Option Group) :
    (c.updateGroup group).1.chatId = c.chatId := by
  unfold ChatData.updateGroup
  cases group with
  | none => rfl
  | some g =>
    dsimp only
    split_ifs <;> rfl

theorem updateSecretChat_chatId (c : ChatData) (td : TDLibWrapper) (details : QVariantMap) :
    (c.updateSecretChat td details).1.chatId = c.chatId := by
  unfold ChatData.updateSecretChat
  dsimp only
  split_ifs <;> rfl

theorem updateUnreadCount_chatId (c : ChatData) (count : Int) :
    (c.updateUnreadCount count).1.chatId = c.chatId := rfl

theorem updateLastReadInboxMessageId_chatId (c : ChatData) (messageId : Int) :
    (c.updateLastReadInboxMessageId messageId).1.chatId = c.chatId := rfl

theorem SameIds.hideLoop (group : Option Group) :
    ∀ (rounds : Nat) (m : ChatListModel) (i : Nat),
      SameIds m (ChatListModel.hideLoop group rounds m i) := by
  intro rounds
  induction rounds with
  | zero => intro m i; exact SameIds.refl m
  | succ r ih =>
    intro m i
    unfold ChatListModel.hideLoop
    by_cases hi : i < m.chatList.length
    · rw [dif_pos hi]
      have hc : m.chatList[i]? = some (m.chatList.get ⟨i, hi⟩) := List.getElem?_eq_getElem hi
      have hid := updateGroup_chatId (m.chatList.get ⟨i, hi⟩) group
      have hset := SameIds.set m hc hid
      have hc1 := getElem?_set_self hc ((m.chatList.get ⟨i, hi⟩).updateGroup group).1
      dsimp only
      split_ifs
      · exact hset.trans ((SameIds.hideChatAt _ hc1).trans (ih _ _))
      · exact hset.trans ((SameIds.emit _ _).trans (ih _ _))
      · exact hset.trans (ih _ _)
    · rw [dif_neg hi]
      exact SameIds.refl m

theorem SameIds.secretLoop (td : TDLibWrapper) (details : QVariantMap) :
    ∀ (rounds : Nat) (m : ChatListModel) (i : Nat),
      SameIds m (ChatListModel.secretLoop td details rounds m i) := by
  intro rounds
  induction rounds with
  | zero => intro m i; exact SameIds.refl m
  | succ r ih =>
    intro m i
    unfold ChatListModel.secretLoop
    by_cases hi : i < m.chatList.length
    · rw [dif_pos hi]
      have hc : m.chatList[i]? = some (m.chatList.get ⟨i, hi⟩) := List.getElem?_eq_getElem hi
      have hid := updateSecretChat_chatId (m.chatList.get ⟨i, hi⟩) td details
      have hset := SameIds.set m hc hid
      have hc1 := getElem?_set_self hc ((m.chatList.get ⟨i, hi⟩).updateSecretChat td details).1
      dsimp only
      split_ifs
      · exact ih _ _
      · exact ih _ _
      · exact hset.trans ((SameIds.hideChatAt _ hc1).trans (ih _ _))
      · exact hset.trans ((SameIds.emit _ _).trans (ih _ _))
      · exact hset.trans (ih _ _)
    · rw [dif_neg hi]
      exact SameIds.refl m

theorem SameIds.showLoop (td : TDLibWrapper) (group : Option Group) :
    ∀ (chats : List ChatData) (m : ChatListModel), (chatIds chats).Nodup →
      (∀ c ∈ chats, c.chatId ∈ QHash.keys m.hiddenChats) →
      SameIds m (ChatListModel.showLoop td group chats m) := by
  intro chats
  induction chats with
  | nil => intro m _ _; exact SameIds.refl m
  | cons chat rest ih =>
    intro m hnd hmem
    simp only [chatIds, List.map_cons, List.nodup_cons, List.mem_map, not_exists, not_and]
      at hnd
    unfold ChatListModel.showLoop
    have hid := updateGroup_chatId chat group
    have hassign := SameIds.assign_same m hid
    have hkey : chat.chatId ∈ QHash.keys m.hiddenChats := hmem chat (List.mem_cons_self _ _)
    dsimp only
    split_ifs
    · refine hassign.trans (SameIds.trans ?_ (ih _ hnd.2 ?_))
      · apply SameIds.promote
        rw [hid]
        simp only [QHash.keys_assign]
        exact hkey
      · intro c hc
        rw [addVisibleChat_hiddenChats]
        apply QHash.mem_keys_remove_of_ne
        · rw [hid]
          exact fun e => hnd.1 c hc e
        · simp only [QHash.keys_assign]
          exact hmem c (List.mem_cons_of_mem _ hc)
    · refine hassign.trans (ih _ hnd.2 ?_)
      intro c hc
      simp only [QHash.keys_assign]
      exact hmem c (List.mem_cons_of_mem _ hc)

theorem SameIds.updateChatVisibility (td : TDLibWrapper) (m : ChatListModel)
    (group : Option Group) : SameIds m (ChatListModel.updateChatVisibility td m group) := by
  intro hwf
  unfold ChatListModel.updateChatVisibility
  dsimp only
  obtain ⟨hwf1, hp1⟩ := SameIds.hideLoop group m.chatList.length m 0 hwf
  have hshow := SameIds.showLoop td group
    (QHash.values (ChatListModel.hideLoop group m.chatList.length m 0).hiddenChats)
    (ChatListModel.hideLoop group m.chatList.length m 0)
    (by rw [hwf1.2.chatIds_values]; exact hwf1.1.of_append_right)
    (by
      intro c hc
      rw [← hwf1.2.chatIds_values]
      exact List.mem_map.mpr ⟨c, hc, rfl⟩)
  obtain ⟨hwf2, hp2⟩ := hshow hwf1
  exact ⟨hwf2, hp2.trans hp1⟩

theorem SameIds.setShowAllChats (td : TDLibWrapper) (m : ChatListModel) (showAll : Bool) :
    SameIds m (ChatListModel.setShowAllChats td m showAll) := by
  unfold ChatListModel.setShowAllChats
  split_ifs
  · have h1 : SameIds m { m with showHiddenChats := showAll } := SameIds.of_fields rfl rfl id
    exact h1.trans ((SameIds.updateChatVisibility td _ none).trans (SameIds.emit _ _))
  · exact SameIds.refl m

/-- Writing through the pointer found under `k` in the Hidden Set keeps the identities, when
the identity of the entity is not changed. -/
theorem SameIds.assign_found (m : ChatListModel) {k : Int} {chat d : ChatData}
    (hf : QHash.find m.hiddenChats k = some chat) (hid : d.chatId = chat.chatId) :
    SameIds m { m with hiddenChats := QHash.assign m.hiddenChats k d } := by
  refine SameIds.of_fields (by rfl) (QHash.keys_assign _ _ _) ?_
  intro hk
  apply Keyed.assign hk
  rw [hid]
  exact hk.chatId_of_find hf

theorem SameIds.storeAttribute {m m1 : ChatListModel} {chatId : Int} {key : String}
    {value : QVariant} {roles : Option (List Role)}
    (h : ChatListModel.storeAttribute m chatId key value roles = some m1) : SameIds m m1 := by
  unfold ChatListModel.storeAttribute at h
  dsimp only at h
  split_ifs at h
  · cases hc : m.chatList[QHash.value m.chatIndexMap chatId]? with
    | none => rw [hc] at h; cases h
    | some chat =>
      rw [hc] at h
      have hset := SameIds.set m hc
        (d := { chat with chatData := QHash.insert chat.chatData key value }) rfl
      cases roles with
      | none =>
        simp only [Option.some.injEq] at h
        rw [← h]
        exact hset
      | some changedRoles =>
        simp only [Option.some.injEq] at h
        rw [← h]
        exact hset.trans (SameIds.emit _ _)
  · cases hf : QHash.find m.hiddenChats chatId with
    | none =>
      rw [hf] at h
      simp only [Option.some.injEq] at h
      rw [← h]
      exact SameIds.refl m
    | some chat =>
      rw [hf] at h
      simp only [Option.some.injEq] at h
      rw [← h]
      exact SameIds.assign_found m hf rfl

/-- The reorder step of the slots that change an order key: the identities are kept, and the
entity that stood at `i` stands at the returned index. -/
theorem SameIds.reorder {m m1 : ChatListModel} {i j : Nat} {changed : Bool} {chat : ChatData}
    (hc : m.chatList[i]? = some chat)
    (h : (if changed = true then ChatListModel.updateChatOrder m i else some (m, i))
      = some (m1, j)) :
    SameIds m m1 ∧ m1.chatList[j]? = some chat := by
  split_ifs at h
  · obtain ⟨_, _, _, _, hat⟩ := updateChatOrder_some h
    exact ⟨SameIds.updateChatOrder h, by rw [hat, hc]⟩
  · simp only [Option.some.injEq, Prod.mk.injEq] at h
    obtain ⟨e1, e2⟩ := h
    subst e1 e2
    exact ⟨SameIds.refl _, hc⟩

theorem SameIds.promote_key (td : TDLibWrapper) (m : ChatListModel) {chat : ChatData}
    {k : Int} (hk : k ∈ QHash.keys m.hiddenChats) (hid : chat.chatId = k) :
    SameIds m
      (ChatListModel.addVisibleChat td { m with hiddenChats := QHash.remove m.hiddenChats k }
        chat) := by
  subst hid
  exact SameIds.promote td m hk

theorem SameIds.handleChatLastMessageUpdated {td : TDLibWrapper} {m m1 : ChatListModel}
    {id order : String} {lastMessage : QVariantMap}
    (h : ChatListModel.handleChatLastMessageUpdated td m id order lastMessage = some m1) :
    SameIds m m1 := by
  unfold ChatListModel.handleChatLastMessageUpdated at h
  generalize QString.toLongLong id = r at h
  obtain ⟨chatId, ok⟩ := r
  dsimp only at h
  split_ifs at h with hok hcontains
  · cases hc : m.chatList[QHash.value m.chatIndexMap chatId]? with
    | none => rw [hc] at h; cases h
    | some chat =>
      rw [hc] at h
      dsimp only at h
      have hset := SameIds.set m hc (setOrder_chatId chat order)
      have hc1 := getElem?_set_self hc (chat.setOrder order).1
      split at h
      · cases h
      · rename_i m2 j hres
        obtain ⟨hsame, hat⟩ := SameIds.reorder hc1 hres
        simp only [Option.some.injEq] at h
        rw [← h]
        refine hset.trans (hsame.trans ?_)
        exact (SameIds.set m2 hat
          (updateLastMessage_chatId (chat.setOrder order).1 td lastMessage)).trans
          ((SameIds.emit _ _).trans (SameIds.emit _ _))
  · cases hf : QHash.find m.hiddenChats chatId with
    | none =>
      rw [hf] at h
      simp only [Option.some.injEq] at h
      rw [← h]
      exact SameIds.refl m
    | some chat =>
      rw [hf] at h
      dsimp only at h
      have hassign := SameIds.assign_found m hf
        (d := { (chat.setOrder order).1 with
          chatData := QHash.insert (chat.setOrder order).1.chatData LAST_MESSAGE
            (.map lastMessage) })
        (setOrder_chatId chat order)
      split_ifs at h
      · simp only [Option.some.injEq] at h
        rw [← h]
        intro hwf
        have hkey : chatId ∈ QHash.keys m.hiddenChats :=
          List.mem_map.mpr ⟨(chatId, chat), QHash.mem_of_find hf, rfl⟩
        have hid : chat.chatId = chatId := hwf.2.chatId_of_find hf
        refine (hassign.trans (SameIds.promote_key td _ ?_ ?_)) hwf
        · simp only [QHash.keys_assign]
          exact hkey
        · exact (setOrder_chatId chat order).trans hid
      · simp only [Option.some.injEq] at h
        rw [← h]
        exact hassign
  · simp only [Option.some.injEq] at h
    rw [← h]
    exact SameIds.refl m

theorem SameIds.handleChatOrderUpdated {m m1 : ChatListModel} {id order : String}
    (h : ChatListModel.handleChatOrderUpdated m id order = some m1) : SameIds m m1 := by
  unfold ChatListModel.handleChatOrderUpdated at h
  generalize QString.toLongLong id = r at h
  obtain ⟨chatId, ok⟩ := r
  dsimp only at h
  split_ifs at h with hok hcontains
  · cases hc : m.chatList[QHash.value m.chatIndexMap chatId]? with
    | none => rw [hc] at h; cases h
    | some chat =>
      rw [hc] at h
      dsimp only at h
      have hset := SameIds.set m hc (setOrder_chatId chat order)
      split_ifs at h
      · obtain ⟨res, hres, e⟩ := Option.map_eq_some'.mp h
        obtain ⟨m2, j⟩ := res
        dsimp only at e
        subst e
        exact hset.trans (SameIds.updateChatOrder hres)
      · simp only [Option.some.injEq] at h
        rw [← h]
        exact hset
  · cases hf : QHash.find m.hiddenChats chatId with
    | none =>
      rw [hf] at h
      simp only [Option.some.injEq] at h
      rw [← h]
      exact SameIds.refl m
    | some chat =>
      rw [hf] at h
      simp only [Option.some.injEq] at h
      rw [← h]
      exact SameIds.assign_found m hf (setOrder_chatId chat order)
  · simp only [Option.some.injEq] at h
    rw [← h]
    exact SameIds.refl m

theorem SameIds.calculateUnreadState (appSettings : AppSettings) (m : ChatListModel) :
    SameIds m (ChatListModel.calculateUnreadState appSettings m) := by
  unfold ChatListModel.calculateUnreadState
  split_ifs
  · exact SameIds.emit _ _
  · exact SameIds.refl m

theorem SameIds.handleChatReadInboxUpdated {appSettings : AppSettings} {m m1 : ChatListModel}
    {id lastReadInboxMessageId : String} {unreadCount : Int}
    (h : ChatListModel.handleChatReadInboxUpdated appSettings m id lastReadInboxMessageId
      unreadCount = some m1) : SameIds m m1 := by
  unfold ChatListModel.handleChatReadInboxUpdated at h
  generalize QString.toLongLong id = r at h
  obtain ⟨chatId, ok⟩ := r
  dsimp only at h
  split_ifs at h with hok hcontains
  · cases hc : m.chatList[QHash.value m.chatIndexMap chatId]? with
    | none => rw [hc] at h; cases h
    | some chat =>
      rw [hc] at h
      simp only [Option.some.injEq] at h
      rw [← h]
      refine (SameIds.set m hc ?_).trans
        ((SameIds.emit _ _).trans (SameIds.calculateUnreadState _ _))
      rfl
  · cases hf : QHash.find m.hiddenChats chatId with
    | none =>
      rw [hf] at h
      simp only [Option.some.injEq] at h
      rw [← h]
      exact SameIds.refl m
    | some chat =>
      rw [hf] at h
      simp only [Option.some.injEq] at h
      rw [← h]
      exact SameIds.assign_found m hf rfl
  · simp only [Option.some.injEq] at h
    rw [← h]
    exact SameIds.refl m

theorem SameIds.handleMessageSendSucceeded {td : TDLibWrapper} {m m1 : ChatListModel}
    {message : QVariantMap}
    (h : ChatListModel.handleMessageSendSucceeded td m message = some m1) : SameIds m m1 := by
  unfold ChatListModel.handleMessageSendSucceeded at h
  generalize (QHash.value message CHAT_ID).toLongLongOk = r at h
  obtain ⟨chatId, ok⟩ := r
  dsimp only at h
  split_ifs at h with hok hcontains
  · cases hc : m.chatList[QHash.value m.chatIndexMap chatId]? with
    | none => rw [hc] at h; cases h
    | some chat =>
      rw [hc] at h
      simp only [Option.some.injEq] at h
      rw [← h]
      exact (SameIds.set m hc (updateLastMessage_chatId chat td message)).trans
        (SameIds.emit _ _)
  · cases hf : QHash.find m.hiddenChats chatId with
    | none =>
      rw [hf] at h
      simp only [Option.some.injEq] at h
      rw [← h]
      exact SameIds.refl m
    | some chat =>
      rw [hf] at h
      simp only [Option.some.injEq] at h
      rw [← h]
      exact SameIds.assign_found m hf rfl
  · simp only [Option.some.injEq] at h
    rw [← h]
    exact SameIds.refl m

theorem SameIds.handleChatDraftMessageUpdated {m m1 : ChatListModel} {chatId : Int}
    {draftMessage : QVariantMap} {order : String}
    (h : ChatListModel.handleChatDraftMessageUpdated m chatId draftMessage order = some m1) :
    SameIds m m1 := by
  unfold ChatListModel.handleChatDraftMessageUpdated at h
  dsimp only at h
  split_ifs at h with hcontains
  · cases hc : m.chatList[QHash.value m.chatIndexMap chatId]? with
    | none => rw [hc] at h; cases h
    | some chat =>
      rw [hc] at h
      dsimp only at h
      have hset := SameIds.set m hc
        (d := { chat with
          chatData := QHash.insert chat.chatData DRAFT_MESSAGE (.map draftMessage) }) rfl
      have hc1 := getElem?_set_self hc
        { chat with chatData := QHash.insert chat.chatData DRAFT_MESSAGE (.map draftMessage) }
      split_ifs at h
      · obtain ⟨res, hres, e⟩ := Option.map_eq_some'.mp h
        obtain ⟨m2, j⟩ := res
        · dsimp only at e
          subst e
          refine SameIds.trans ?_ (SameIds.updateChatOrder hres)
          exact hset.trans ((SameIds.emit _ _).trans
            (SameIds.set _ hc1 (setOrder_chatId _ order)))
      · simp only [Option.some.injEq] at h
        rw [← h]
        exact hset.trans ((SameIds.emit _ _).trans
          (SameIds.set _ hc1 (setOrder_chatId _ order)))
  · simp only [Option.some.injEq] at h
    rw [← h]
    exact SameIds.refl m

/-- Every event but the discovery of a chat keeps the identities the model holds. -/
theorem SameIds.step {env : Collaborators} {m m1 : ChatListModel} {e : Event}
    (hne : ∀ (chatId : String) (chatInformation : QVariantMap),
      e ≠ .newChatDiscovered chatId chatInformation)
    (h : step env m e = some m1) : SameIds m m1 := by
  cases e with
  | newChatDiscovered chatId chatInformation => exact absurd rfl (hne chatId chatInformation)
  | chatLastMessageUpdated chatId order lastMessage =>
    exact SameIds.handleChatLastMessageUpdated h
  | chatOrderUpdated chatId order => exact SameIds.handleChatOrderUpdated h
  | chatReadInboxUpdated chatId lastReadInboxMessageId unreadCount =>
    exact SameIds.handleChatReadInboxUpdated h
  | chatReadOutboxUpdated chatId lastReadOutboxMessageId =>
    simp only [Fernschreiber.step, ChatListModel.handleChatReadOutboxUpdated] at h
    split_ifs at h
    · exact SameIds.storeAttribute h
    · cases h; exact SameIds.refl m
  | chatPhotoUpdated chatId photo =>
    simp only [Fernschreiber.step, ChatListModel.handleChatPhotoUpdated,
      ChatListModel.handleChatPinnedMessageUpdated, ChatListModel.handleChatTitleUpdated,
      ChatListModel.handleChatIsMarkedAsUnreadUpdated, ChatListModel.handleChatPinnedUpdated,
      ChatListModel.handleChatUnreadMentionCountUpdated,
      ChatListModel.handleChatUnreadReactionCountUpdated,
      ChatListModel.handleChatAvailableReactionsUpdated] at h
    exact SameIds.storeAttribute h
  | chatPinnedMessageUpdated chatId pinnedMessageId =>
    simp only [Fernschreiber.step, ChatListModel.handleChatPhotoUpdated,
      ChatListModel.handleChatPinnedMessageUpdated, ChatListModel.handleChatTitleUpdated,
      ChatListModel.handleChatIsMarkedAsUnreadUpdated, ChatListModel.handleChatPinnedUpdated,
      ChatListModel.handleChatUnreadMentionCountUpdated,
      ChatListModel.handleChatUnreadReactionCountUpdated,
      ChatListModel.handleChatAvailableReactionsUpdated] at h
    exact SameIds.storeAttribute h
  | messageSendSucceeded messageId oldMessageId message =>
    exact SameIds.handleMessageSendSucceeded h
  | chatNotificationSettingsUpdated chatId chatNotificationSettings =>
    simp only [Fernschreiber.step, ChatListModel.handleChatNotificationSettingsUpdated] at h
    split_ifs at h
    · exact SameIds.storeAttribute h
    · cases h; exact SameIds.refl m
  | superGroupUpdated groupId =>
    simp only [Fernschreiber.step, Option.some.injEq] at h
    rw [← h]
    exact SameIds.updateChatVisibility _ _ _
  | basicGroupUpdated groupId =>
    simp only [Fernschreiber.step, Option.some.injEq] at h
    rw [← h]
    exact SameIds.updateChatVisibility _ _ _
  | secretChatUpdated secretChatId secretChat =>
    simp only [Fernschreiber.step, Option.some.injEq] at h
    rw [← h]
    exact SameIds.secretLoop _ _ _ _ _
  | secretChatReceived secretChatId secretChat =>
    simp only [Fernschreiber.step, Option.some.injEq] at h
    rw [← h]
    exact SameIds.secretLoop _ _ _ _ _
  | chatTitleUpdated chatId title =>
    simp only [Fernschreiber.step, ChatListModel.handleChatPhotoUpdated,
      ChatListModel.handleChatPinnedMessageUpdated, ChatListModel.handleChatTitleUpdated,
      ChatListModel.handleChatIsMarkedAsUnreadUpdated, ChatListModel.handleChatPinnedUpdated,
      ChatListModel.handleChatUnreadMentionCountUpdated,
      ChatListModel.handleChatUnreadReactionCountUpdated,
      ChatListModel.handleChatAvailableReactionsUpdated] at h
    exact SameIds.storeAttribute h
  | chatIsMarkedAsUnreadUpdated chatId chatIsMarkedAsUnread =>
    simp only [Fernschreiber.step, ChatListModel.handleChatPhotoUpdated,
      ChatListModel.handleChatPinnedMessageUpdated, ChatListModel.handleChatTitleUpdated,
      ChatListModel.handleChatIsMarkedAsUnreadUpdated, ChatListModel.handleChatPinnedUpdated,
      ChatListModel.handleChatUnreadMentionCountUpdated,
      ChatListModel.handleChatUnreadReactionCountUpdated,
      ChatListModel.handleChatAvailableReactionsUpdated] at h
    exact SameIds.storeAttribute h
  | chatPinnedUpdated chatId chatIsPinned =>
    simp only [Fernschreiber.step, ChatListModel.handleChatPhotoUpdated,
      ChatListModel.handleChatPinnedMessageUpdated, ChatListModel.handleChatTitleUpdated,
      ChatListModel.handleChatIsMarkedAsUnreadUpdated, ChatListModel.handleChatPinnedUpdated,
      ChatListModel.handleChatUnreadMentionCountUpdated,
      ChatListModel.handleChatUnreadReactionCountUpdated,
      ChatListModel.handleChatAvailableReactionsUpdated] at h
    exact SameIds.storeAttribute h
  | chatDraftMessageUpdated chatId draftMessage order =>
    exact SameIds.handleChatDraftMessageUpdated h
  | chatUnreadMentionCountUpdated chatId unreadMentionCount =>
    simp only [Fernschreiber.step, ChatListModel.handleChatPhotoUpdated,
      ChatListModel.handleChatPinnedMessageUpdated, ChatListModel.handleChatTitleUpdated,
      ChatListModel.handleChatIsMarkedAsUnreadUpdated, ChatListModel.handleChatPinnedUpdated,
      ChatListModel.handleChatUnreadMentionCountUpdated,
      ChatListModel.handleChatUnreadReactionCountUpdated,
      ChatListModel.handleChatAvailableReactionsUpdated] at h
    exact SameIds.storeAttribute h
  | chatUnreadReactionCountUpdated chatId unreadReactionCount =>
    simp only [Fernschreiber.step, ChatListModel.handleChatPhotoUpdated,
      ChatListModel.handleChatPinnedMessageUpdated, ChatListModel.handleChatTitleUpdated,
      ChatListModel.handleChatIsMarkedAsUnreadUpdated, ChatListModel.handleChatPinnedUpdated,
      ChatListModel.handleChatUnreadMentionCountUpdated,
      ChatListModel.handleChatUnreadReactionCountUpdated,
      ChatListModel.handleChatAvailableReactionsUpdated] at h
    exact SameIds.storeAttribute h
  | chatAvailableReactionsUpdated chatId availableReactions =>
    simp only [Fernschreiber.step, ChatListModel.handleChatPhotoUpdated,
      ChatListModel.handleChatPinnedMessageUpdated, ChatListModel.handleChatTitleUpdated,
      ChatListModel.handleChatIsMarkedAsUnreadUpdated, ChatListModel.handleChatPinnedUpdated,
      ChatListModel.handleChatUnreadMentionCountUpdated,
      ChatListModel.handleChatUnreadReactionCountUpdated,
      ChatListModel.handleChatAvailableReactionsUpdated] at h
    exact SameIds.storeAttribute h
  | chatFolders foldersInformation mainChatlistPosition =>
    simp only [Fernschreiber.step, Option.some.injEq] at h
    rw [← h]
    exact SameIds.of_fields rfl rfl id
  | chatFolder chatFolderInformation =>
    simp only [Fernschreiber.step, Option.some.injEq] at h
    rw [← h]
    exact SameIds.of_fields rfl rfl id
  | timeout =>
    simp only [Fernschreiber.step, Option.some.injEq] at h
    rw [← h]
    exact SameIds.emit _ _
  | setShowAllChats showAll =>
    simp only [Fernschreiber.step, Option.some.injEq] at h
    rw [← h]
    exact SameIds.setShowAllChats _ _ _

/-- Adding an entity with a new identity, to the Hidden Set or to the visible sequence, keeps
the model well formed and adds exactly that identity. -/
theorem wellFormed_add (td : TDLibWrapper) (m : ChatListModel) (chat : ChatData)
    (hwf : WellFormed m) (hnew : chat.chatId ∉ allIds m) :
    WellFormed
        (if chat.isHidden = true ∧ ¬ m.showHiddenChats = true then
          { m with hiddenChats := QHash.insert m.hiddenChats chat.chatId chat }
         else ChatListModel.addVisibleChat td m chat) ∧
      (allIds
        (if chat.isHidden = true ∧ ¬ m.showHiddenChats = true then
          { m with hiddenChats := QHash.insert m.hiddenChats chat.chatId chat }
         else ChatListModel.addVisibleChat td m chat)).Perm (chat.chatId :: allIds m) := by
  obtain ⟨hnd, hkeyed⟩ := hwf
  have hnd2 : (chat.chatId :: allIds m).Nodup := List.nodup_cons.mpr ⟨hnew, hnd⟩
  have hnotkey : chat.chatId ∉ QHash.keys m.hiddenChats := by
    intro hk
    exact hnew (List.mem_append_right _ hk)
  split_ifs
  · have hperm : (allIds { m with
        hiddenChats := QHash.insert m.hiddenChats chat.chatId chat }).Perm
        (chat.chatId :: allIds m) := by
      unfold allIds
      simp only [QHash.insert, QHash.remove_of_not_mem hnotkey]
      exact List.perm_middle
    exact ⟨⟨hperm.nodup_iff.mpr hnd2, hkeyed.insert rfl⟩, hperm⟩
  · have hperm : (allIds (ChatListModel.addVisibleChat td m chat)).Perm
        (chat.chatId :: allIds m) := by
      unfold allIds
      rw [addVisibleChat_chatList, addVisibleChat_hiddenChats]
      exact List.Perm.append_right _ ((QList.insert_perm _ _ _).map _)
    refine ⟨⟨hperm.nodup_iff.mpr hnd2, ?_⟩, hperm⟩
    rw [addVisibleChat_hiddenChats]
    exact hkeyed

theorem wellFormed_handleChatDiscovered (td : TDLibWrapper) (m : ChatListModel)
    (chatToBeAdded : QVariantMap) (hwf : WellFormed m)
    (hnew : (QHash.value chatToBeAdded ID).toLongLong ∉ allIds m) :
    WellFormed (ChatListModel.handleChatDiscovered td m chatToBeAdded) ∧
      (allIds (ChatListModel.handleChatDiscovered td m chatToBeAdded)).Perm
        ((QHash.value chatToBeAdded ID).toLongLong :: allIds m) := by
  unfold ChatListModel.handleChatDiscovered
  dsimp only
  generalize hchat :
    (if (if (td.getGroup (ChatData.create td chatToBeAdded).groupId).isSome = true then
            ((ChatData.create td chatToBeAdded).updateGroup
              (td.getGroup (ChatData.create td chatToBeAdded).groupId)).1
          else ChatData.create td chatToBeAdded).chatType = ChatType.ChatTypeSecret then
        if ¬ (td.getSecretChatFromCache
            (QHash.value (QHash.value chatToBeAdded TYPE).toMap SECRET_CHAT_ID).toLongLong).isEmpty
            = true then
          ((if (td.getGroup (ChatData.create td chatToBeAdded).groupId).isSome = true then
              ((ChatData.create td chatToBeAdded).updateGroup
                (td.getGroup (ChatData.create td chatToBeAdded).groupId)).1
            else ChatData.create td chatToBeAdded).updateSecretChat td
            (td.getSecretChatFromCache
              (QHash.value (QHash.value chatToBeAdded TYPE).toMap
                SECRET_CHAT_ID).toLongLong)).1
        else
          if (td.getGroup (ChatData.create td chatToBeAdded).groupId).isSome = true then
            ((ChatData.create td chatToBeAdded).updateGroup
              (td.getGroup (ChatData.create td chatToBeAdded).groupId)).1
          else ChatData.create td chatToBeAdded
      else
        if (td.getGroup (ChatData.create td chatToBeAdded).groupId).isSome = true then
          ((ChatData.create td chatToBeAdded).updateGroup
            (td.getGroup (ChatData.create td chatToBeAdded).groupId)).1
        else ChatData.create td chatToBeAdded) = chat
  have hid : chat.chatId = (QHash.value chatToBeAdded ID).toLongLong := by
    rw [← hchat]
    split_ifs <;>
      first
        | rfl
        | (simp only [updateSecretChat_chatId, updateGroup_chatId]; rfl)
  rw [← hid] at hnew ⊢
  exact wellFormed_add td m chat hwf hnew

theorem discoveredIds_cons_of_ne (env : Collaborators) (e : Event)
    (rest : List (Collaborators × Event))
    (hne : ∀ (chatId : String) (chatInformation : QVariantMap),
      e ≠ .newChatDiscovered chatId chatInformation) :
    discoveredIds ((env, e) :: rest) = discoveredIds rest := by
  cases e <;> first
    | rfl
    | exact absurd rfl (hne _ _)

/-- Along a sequence of events that reports every identity at most once, and none the model
already holds, the model stays well formed, and it holds only identities it held at the start or
that were reported. -/
theorem wellFormed_run :
    ∀ (events : List (Collaborators × Event)) (m m1 : ChatListModel) (known : List Int),
      WellFormed m → (∀ id ∈ allIds m, id ∈ known) →
      (known ++ discoveredIds events).Nodup → run m events = some m1 →
      WellFormed m1 ∧ ∀ id ∈ allIds m1, id ∈ known ++ discoveredIds events := by
  intro events
  induction events with
  | nil =>
    intro m m1 known hwf hknown _ hrun
    simp only [run, Option.some.injEq] at hrun
    subst hrun
    exact ⟨hwf, fun id hid => List.mem_append_left _ (hknown id hid)⟩
  | cons ev rest ih =>
    intro m m1 known hwf hknown hnd hrun
    obtain ⟨env, e⟩ := ev
    unfold run at hrun
    cases hstep : step env m e with
    | none => rw [hstep] at hrun; cases hrun
    | some m2 =>
      rw [hstep] at hrun
      dsimp only at hrun
      by_cases hdisc : ∃ (chatId : String) (chatInformation : QVariantMap),
          e = .newChatDiscovered chatId chatInformation
      · obtain ⟨chatId, chatInformation, rfl⟩ := hdisc
        simp only [Fernschreiber.step, Option.some.injEq] at hstep
        have hids : discoveredIds ((env, Event.newChatDiscovered chatId chatInformation) :: rest)
            = (QHash.value chatInformation ID).toLongLong :: discoveredIds rest := rfl
        rw [hids] at hnd ⊢
        have hnew : (QHash.value chatInformation ID).toLongLong ∉ allIds m := by
          intro hmem
          have h1 := hknown _ hmem
          have h2 := (List.nodup_append.mp hnd).2.2
          exact h2 h1 (List.mem_cons_self _ _)
        obtain ⟨hwf2, hperm⟩ :=
          wellFormed_handleChatDiscovered env.tdLibWrapper m chatInformation hwf hnew
        rw [hstep] at hwf2 hperm
        have hknown2 : ∀ id ∈ allIds m2,
            id ∈ known ++ [(QHash.value chatInformation ID).toLongLong] := by
          intro id hid
          rcases List.mem_cons.mp (hperm.subset hid) with e1 | e1
          · rw [e1]
            exact List.mem_append_right _ (List.mem_singleton_self _)
          · exact List.mem_append_left _ (hknown id e1)
        have hnd2 : ((known ++ [(QHash.value chatInformation ID).toLongLong])
            ++ discoveredIds rest).Nodup := by
          rw [List.append_assoc]
          exact hnd
        have := ih m2 m1 _ hwf2 hknown2 hnd2 hrun
        rw [List.append_assoc] at this
        exact this
      · have hne : ∀ (chatId : String) (chatInformation : QVariantMap),
            e ≠ .newChatDiscovered chatId chatInformation :=
          fun c i he => hdisc ⟨c, i, he⟩
        rw [discoveredIds_cons_of_ne env e rest hne] at hnd ⊢
        obtain ⟨hwf2, hperm⟩ := SameIds.step hne hstep hwf
        exact ih m2 m1 known hwf2 (fun id hid => hknown id (hperm.subset hid)) hnd hrun

theorem wellFormed_empty : WellFormed ChatListModel.empty := by
  refine ⟨?_, ?_⟩
  · simp [allIds, chatIds, QHash.keys, ChatListModel.empty]
  · intro p hp
    simp [ChatListModel.empty] at hp

/-- C7, amended. Disjointness: for every finite sequence of backend events and show-all toggles
applied to the empty model in which every identity is reported by ChatDiscovered at most once, no
identity is at the same time in the visible sequence (`chatList`) and in the Hidden Set
(`hiddenChats`). -/
theorem disjoint_when_discovered_once (events : List (Collaborators × Event))
    (m : ChatListModel) (honce : (discoveredIds events).Nodup)
    (hrun : run ChatListModel.empty events = some m) :
    ∀ id : Int, ¬ (id ∈ chatIds m.chatList ∧ QHash.contains m.hiddenChats id = true) := by
  obtain ⟨hwf, _⟩ := wellFormed_run events ChatListModel.empty m [] wellFormed_empty
    (by intro id hid; simp [allIds, chatIds, QHash.keys, ChatListModel.empty] at hid)
    (by simpa using honce) hrun
  intro id hboth
  obtain ⟨h1, h2⟩ := hboth
  rw [QHash.contains_iff_mem_keys] at h2
  exact List.disjoint_of_nodup_append hwf.1 h1 h2

/-- C7, amended, at the two events in which a secret chat is discovered and then closed. -/
theorem disjoint_when_discovered_once_witness :
    ∃ m : ChatListModel, run ChatListModel.empty secretChatClosedEvents = some m ∧
      ∀ id : Int, ¬ (id ∈ chatIds m.chatList ∧ QHash.contains m.hiddenChats id = true) :=
  ⟨_, rfl, disjoint_when_discovered_once secretChatClosedEvents _ (by decide) rfl⟩

/-! ## The visibility loops run to their end -/

theorem hideChatAt_length (m : ChatListModel) {i : Nat} (c : ChatData)
    (h : i < m.chatList.length) :
    (ChatListModel.hideChatAt m i c).chatList.length = m.chatList.length - 1 :=
  QList.length_removeAt m.chatList h

/-- The rounds given to the first loop of `updateChatVisibility` suffice: started at position `i`
with at least `size - i` rounds, it ends because `i` reaches the size of the list, so that more
rounds do not change the result. -/
theorem hideLoop_rounds_suffice (group : Option Group) :
    ∀ (rounds : Nat) (m : ChatListModel) (i : Nat), m.chatList.length ≤ i + rounds →
      ∀ more : Nat, ChatListModel.hideLoop group (rounds + more) m i
        = ChatListModel.hideLoop group rounds m i := by
  intro rounds
  induction rounds with
  | zero =>
    intro m i h more
    cases more with
    | zero => rfl
    | succ k =>
      simp only [Nat.zero_add]
      unfold ChatListModel.hideLoop
      rw [dif_neg (by omega)]
  | succ r ih =>
    intro m i h more
    have e : r + 1 + more = (r + more) + 1 := by omega
    rw [e]
    unfold ChatListModel.hideLoop
    by_cases hi : i < m.chatList.length
    · rw [dif_pos hi, dif_pos hi]
      dsimp only
      split_ifs
      · apply ih
        rw [hideChatAt_length _ _ (by simpa using hi)]
        simp only [List.length_set]
        omega
      · apply ih
        simp only [ChatListModel.emit, List.length_set]
        omega
      · apply ih
        simp only [List.length_set]
        omega
    · rw [dif_neg hi, dif_neg hi]

/-- The rounds given to the loop of `updateSecretChatVisibility` suffice. -/
theorem secretLoop_rounds_suffice (td : TDLibWrapper) (details : QVariantMap) :
    ∀ (rounds : Nat) (m : ChatListModel) (i : Nat), m.chatList.length ≤ i + rounds →
      ∀ more : Nat, ChatListModel.secretLoop td details (rounds + more) m i
        = ChatListModel.secretLoop td details rounds m i := by
  intro rounds
  induction rounds with
  | zero =>
    intro m i h more
    cases more with
    | zero => rfl
    | succ k =>
      simp only [Nat.zero_add]
      unfold ChatListModel.secretLoop
      rw [dif_neg (by omega)]
  | succ r ih =>
    intro m i h more
    have e : r + 1 + more = (r + more) + 1 := by omega
    rw [e]
    unfold ChatListModel.secretLoop
    by_cases hi : i < m.chatList.length
    · rw [dif_pos hi, dif_pos hi]
      dsimp only
      split_ifs
      · exact ih _ _ (by omega) _
      · exact ih _ _ (by omega) _
      · apply ih
        rw [hideChatAt_length _ _ (by simpa using hi)]
        simp only [List.length_set]
        omega
      · apply ih
        simp only [ChatListModel.emit, List.length_set]
        omega
      · apply ih
        simp only [List.length_set]
        omega
    · rw [dif_neg hi, dif_neg hi]

/-- The rounds given to the scan of `addVisibleChat` suffice. -/
theorem scanPosition_rounds_suffice (chat : ChatData) (l : List ChatData) (rounds pos : Nat)
    (h : l.length ≤ pos + rounds) (more : Nat) :
    ChatListModel.scanPosition chat l (rounds + more) pos
      = ChatListModel.scanPosition chat l rounds pos := by
  rw [scanPosition_eq chat l _ pos (by omega), scanPosition_eq chat l _ pos h]

/-- The rounds given to the forward probe of `updateChatOrder` suffice. -/
theorem probeForward_rounds_suffice (chat : ChatData) (l : List ChatData) :
    ∀ (rounds j0 : Nat), l.length ≤ j0 + 1 + rounds →
      ∀ more : Nat, ChatListModel.probeForward chat l (rounds + more) j0
        = ChatListModel.probeForward chat l rounds j0 := by
  intro rounds
  induction rounds with
  | zero =>
    intro j0 h more
    cases more with
    | zero => rfl
    | succ k =>
      simp only [Nat.zero_add]
      unfold ChatListModel.probeForward
      rw [dif_neg (by omega)]
  | succ r ih =>
    intro j0 h more
    have e : r + 1 + more = (r + more) + 1 := by omega
    rw [e]
    unfold ChatListModel.probeForward
    by_cases hn : j0 + 1 < l.length
    · rw [dif_pos hn, dif_pos hn]
      split_ifs
      · exact ih (j0 + 1) (by omega) more
      · rfl
    · rw [dif_neg hn, dif_neg hn]


/-! ## The visibility classifier -/

theorem isNull_eq_of_iff {c d : ChatData} (h : hasNoLastMessage d ↔ hasNoLastMessage c) :
    (QHash.value d.chatData LAST_MESSAGE).isNull = (QHash.value c.chatData LAST_MESSAGE).isNull := by
  unfold hasNoLastMessage at h
  cases h1 : (QHash.value d.chatData LAST_MESSAGE).isNull <;>
    cases h2 : (QHash.value c.chatData LAST_MESSAGE).isNull <;> simp_all

/-- C11. `isHidden` equals the policy table: a basic-group or supergroup chat is hidden iff its
membership is Left, Unknown or Banned, or its membership is Creator, Administrator, Member or
Restricted and it has no last message; a chat of unknown kind is always hidden; a private chat is
hidden iff it has no last message; a secret chat is hidden iff its state is Closed. The verdict
depends on no other field: two entities that agree on the chat kind, the membership, the secret
chat state and on whether there is a last message get the same verdict. -/
theorem isHidden_policy_table (c : ChatData) :
    ((c.chatType = .ChatTypeBasicGroup ∨ c.chatType = .ChatTypeSupergroup) →
      (c.isHidden = true ↔
        (c.memberStatus = .ChatMemberStatusLeft ∨ c.memberStatus = .ChatMemberStatusUnknown ∨
          c.memberStatus = .ChatMemberStatusBanned) ∨
        ((c.memberStatus = .ChatMemberStatusCreator ∨
            c.memberStatus = .ChatMemberStatusAdministrator ∨
            c.memberStatus = .ChatMemberStatusMember ∨
            c.memberStatus = .ChatMemberStatusRestricted) ∧ hasNoLastMessage c))) ∧
    (c.chatType = .ChatTypeUnknown → c.isHidden = true) ∧
    (c.chatType = .ChatTypePrivate → (c.isHidden = true ↔ hasNoLastMessage c)) ∧
    (c.chatType = .ChatTypeSecret →
      (c.isHidden = true ↔ c.secretChatState = .SecretChatStateClosed)) ∧
    (∀ d : ChatData, d.chatType = c.chatType → d.memberStatus = c.memberStatus →
      d.secretChatState = c.secretChatState → (hasNoLastMessage d ↔ hasNoLastMessage c) →
      d.isHidden = c.isHidden) := by
  refine ⟨?_, ?_, ?_, ?_, ?_⟩
  · intro hk
    unfold ChatData.isHidden hasNoLastMessage
    rcases hk with hk | hk <;> rw [hk] <;> cases c.memberStatus <;> simp
  · intro hk
    unfold ChatData.isHidden
    rw [hk]
  · intro hk
    unfold ChatData.isHidden hasNoLastMessage
    rw [hk]
    simp
  · intro hk
    unfold ChatData.isHidden
    rw [hk]
    simp
  · intro d h1 h2 h3 h4
    unfold ChatData.isHidden
    rw [h1, h2, h3, isNull_eq_of_iff h4]

/-- C11, at a supergroup chat in which the user is a member and that has no last message. -/
theorem isHidden_policy_table_witness : sampleGroupChat.isHidden = true :=
  ((isHidden_policy_table sampleGroupChat).1 (Or.inr rfl)).mpr
    (Or.inr ⟨Or.inr (Or.inr (Or.inl rfl)), by decide⟩)


/-! ## What the stale keys of `chatIndexMap` do to the slots -/

/-- C12, evaluated on the code. The supergroup chat 1 (member, no last message) was shown while
"show all" was on and is in the Hidden Set after the toggle was switched off; `isHidden` is true
for it, but its identity is still a key of `chatIndexMap`. A last message for it takes the branch
for visible chats: the order key and the message are written to the private chat 2, which stands
at the stale position, and chat 1 stays in the Hidden Set without a last message. -/
theorem last_message_misses_hidden_group_chat :
    ∃ m m1 : ChatListModel, ∃ chat : ChatData,
      run ChatListModel.empty groupShownThenHiddenEvents = some m ∧
      m.showHiddenChats = false ∧ QHash.find m.hiddenChats 1 = some chat ∧
      chat.chatType = .ChatTypeSupergroup ∧
      chat.memberStatus = .ChatMemberStatusMember ∧ hasNoLastMessage chat ∧
      chat.isHidden = true ∧
      step sampleCollaboratorsWithGroup m
        (.chatLastMessageUpdated "1" "40" [("id", .num 9)]) = some m1 ∧
      QHash.find m1.hiddenChats 1 = some chat ∧ (1 : Int) ∉ chatIds m1.chatList ∧
      m1.chatList.map (fun c => (c.chatId, c.order)) = [(2, 40)] := by
  refine ⟨_, _, _, rfl, ?_, rfl, ?_, ?_, ?_, ?_, rfl, ?_, ?_, ?_⟩ <;> decide

/-- C13, evaluated on the code. After a private chat with the identity 1 was discovered (it is
visible), `reset()` empties the visible sequence and the Hidden Set but leaves the key 1 in
`chatIndexMap`: `getById(1)` then dereferences the null pointer `chatList.value(0)` returns for
the empty list, instead of returning the empty map. -/
theorem getById_after_reset_reads_null :
    ∃ m : ChatListModel,
      run ChatListModel.empty
        [(sampleCollaborators, .newChatDiscovered "1" (privateChatPayload 1 "10" true))]
        = some m ∧
      (1 : Int) ∈ chatIds m.chatList ∧
      m.reset.rowCount = 0 ∧ m.reset.hiddenChats = [] ∧
      QHash.contains m.reset.chatIndexMap 1 = true ∧
      m.reset.getById 1 = none ∧ m.reset.getById 1 ≠ some [] := by
  refine ⟨_, rfl, ?_, ?_, ?_, ?_, ?_, ?_⟩ <;> decide

/-- C14, evaluated on the code. After the secret chat 1 was closed it is in the Hidden Set and
its identity is still a key of `chatIndexMap`, with the position 0: when the private chat 2 stands
there, `getById(1)` returns the attribute bag of chat 2; when the visible sequence is empty,
`getById(1)` dereferences a null pointer. -/
theorem getById_of_hidden_identity :
    (∃ m : ChatListModel, ∃ other : ChatData,
      run ChatListModel.empty secretChatOvertakenEvents = some m ∧
      QHash.contains m.hiddenChats 1 = true ∧ (1 : Int) ∉ chatIds m.chatList ∧
      m.chatList = [other] ∧ other.chatId = 2 ∧
      m.getById 1 = some other.chatData ∧ m.getById 1 ≠ some []) ∧
    (∃ m : ChatListModel,
      run ChatListModel.empty secretChatClosedEvents = some m ∧
      QHash.contains m.hiddenChats 1 = true ∧ m.chatList = [] ∧ m.getById 1 = none) := by
  refine ⟨⟨_, _, rfl, ?_, ?_, rfl, ?_, ?_, ?_⟩, ⟨_, rfl, ?_, ?_, ?_⟩⟩ <;> decide

/-- C15, evaluated on the code. The secret chat 1 is in the Hidden Set and its identity is still
a key of `chatIndexMap`, with the position at which the private chat 2 stands. A title update for
chat 1 changes the title of the visible chat 2, leaves the hidden chat 1 as it was, and emits a
change notification for position 0. -/
theorem title_update_for_hidden_chat_hits_visible_chat :
    ∃ m m1 : ChatListModel,
      run ChatListModel.empty secretChatOvertakenEvents = some m ∧
      QHash.contains m.hiddenChats 1 = true ∧
      m.chatList.map (fun c => (c.chatId, c.title)) = [(2, "")] ∧
      step sampleCollaborators m (.chatTitleUpdated "1" "renamed") = some m1 ∧
      m1.chatList.map (fun c => (c.chatId, c.title)) = [(2, "renamed")] ∧
      m1.chatList ≠ m.chatList ∧ m1.hiddenChats = m.hiddenChats ∧
      m1.emitted =
        m.emitted ++ [Signal.dataChanged (some 0) (some 0) [Role.RoleTitle, Role.RoleFilter]] := by
  refine ⟨_, _, rfl, ?_, ?_, rfl, ?_, ?_, ?_, ?_⟩ <;> decide

/-- C20, evaluated on the code. `handleChatTitleUpdated` does not look at the flag of the
conversion, unlike the other slots that get the identity as text: for the text "abc" it uses the
identity 0, so the title of the chat with the identity 0 is changed and a change notification is
emitted. The slot for the order key drops the same identity text. -/
theorem malformed_identity_in_title_update :
    ∃ m m1 : ChatListModel,
      run ChatListModel.empty
        [(sampleCollaborators, .newChatDiscovered "0" (privateChatPayload 0 "10" true))]
        = some m ∧
      QString.toLongLong "abc" = (0, false) ∧
      m.chatList.map (fun c => (c.chatId, c.title)) = [(0, "")] ∧
      step sampleCollaborators m (.chatTitleUpdated "abc" "renamed") = some m1 ∧
      m1.chatList.map (fun c => (c.chatId, c.title)) = [(0, "renamed")] ∧
      m1.emitted =
        m.emitted ++ [Signal.dataChanged (some 0) (some 0) [Role.RoleTitle, Role.RoleFilter]] ∧
      step sampleCollaborators m (.chatOrderUpdated "abc" "20") = some m := by
  refine ⟨_, _, rfl, ?_, ?_, rfl, ?_, ?_, ?_⟩ <;> decide


/-! ## The frame of `updateChatOrder` -/

/-- An entity that is in place stays where it is: the probes do not move. -/
theorem probedIndex_eq_self (l : List ChatData) (i : Nat) (h : i < l.length)
    (hprev : ∀ (k : Nat) (c : ChatData), k + 1 = i → l[k]? = some c →
      ¬ SortsBefore (l.get ⟨i, h⟩) c)
    (hnext : ∀ c : ChatData, l[i + 1]? = some c → ¬ (l.get ⟨i, h⟩).compareTo c > 0) :
    probedIndex l i h = i := by
  have hback : ChatListModel.probeBackward (l.get ⟨i, h⟩) l i (Nat.le_of_lt h) = i := by
    cases i with
    | zero => rfl
    | succ k =>
      unfold ChatListModel.probeBackward
      have hk : k < l.length := by omega
      exact if_neg (hprev k _ rfl (List.getElem?_eq_getElem hk))
  have hforward : ∀ rounds : Nat,
      ChatListModel.probeForward (l.get ⟨i, h⟩) l rounds i = i := by
    intro rounds
    cases rounds with
    | zero => rfl
    | succ r =>
      unfold ChatListModel.probeForward
      by_cases hn : i + 1 < l.length
      · rw [dif_pos hn]
        exact if_neg (hnext _ (List.getElem?_eq_getElem hn))
      · rw [dif_neg hn]
  unfold probedIndex
  rw [if_pos hback, hback]
  exact hforward _

/-- C16. Reorder of a correctly placed entity is a no-op: for every state and valid position
`i` such that the entity at `i` does not sort before its predecessor (or `i = 0`) and does not
sort after its successor (or `i` is the last position), `updateChatOrder(i)` returns `i` and
leaves the whole state as it is: the sequence and `chatIndexMap` are unchanged and nothing is
emitted. -/
theorem updateChatOrder_in_place (m : ChatListModel) (i : Nat) (hi : i < m.chatList.length)
    (hprev : ∀ (k : Nat) (c : ChatData), k + 1 = i → m.chatList[k]? = some c →
      ¬ SortsBefore (m.chatList.get ⟨i, hi⟩) c)
    (hnext : ∀ c : ChatData, m.chatList[i + 1]? = some c →
      ¬ (m.chatList.get ⟨i, hi⟩).compareTo c > 0) :
    ChatListModel.updateChatOrder m i = some (m, i) := by
  rw [updateChatOrder_eq m i hi, probedIndex_eq_self m.chatList i hi hprev hnext]
  simp

/-- C16, at a sequence of size 1. -/
theorem updateChatOrder_in_place_witness :
    ChatListModel.updateChatOrder sampleSingletonModel 0 = some (sampleSingletonModel, 0) :=
  updateChatOrder_in_place sampleSingletonModel 0 (by decide)
    (fun k c hk _ => by omega)
    (fun c hc => by simp [sampleSingletonModel] at hc)

/-- The state after a call of `updateChatOrder` that moved the entity. -/
theorem updateChatOrder_moved {m m1 : ChatListModel} {i j : Nat}
    (h : ChatListModel.updateChatOrder m i = some (m1, j)) (hne : j ≠ i) :
    m1.emitted = m.emitted ++ [Signal.rowsMoved i i (if j < i then j else j + 1)] := by
  have hi : i < m.chatList.length := (updateChatOrder_some h).1
  rw [updateChatOrder_eq m i hi] at h
  simp only [Option.some.injEq, Prod.mk.injEq] at h
  obtain ⟨e1, e2⟩ := h
  subst e2
  rw [if_pos hne] at e1
  rw [← e1]

/-- C18. Move notification destination: whenever `updateChatOrder(i)` relocates the entity to a
position `j` different from `i`, it emits exactly one signal, the move notification with the
source `i` and the destination `j` when `j < i` and `j + 1` when `j > i`; the destination is
never `i` and never `i + 1`. -/
theorem updateChatOrder_move_notification (m m1 : ChatListModel) (i j : Nat)
    (h : ChatListModel.updateChatOrder m i = some (m1, j)) (hne : j ≠ i) :
    m1.emitted = m.emitted ++ [Signal.rowsMoved i i (if j < i then j else j + 1)] ∧
    (j < i → (if j < i then j else j + 1) = j) ∧
    (i < j → (if j < i then j else j + 1) = j + 1) ∧
    (if j < i then j else j + 1) ≠ i ∧ (if j < i then j else j + 1) ≠ i + 1 := by
  refine ⟨updateChatOrder_moved h hne, ?_, ?_, ?_, ?_⟩
  · intro hlt; rw [if_pos hlt]
  · intro hlt; rw [if_neg (by omega)]
  · split_ifs <;> omega
  · split_ifs <;> omega

/-- C18, at a sequence of three chats whose last one moves to the middle. -/
theorem updateChatOrder_move_notification_witness :
    ∃ m1 : ChatListModel,
      ChatListModel.updateChatOrder sampleModelToReorder 2 = some (m1, 1) ∧
      m1.emitted = sampleModelToReorder.emitted ++ [Signal.rowsMoved 2 2 1] :=
  ⟨_, rfl,
    (updateChatOrder_move_notification sampleModelToReorder _ 2 1 rfl (by decide)).1⟩


/-- C17 as stated fails when two entities share an identity. In a visible sequence that holds
the identities 1, 2, 1 (as it does after the identity 1 was discovered twice), `updateChatOrder(2)`
moves the last entity to position 1, and in doing so writes the entry of the identity 1, which is
also the entry of the entity at position 0, a position below both the old and the new one. -/
theorem updateChatOrder_writes_entry_of_entity_outside_range :
    (∃ m1 : ChatListModel,
      ChatListModel.updateChatOrder duplicateIdentityModel 2 = some (m1, 1) ∧
      0 < min 2 1 ∧
      duplicateIdentityModel.chatList[0]? = some (sampleChat 1 30) ∧
      QHash.find duplicateIdentityModel.chatIndexMap (sampleChat 1 30).chatId = some 2 ∧
      QHash.find m1.chatIndexMap (sampleChat 1 30).chatId = some 1) ∧
    (∃ m0 : ChatListModel,
      run ChatListModel.empty duplicateIdentityEvents = some m0 ∧
      chatIds m0.chatList = chatIds duplicateIdentityModel.chatList ∧
      m0.chatIndexMap = duplicateIdentityModel.chatIndexMap) := by
  refine ⟨⟨_, rfl, ?_, ?_, ?_, ?_⟩, ⟨_, rfl, ?_, ?_⟩⟩ <;> decide

/-- The map after `updateChatOrder` agrees with the map before on every key that is not the
identity of an entity between the old and the new position. -/
theorem updateChatOrder_map_outside {m m1 : ChatListModel} {i j : Nat}
    (h : ChatListModel.updateChatOrder m i = some (m1, j)) (key : Int)
    (hkey : ∀ (q : Nat) (d : ChatData), min i j ≤ q → q ≤ max i j →
      m.chatList[q]? = some d → d.chatId ≠ key) :
    QHash.find m1.chatIndexMap key = QHash.find m.chatIndexMap key := by
  have hi : i < m.chatList.length := (updateChatOrder_some h).1
  obtain ⟨m2, h1, _, _, _, h5⟩ := updateChatOrder_result m i hi
  rw [h1] at h
  simp only [Option.some.injEq, Prod.mk.injEq] at h
  obtain ⟨e1, e2⟩ := h
  subst e1 e2
  have hjlt := probedIndex_lt m.chatList i hi
  have hchat : (m.chatList.get ⟨i, hi⟩).chatId ≠ key :=
    hkey i _ (Nat.min_le_left _ _) (Nat.le_max_left _ _) (List.getElem?_eq_getElem hi)
  rw [h5]
  by_cases hj : probedIndex m.chatList i hi = i
  · rw [if_pos hj]
  · rw [if_neg hj]
    by_cases hlt : probedIndex m.chatList i hi < i
    · rw [if_pos hlt, reindex_find_outside, QHash.find_insert_of_ne _ _ hchat.symm]
      intro q d hq1 hq2 hd
      rw [QList.getElem?_move _ hi hjlt, if_neg (by omega), if_neg (by omega),
        if_pos (by omega)] at hd
      exact hkey (q - 1) d (by omega) (by omega) hd
    · rw [if_neg hlt, reindex_find_outside, QHash.find_insert_of_ne _ _ hchat.symm]
      intro q d hq1 hq2 hd
      rw [QList.getElem?_move _ hi hjlt, if_neg (by omega), if_pos (by omega),
        if_neg (by omega)] at hd
      exact hkey (q + 1) d (by omega) (by omega) hd

/-- C17, amended. Reorder disturbs only the sub-range between the old and the new position: for
every call `updateChatOrder(i)` on a sequence with pairwise distinct identities that returns `j`,
every entity at a position below `min(i, j)` or above `max(i, j)` keeps its position and its
`chatIndexMap` entry is what it was; the entities strictly between the old and the new position
each shift by exactly one position toward `i` (so they keep their relative order); and
`chatIndexMap` changes only for identities of entities at the positions `min(i, j)` to
`max(i, j)`. -/
theorem updateChatOrder_frame (m m1 : ChatListModel) (i j : Nat)
    (hnd : (chatIds m.chatList).Nodup)
    (h : ChatListModel.updateChatOrder m i = some (m1, j)) :
    (∀ p : Nat, p < min i j ∨ max i j < p → m1.chatList[p]? = m.chatList[p]?) ∧
    (∀ (p : Nat) (c : ChatData), p < min i j ∨ max i j < p → m.chatList[p]? = some c →
      QHash.find m1.chatIndexMap c.chatId = QHash.find m.chatIndexMap c.chatId) ∧
    (∀ p : Nat, j < p → p < i → m1.chatList[p + 1]? = m.chatList[p]?) ∧
    (∀ p : Nat, i < p → p < j → m1.chatList[p - 1]? = m.chatList[p]?) ∧
    (∀ key : Int,
      (∀ (q : Nat) (d : ChatData), min i j ≤ q → q ≤ max i j →
        m.chatList[q]? = some d → d.chatId ≠ key) →
      QHash.find m1.chatIndexMap key = QHash.find m.chatIndexMap key) := by
  have hi : i < m.chatList.length := (updateChatOrder_some h).1
  obtain ⟨m2, h1, h2, _, _, _⟩ := updateChatOrder_result m i hi
  have h0 := h
  rw [h1] at h0
  simp only [Option.some.injEq, Prod.mk.injEq] at h0
  obtain ⟨e1, e2⟩ := h0
  subst e1
  have hjlt : j < m.chatList.length := by rw [← e2]; exact probedIndex_lt m.chatList i hi
  rw [e2] at h2
  refine ⟨?_, ?_, ?_, ?_, ?_⟩
  · intro p hp
    rw [h2, QList.getElem?_move _ hi hjlt, if_neg (by omega)]
    by_cases h3 : p < j
    · rw [if_pos h3, if_pos (by omega)]
    · rw [if_neg h3, if_neg (by omega)]
  · intro p c hp hc
    apply updateChatOrder_map_outside h
    intro q d hq1 hq2 hd e
    have := position_unique hnd hd hc e
    omega
  · intro p hp1 hp2
    rw [h2, QList.getElem?_move _ hi hjlt, if_neg (by omega), if_neg (by omega)]
    simp only [Nat.add_sub_cancel]
    rw [if_pos hp2]
  · intro p hp1 hp2
    rw [h2, QList.getElem?_move _ hi hjlt, if_neg (by omega), if_pos (by omega),
      if_neg (by omega)]
    congr 1
    omega
  · intro key hkey
    exact updateChatOrder_map_outside h key hkey

/-- C17, amended, at a sequence of three chats whose last one moves to the middle: the first
chat keeps its position. -/
theorem updateChatOrder_frame_witness :
    ∃ m1 : ChatListModel,
      ChatListModel.updateChatOrder sampleModelToReorder 2 = some (m1, 1) ∧
      m1.chatList[0]? = sampleModelToReorder.chatList[0]? :=
  ⟨_, rfl,
    (updateChatOrder_frame sampleModelToReorder _ 2 1 (by decide) rfl).1 0 (Or.inl (by decide))⟩


/-! ## Events for unknown identities -/

theorem QHash.find_eq_none_of_contains {K V : Type} [DecidableEq K] {H : QHash K V} {k : K}
    (h : QHash.contains H k = false) : QHash.find H k = none := by
  unfold QHash.contains at h
  cases hf : QHash.find H k with
  | none => rfl
  | some v => rw [hf] at h; cases h

theorem storeAttribute_unknown (m : ChatListModel) (k : Int) (key : String) (value : QVariant)
    (roles : Option (List Role)) (h1 : QHash.contains m.chatIndexMap k = false)
    (h2 : QHash.contains m.hiddenChats k = false) :
    ChatListModel.storeAttribute m k key value roles = some m := by
  unfold ChatListModel.storeAttribute
  rw [h1, QHash.find_eq_none_of_contains h2]
  rfl

/-- C19. Unknown identities are ignored: for every state and every update event for one chat (last
message, order, read inbox, read outbox, photo, pinned message, message-send-succeeded,
notification settings, title, pinned, marked-as-unread, draft message, unread mention count,
unread reaction count, available reactions), if the identity of the event is neither a key of
`chatIndexMap` nor in the Hidden Set, the slot returns and leaves the whole state as it is: the
visible sequence, `chatIndexMap`, the Hidden Set and every entity are unchanged and nothing is
emitted. -/
theorem unknown_identity_is_ignored (env : Collaborators) (m : ChatListModel) (e : Event)
    (k : Int) (hid : updatedIdentity e = some k)
    (h1 : QHash.contains m.chatIndexMap k = false)
    (h2 : QHash.contains m.hiddenChats k = false) :
    step env m e = some m := by
  have hf := QHash.find_eq_none_of_contains h2
  cases e with
  | chatLastMessageUpdated chatId order lastMessage =>
    simp only [updatedIdentity, Option.some.injEq] at hid
    simp only [Fernschreiber.step, ChatListModel.handleChatLastMessageUpdated]
    generalize QString.toLongLong chatId = r at hid
    obtain ⟨c, ok⟩ := r
    dsimp only at hid ⊢
    subst hid
    rw [h1, hf]
    simp
  | chatOrderUpdated chatId order =>
    simp only [updatedIdentity, Option.some.injEq] at hid
    simp only [Fernschreiber.step, ChatListModel.handleChatOrderUpdated]
    generalize QString.toLongLong chatId = r at hid
    obtain ⟨c, ok⟩ := r
    dsimp only at hid ⊢
    subst hid
    rw [h1, hf]
    simp
  | chatReadInboxUpdated chatId lastReadInboxMessageId unreadCount =>
    simp only [updatedIdentity, Option.some.injEq] at hid
    simp only [Fernschreiber.step, ChatListModel.handleChatReadInboxUpdated]
    generalize QString.toLongLong chatId = r at hid
    obtain ⟨c, ok⟩ := r
    dsimp only at hid ⊢
    subst hid
    rw [h1, hf]
    simp
  | chatReadOutboxUpdated chatId lastReadOutboxMessageId =>
    simp only [updatedIdentity, Option.some.injEq] at hid
    simp only [Fernschreiber.step, ChatListModel.handleChatReadOutboxUpdated]
    generalize QString.toLongLong chatId = r at hid
    obtain ⟨c, ok⟩ := r
    dsimp only at hid ⊢
    subst hid
    rw [storeAttribute_unknown m c _ _ _ h1 h2]
    simp
  | chatNotificationSettingsUpdated chatId chatNotificationSettings =>
    simp only [updatedIdentity, Option.some.injEq] at hid
    simp only [Fernschreiber.step, ChatListModel.handleChatNotificationSettingsUpdated]
    generalize QString.toLongLong chatId = r at hid
    obtain ⟨c, ok⟩ := r
    dsimp only at hid ⊢
    subst hid
    rw [storeAttribute_unknown m c _ _ _ h1 h2]
    simp
  | messageSendSucceeded messageId oldMessageId message =>
    simp only [updatedIdentity, Option.some.injEq, QVariant.toLongLong] at hid
    simp only [Fernschreiber.step, ChatListModel.handleMessageSendSucceeded]
    generalize (QHash.value message CHAT_ID).toLongLongOk = r at hid
    obtain ⟨c, ok⟩ := r
    dsimp only at hid ⊢
    subst hid
    rw [h1, hf]
    simp
  | chatTitleUpdated chatId title =>
    simp only [updatedIdentity, Option.some.injEq] at hid
    subst hid
    simp only [Fernschreiber.step, ChatListModel.handleChatPhotoUpdated,
      ChatListModel.handleChatPinnedMessageUpdated, ChatListModel.handleChatTitleUpdated,
      ChatListModel.handleChatIsMarkedAsUnreadUpdated, ChatListModel.handleChatPinnedUpdated,
      ChatListModel.handleChatUnreadMentionCountUpdated,
      ChatListModel.handleChatUnreadReactionCountUpdated,
      ChatListModel.handleChatAvailableReactionsUpdated]
    exact storeAttribute_unknown m _ _ _ _ h1 h2
  | chatDraftMessageUpdated chatId draftMessage order =>
    simp only [updatedIdentity, Option.some.injEq] at hid
    subst hid
    simp only [Fernschreiber.step, ChatListModel.handleChatDraftMessageUpdated]
    rw [h1]
    simp
  | chatPhotoUpdated chatId photo =>
    simp only [updatedIdentity, Option.some.injEq] at hid
    subst hid
    simp only [Fernschreiber.step, ChatListModel.handleChatPhotoUpdated,
      ChatListModel.handleChatPinnedMessageUpdated, ChatListModel.handleChatTitleUpdated,
      ChatListModel.handleChatIsMarkedAsUnreadUpdated, ChatListModel.handleChatPinnedUpdated,
      ChatListModel.handleChatUnreadMentionCountUpdated,
      ChatListModel.handleChatUnreadReactionCountUpdated,
      ChatListModel.handleChatAvailableReactionsUpdated]
    exact storeAttribute_unknown m _ _ _ _ h1 h2
  | chatPinnedMessageUpdated chatId pinnedMessageId =>
    simp only [updatedIdentity, Option.some.injEq] at hid
    subst hid
    simp only [Fernschreiber.step, ChatListModel.handleChatPhotoUpdated,
      ChatListModel.handleChatPinnedMessageUpdated, ChatListModel.handleChatTitleUpdated,
      ChatListModel.handleChatIsMarkedAsUnreadUpdated, ChatListModel.handleChatPinnedUpdated,
      ChatListModel.handleChatUnreadMentionCountUpdated,
      ChatListModel.handleChatUnreadReactionCountUpdated,
      ChatListModel.handleChatAvailableReactionsUpdated]
    exact storeAttribute_unknown m _ _ _ _ h1 h2
  | chatIsMarkedAsUnreadUpdated chatId chatIsMarkedAsUnread =>
    simp only [updatedIdentity, Option.some.injEq] at hid
    subst hid
    simp only [Fernschreiber.step, ChatListModel.handleChatPhotoUpdated,
      ChatListModel.handleChatPinnedMessageUpdated, ChatListModel.handleChatTitleUpdated,
      ChatListModel.handleChatIsMarkedAsUnreadUpdated, ChatListModel.handleChatPinnedUpdated,
      ChatListModel.handleChatUnreadMentionCountUpdated,
      ChatListModel.handleChatUnreadReactionCountUpdated,
      ChatListModel.handleChatAvailableReactionsUpdated]
    exact storeAttribute_unknown m _ _ _ _ h1 h2
  | chatPinnedUpdated chatId chatIsPinned =>
    simp only [updatedIdentity, Option.some.injEq] at hid
    subst hid
    simp only [Fernschreiber.step, ChatListModel.handleChatPhotoUpdated,
      ChatListModel.handleChatPinnedMessageUpdated, ChatListModel.handleChatTitleUpdated,
      ChatListModel.handleChatIsMarkedAsUnreadUpdated, ChatListModel.handleChatPinnedUpdated,
      ChatListModel.handleChatUnreadMentionCountUpdated,
      ChatListModel.handleChatUnreadReactionCountUpdated,
      ChatListModel.handleChatAvailableReactionsUpdated]
    exact storeAttribute_unknown m _ _ _ _ h1 h2
  | chatUnreadMentionCountUpdated chatId unreadMentionCount =>
    simp only [updatedIdentity, Option.some.injEq] at hid
    subst hid
    simp only [Fernschreiber.step, ChatListModel.handleChatPhotoUpdated,
      ChatListModel.handleChatPinnedMessageUpdated, ChatListModel.handleChatTitleUpdated,
      ChatListModel.handleChatIsMarkedAsUnreadUpdated, ChatListModel.handleChatPinnedUpdated,
      ChatListModel.handleChatUnreadMentionCountUpdated,
      ChatListModel.handleChatUnreadReactionCountUpdated,
      ChatListModel.handleChatAvailableReactionsUpdated]
    exact storeAttribute_unknown m _ _ _ _ h1 h2
  | chatUnreadReactionCountUpdated chatId unreadReactionCount =>
    simp only [updatedIdentity, Option.some.injEq] at hid
    subst hid
    simp only [Fernschreiber.step, ChatListModel.handleChatPhotoUpdated,
      ChatListModel.handleChatPinnedMessageUpdated, ChatListModel.handleChatTitleUpdated,
      ChatListModel.handleChatIsMarkedAsUnreadUpdated, ChatListModel.handleChatPinnedUpdated,
      ChatListModel.handleChatUnreadMentionCountUpdated,
      ChatListModel.handleChatUnreadReactionCountUpdated,
      ChatListModel.handleChatAvailableReactionsUpdated]
    exact storeAttribute_unknown m _ _ _ _ h1 h2
  | chatAvailableReactionsUpdated chatId availableReactions =>
    simp only [updatedIdentity, Option.some.injEq] at hid
    subst hid
    simp only [Fernschreiber.step, ChatListModel.handleChatPhotoUpdated,
      ChatListModel.handleChatPinnedMessageUpdated, ChatListModel.handleChatTitleUpdated,
      ChatListModel.handleChatIsMarkedAsUnreadUpdated, ChatListModel.handleChatPinnedUpdated,
      ChatListModel.handleChatUnreadMentionCountUpdated,
      ChatListModel.handleChatUnreadReactionCountUpdated,
      ChatListModel.handleChatAvailableReactionsUpdated]
    exact storeAttribute_unknown m _ _ _ _ h1 h2
  | newChatDiscovered chatId chatInformation => simp [updatedIdentity] at hid
  | superGroupUpdated groupId => simp [updatedIdentity] at hid
  | basicGroupUpdated groupId => simp [updatedIdentity] at hid
  | secretChatUpdated secretChatId secretChat => simp [updatedIdentity] at hid
  | secretChatReceived secretChatId secretChat => simp [updatedIdentity] at hid
  | chatFolders foldersInformation mainChatlistPosition => simp [updatedIdentity] at hid
  | chatFolder chatFolderInformation => simp [updatedIdentity] at hid
  | timeout => simp [updatedIdentity] at hid
  | setShowAllChats showAll => simp [updatedIdentity] at hid

/-- C19, at a title update for the identity 3 in a model that holds the identities 2 and 1. -/
theorem unknown_identity_is_ignored_witness :
    step sampleCollaborators sampleModel (.chatTitleUpdated "3" "title") = some sampleModel :=
  unknown_identity_is_ignored sampleCollaborators sampleModel (.chatTitleUpdated "3" "title") 3
    (by decide) (by decide) (by decide)


/-! ## The order key -/

theorem toLongLong_failed {s : String} (h : (QString.toLongLong s).2 = false) :
    (QString.toLongLong s).1 = 0 := by
  unfold QString.toLongLong at h ⊢
  split
  · rename_i v hv
    rw [hv] at h
    dsimp only at h ⊢
    split_ifs at h ⊢
    rfl
  · rfl

/-- C21 as stated fails: the entity with the order key 5 has the order key 0 after
`setOrder("abc")`, and the event `chatOrderUpdated("2", "abc")` moves the chat 2, which stood in
front of the chat 1, behind it. -/
theorem setOrder_unparseable_changes_order :
    "abc" ≠ "" ∧ (QString.toLongLong "abc").2 = false ∧
    ((sampleChat 1 5).setOrder "abc").1.order ≠ (sampleChat 1 5).order ∧
    chatIds sampleModel.chatList = [2, 1] ∧
    (step sampleCollaborators sampleModel (.chatOrderUpdated "2" "abc")).map
      (fun m1 => m1.chatList.map (fun c => (c.chatId, c.order))) = some [(1, 10), (2, 0)] := by
  refine ⟨?_, ?_, ?_, ?_, ?_⟩ <;> decide

/-- C21, amended. An unparseable order key resets the key to 0: for every entity and every
non-empty string that is not a valid 64-bit integer, `setOrder(string)` sets the order key to 0
(the value the failed conversion gives) and returns true, so that a `chatOrderUpdated` event that
carries such a key for a visible entity runs `updateChatOrder` on the entity with the order
key 0. -/
theorem setOrder_unparseable_sets_zero (self : ChatData) (newOrder : String)
    (hne : newOrder ≠ "") (hbad : (QString.toLongLong newOrder).2 = false) :
    (self.setOrder newOrder).1.order = 0 ∧ (self.setOrder newOrder).2 = true ∧
    ∀ (env : Collaborators) (m : ChatListModel) (id : String) (k : Int) (i : Nat),
      QString.toLongLong id = (k, true) → QHash.find m.chatIndexMap k = some i →
      m.chatList[i]? = some self →
      step env m (.chatOrderUpdated id newOrder) =
        (ChatListModel.updateChatOrder
          { m with
            chatList := m.chatList.set i
              { self with
                chatData := QHash.insert self.chatData ORDER (.string newOrder)
                order := 0 } } i).map Prod.fst := by
  have h0 := toLongLong_failed hbad
  have hset : self.setOrder newOrder =
      ({ self with
          chatData := QHash.insert self.chatData ORDER (.string newOrder)
          order := 0 }, true) := by
    unfold ChatData.setOrder
    rw [if_pos hne, h0]
  refine ⟨by rw [hset], by rw [hset], ?_⟩
  intro env m id k i hid hfind hget
  simp only [Fernschreiber.step, ChatListModel.handleChatOrderUpdated, hid, if_true,
    QHash.contains, QHash.value, hfind, Option.isSome_some, Option.getD_some, hget, hset]

/-- C21, amended, at the entity with the order key 5 and the string "abc". -/
theorem setOrder_unparseable_sets_zero_witness :
    ((sampleChat 1 5).setOrder "abc").1.order = 0 ∧ ((sampleChat 1 5).setOrder "abc").2 = true :=
  have h := setOrder_unparseable_sets_zero (sampleChat 1 5) "abc" (by decide) (by decide)
  ⟨h.1, h.2.1⟩

/-- C22 as stated fails: `setOrder("5")` on the entity whose order key is 5 returns true although
the order key is the same after the call. -/
theorem setOrder_true_without_change :
    ((sampleChat 1 5).setOrder "5").2 = true ∧
    ((sampleChat 1 5).setOrder "5").1.order = (sampleChat 1 5).order := by
  refine ⟨?_, ?_⟩ <;> decide

/-- C22, amended. `setOrder` returns whether a key was given: for every entity and every key
string, `setOrder(key)` returns true exactly when the string is not empty; whenever the order key
after the call differs from the one before, it returns true. -/
theorem setOrder_returns_nonempty (self : ChatData) (key : String) :
    ((self.setOrder key).2 = true ↔ key ≠ "") ∧
    ((self.setOrder key).1.order ≠ self.order → (self.setOrder key).2 = true) := by
  unfold ChatData.setOrder
  by_cases h : key ≠ ""
  · rw [if_pos h]
    exact ⟨⟨fun _ => h, fun _ => rfl⟩, fun _ => rfl⟩
  · rw [if_neg h]
    refine ⟨⟨fun h1 => ?_, fun h1 => absurd h1 h⟩, fun h1 => absurd rfl h1⟩
    cases h1

/-- C22, amended, at the entity with the order key 5 and the key "7". -/
theorem setOrder_returns_nonempty_witness :
    ((sampleChat 1 5).setOrder "7").1.order ≠ (sampleChat 1 5).order ∧
    ((sampleChat 1 5).setOrder "7").2 = true :=
  ⟨by decide, (setOrder_returns_nonempty (sampleChat 1 5) "7").2 (by decide)⟩


/-! ## The glyph of the last message -/

/-- C25. Status glyph precedence: for every entity that is not a channel chat, whose last message
was sent by the local user and whose identity is not the local user's id, `senderMessageStatus`
returns the "read" glyph if the id of the last message equals the last-read-outbox id of the chat
(also when the message carries a sending state); otherwise the "pending" glyph if the message
carries a sending state of the type `messageSendingStatePending`; otherwise the "failed" glyph if
it carries another sending state; otherwise the "sent" glyph. The four glyphs are pairwise
different and not empty. -/
theorem senderMessageStatus_precedence (self : ChatData) (td : TDLibWrapper)
    (hchannel : self.isChannel = false) (hsender : self.senderUserId = myUserId td)
    (hself : self.chatId ≠ myUserId td) :
    self.senderMessageStatus td =
      (if lastMessageIsRead self then glyphRead
       else if hasPendingState self then glyphPending
       else if hasSendingState self then glyphFailed
       else glyphSent) ∧
    [glyphRead, glyphPending, glyphFailed, glyphSent].Nodup ∧
    "" ∉ [glyphRead, glyphPending, glyphFailed, glyphSent] := by
  refine ⟨?_, by decide, by decide⟩
  unfold ChatData.senderMessageStatus
  have hcond : ¬ (self.isChannel = true ∨
      (QHash.value td.getUserInformation ID).toLongLong ≠ self.senderUserId ∨
      (QHash.value td.getUserInformation ID).toLongLong = self.chatId) := by
    rintro (h | h | h)
    · rw [hchannel] at h; cases h
    · exact h hsender.symm
    · exact hself h.symm
  dsimp only
  rw [if_neg hcond]
  unfold lastMessageIsRead hasPendingState hasSendingState glyphRead glyphPending glyphFailed
    glyphSent
  by_cases h1 : (self.lastMessage ID).equals
      (QHash.value self.chatData LAST_READ_OUTBOX_MESSAGE_ID) = true
  · simp only [h1, if_true]
  · by_cases h2 : QHash.contains (QHash.value self.chatData LAST_MESSAGE).toMap SENDING_STATE
        = true
    · by_cases h3 : (QHash.value (QHash.value (QHash.value self.chatData LAST_MESSAGE).toMap
          SENDING_STATE).toMap _TYPE).toString = "messageSendingStatePending"
      · simp [h1, h2, h3]
      · simp [h1, h2, h3]
    · simp [h1, h2]

/-- C25, at a chat whose last message has the id of the last-read-outbox id and also carries a
pending sending state: the glyph is "read". -/
theorem senderMessageStatus_precedence_witness :
    hasPendingState sampleChatWithStatus = true ∧
    sampleChatWithStatus.senderMessageStatus sampleWrapperWithUser = glyphRead :=
  ⟨by decide,
    (senderMessageStatus_precedence sampleChatWithStatus sampleWrapperWithUser (by decide)
      (by decide) (by decide)).1.trans (by decide)⟩

/-- C26. The status glyph is empty exactly for channels, foreign messages and the chat with
oneself: for every entity, `senderMessageStatus` returns the empty string if and only if the chat
is a channel, or the sender user id of the last message differs from the local user's id, or the
identity of the chat equals the local user's id, whatever the last-read-outbox id and the sending
state are. -/
theorem senderMessageStatus_empty_iff (self : ChatData) (td : TDLibWrapper) :
    self.senderMessageStatus td = "" ↔
      (self.isChannel = true ∨ self.senderUserId ≠ myUserId td ∨ self.chatId = myUserId td) := by
  unfold ChatData.senderMessageStatus myUserId
  dsimp only
  by_cases hcond : self.isChannel = true ∨
      (QHash.value td.getUserInformation ID).toLongLong ≠ self.senderUserId ∨
      (QHash.value td.getUserInformation ID).toLongLong = self.chatId
  · rw [if_pos hcond]
    refine ⟨fun _ => ?_, fun _ => rfl⟩
    rcases hcond with h | h | h
    · exact Or.inl h
    · exact Or.inr (Or.inl (fun e => h e.symm))
    · exact Or.inr (Or.inr h.symm)
  · rw [if_neg hcond]
    constructor
    · intro h
      exfalso
      split_ifs at h <;> revert h <;> decide
    · intro h
      exfalso
      apply hcond
      rcases h with h | h | h
      · exact Or.inl h
      · exact Or.inr (Or.inl (fun e => h e.symm))
      · exact Or.inr (Or.inr h.symm)


/-! ## The empty order key -/

theorem setOrder_empty (c : ChatData) : c.setOrder "" = (c, false) := by
  unfold ChatData.setOrder
  rw [if_neg (by decide)]

theorem NotReordered.of_eq {m m1 : ChatListModel} {x : List Signal}
    (he : m1.emitted = m.emitted ++ x) (hx : ∀ s ∈ x, s.isRowsMoved = false)
    (hl : chatIds m1.chatList = chatIds m.chatList) : NotReordered m m1 :=
  ⟨⟨x, he, hx⟩, by rw [hl]⟩

theorem QList.sublist_insert {α : Type} (l : List α) (k : Nat) (x : α) :
    l.Sublist (QList.insert l k x) := by
  unfold QList.insert
  conv_lhs => rw [← List.take_append_drop k l]
  exact List.Sublist.append (List.Sublist.refl _) (List.sublist_cons_self _ _)

theorem handleChatOrderUpdated_empty {m m1 : ChatListModel} {id : String}
    (h : ChatListModel.handleChatOrderUpdated m id "" = some m1) : NotReordered m m1 := by
  unfold ChatListModel.handleChatOrderUpdated at h
  obtain ⟨k, ok⟩ := QString.toLongLong id
  dsimp only at h
  split_ifs at h with hok hc
  · split at h
    · cases h
    · rename_i chat hget
      rw [setOrder_empty] at h
      simp only [Bool.false_eq_true, if_false, Option.some.injEq] at h
      subst h
      exact NotReordered.of_eq (List.append_nil _).symm (by simp) (chatIds_set hget rfl)
  · split at h
    · simp only [Option.some.injEq] at h
      subst h
      exact NotReordered.of_eq (List.append_nil _).symm (by simp) rfl
    · simp only [Option.some.injEq] at h
      subst h
      exact NotReordered.of_eq (List.append_nil _).symm (by simp) rfl
  · simp only [Option.some.injEq] at h
    subst h
    exact NotReordered.of_eq (List.append_nil _).symm (by simp) rfl

theorem handleChatDraftMessageUpdated_empty {m m1 : ChatListModel} {k : Int}
    {draft : QVariantMap}
    (h : ChatListModel.handleChatDraftMessageUpdated m k draft "" = some m1) :
    NotReordered m m1 := by
  unfold ChatListModel.handleChatDraftMessageUpdated at h
  split_ifs at h with hc
  · dsimp only at h
    split at h
    · cases h
    · rename_i chat hget
      rw [setOrder_empty] at h
      simp only [Bool.false_eq_true, if_false, Option.some.injEq] at h
      subst h
      refine NotReordered.of_eq rfl ?hx ?hl
      case hx =>
        intro s hs
        simp only [List.mem_singleton] at hs
        subst hs
        rfl
      case hl =>
        dsimp only [ChatListModel.emit]
        rw [chatIds_set (getElem?_set_self hget _) rfl]
        exact chatIds_set hget rfl
  · simp only [Option.some.injEq] at h
    subst h
    exact NotReordered.of_eq (List.append_nil _).symm (by simp) rfl

theorem handleChatLastMessageUpdated_empty {td : TDLibWrapper} {m m1 : ChatListModel}
    {id : String} {message : QVariantMap}
    (h : ChatListModel.handleChatLastMessageUpdated td m id "" message = some m1) :
    NotReordered m m1 := by
  unfold ChatListModel.handleChatLastMessageUpdated at h
  obtain ⟨k, ok⟩ := QString.toLongLong id
  dsimp only at h
  split_ifs at h with hok hc
  · split at h
    · cases h
    · rename_i chat hget
      rw [setOrder_empty] at h
      simp only [Bool.false_eq_true, if_false, Option.some.injEq] at h
      subst h
      refine NotReordered.of_eq (List.append_assoc _ _ _) ?hx ?hl
      case hx =>
        intro s hs
        simp only [List.mem_append, List.mem_singleton] at hs
        rcases hs with rfl | rfl <;> rfl
      case hl =>
        dsimp only [ChatListModel.emit]
        rw [chatIds_set (getElem?_set_self hget _) (updateLastMessage_chatId _ _ _)]
        exact chatIds_set hget rfl
  · split at h
    · rename_i chat hfind
      rw [setOrder_empty] at h
      dsimp only at h
      split_ifs at h with hvis
      · simp only [Option.some.injEq] at h
        subst h
        refine ⟨⟨_, addVisibleChat_emitted _ _ _, ?_⟩, ?_⟩
        · intro s hs
          simp only [List.mem_append, List.mem_cons, List.mem_singleton, List.not_mem_nil,
            or_false] at hs
          rcases hs with (rfl | rfl) | hs
          · rfl
          · rfl
          · split_ifs at hs
            · simp only [List.mem_cons, List.mem_singleton, List.not_mem_nil, or_false] at hs
              rcases hs with rfl | rfl <;> rfl
            · cases hs
        · rw [addVisibleChat_chatList]
          exact (QList.sublist_insert _ _ _).map _
      · simp only [Option.some.injEq] at h
        subst h
        exact NotReordered.of_eq (List.append_nil _).symm (by simp) rfl
    · simp only [Option.some.injEq] at h
      subst h
      exact NotReordered.of_eq (List.append_nil _).symm (by simp) rfl
  · simp only [Option.some.injEq] at h
    subst h
    exact NotReordered.of_eq (List.append_nil _).symm (by simp) rfl

/-- C23. An empty order key is a no-op: for every entity, `setOrder("")` returns false and leaves
the entity (its order key and its attribute bag) unchanged; and a `chatOrderUpdated`,
`chatLastMessageUpdated` or `chatDraftMessageUpdated` event with an empty order key reorders
nothing: it emits no move notification and the entities of the visible sequence keep their
relative order. -/
theorem empty_order_is_noop (env : Collaborators) (m m1 : ChatListModel) (self : ChatData)
    (e : Event) (he : hasEmptyOrder e = true) (h : step env m e = some m1) :
    self.setOrder "" = (self, false) ∧ NotReordered m m1 := by
  refine ⟨setOrder_empty self, ?_⟩
  cases e <;> simp only [hasEmptyOrder, decide_eq_true_eq, Bool.false_eq_true] at he
  · subst he
    exact handleChatLastMessageUpdated_empty h
  · subst he
    exact handleChatOrderUpdated_empty h
  · subst he
    exact handleChatDraftMessageUpdated_empty h

/-- C23, at a `chatLastMessageUpdated` event with an empty order key for the second of two
visible chats. -/
theorem empty_order_is_noop_witness :
    ∃ m1 : ChatListModel,
      step sampleCollaborators sampleModel (.chatLastMessageUpdated "1" "" [("id", .num 9)])
        = some m1 ∧
      (sampleChat 1 5).setOrder "" = (sampleChat 1 5, false) ∧ NotReordered sampleModel m1 :=
  ⟨_, rfl,
    empty_order_is_noop sampleCollaborators sampleModel _ (sampleChat 1 5)
      (.chatLastMessageUpdated "1" "" [("id", .num 9)]) (by decide) rfl⟩


/-! ## The roles `updateLastMessage` reports -/

theorem QHash.value_insert_self {K V : Type} [DecidableEq K] [Inhabited V] (m : QHash K V)
    (key : K) (v : V) : QHash.value (QHash.insert m key v) key = v := by
  unfold QHash.value
  rw [QHash.find_insert_self]
  rfl

theorem QHash.value_insert_of_ne {K V : Type} [DecidableEq K] [Inhabited V] (m : QHash K V)
    {key k : K} (v : V) (h : k ≠ key) :
    QHash.value (QHash.insert m key v) k = QHash.value m k := by
  unfold QHash.value
  rw [QHash.find_insert_of_ne m v h]

/-- Storing the last message the entity already has changes none of the values derived from
the attribute bag. -/
theorem updateLastMessage_same (self : ChatData) (td : TDLibWrapper) (message : QVariantMap)
    (h : (QHash.value self.chatData LAST_MESSAGE).toMap = message) :
    let self1 := { self with chatData := QHash.insert self.chatData LAST_MESSAGE (.map message) }
    self1.senderUserId = self.senderUserId ∧ self1.senderMessageDate = self.senderMessageDate ∧
    self1.senderMessageText td = self.senderMessageText td ∧
    self1.senderMessageStatus td = self.senderMessageStatus td := by
  intro self1
  have hmsg : (QHash.value self1.chatData LAST_MESSAGE).toMap
      = (QHash.value self.chatData LAST_MESSAGE).toMap := by
    show (QHash.value (QHash.insert self.chatData LAST_MESSAGE (.map message))
      LAST_MESSAGE).toMap = _
    rw [QHash.value_insert_self, h]
    rfl
  have hlast : ∀ key, self1.lastMessage key = self.lastMessage key := by
    intro key
    unfold ChatData.lastMessage
    rw [hmsg]
  have htype : QHash.value self1.chatData TYPE = QHash.value self.chatData TYPE :=
    QHash.value_insert_of_ne _ _ (by decide)
  have hout : QHash.value self1.chatData LAST_READ_OUTBOX_MESSAGE_ID
      = QHash.value self.chatData LAST_READ_OUTBOX_MESSAGE_ID :=
    QHash.value_insert_of_ne _ _ (by decide)
  have hchannel : self1.isChannel = self.isChannel := by
    unfold ChatData.isChannel
    rw [htype]
  have huser : self1.senderUserId = self.senderUserId := by
    unfold ChatData.senderUserId
    rw [hlast]
  refine ⟨huser, ?_, ?_, ?_⟩
  · unfold ChatData.senderMessageDate
    rw [hlast]
  · unfold ChatData.senderMessageText
    rw [hlast, hlast, hchannel]
  · unfold ChatData.senderMessageStatus
    rw [hlast, hchannel, huser, hout, hmsg]

/-- C24 as stated fails: when the message the entity already has as its last message is applied,
the entity is unchanged, but the returned roles are not empty: they hold the display role. -/
theorem updateLastMessage_same_message_reports_display :
    (QHash.value sampleChatWithMessage.chatData LAST_MESSAGE).toMap = [("id", .num 5)] ∧
    (sampleChatWithMessage.updateLastMessage sampleWrapper [("id", .num 5)]).1
      = sampleChatWithMessage ∧
    (sampleChatWithMessage.updateLastMessage sampleWrapper [("id", .num 5)]).2 ≠ [] ∧
    Role.RoleDisplay ∈
      (sampleChatWithMessage.updateLastMessage sampleWrapper [("id", .num 5)]).2 := by
  refine ⟨?_, ?_, ?_, ?_⟩ <;> decide

/-- C24, amended. `updateLastMessage` reports the display role and exactly the changed derived
attributes: for every entity and message, the returned roles always contain the display role;
they contain the role of the sender id, of the date, of the text (together with the filter role)
and of the status if and only if the corresponding derived value after the call differs from the
one before; they contain no other role; and applying a message equal to the current last message
returns exactly the display role. -/
theorem updateLastMessage_reports_changes (self : ChatData) (td : TDLibWrapper)
    (message : QVariantMap) :
    Role.RoleDisplay ∈ (self.updateLastMessage td message).2 ∧
    (Role.RoleLastMessageSenderId ∈ (self.updateLastMessage td message).2 ↔
      self.senderUserId ≠ (self.updateLastMessage td message).1.senderUserId) ∧
    (Role.RoleLastMessageDate ∈ (self.updateLastMessage td message).2 ↔
      self.senderMessageDate ≠ (self.updateLastMessage td message).1.senderMessageDate) ∧
    (Role.RoleLastMessageText ∈ (self.updateLastMessage td message).2 ↔
      self.senderMessageText td ≠ (self.updateLastMessage td message).1.senderMessageText td) ∧
    (Role.RoleFilter ∈ (self.updateLastMessage td message).2 ↔
      self.senderMessageText td ≠ (self.updateLastMessage td message).1.senderMessageText td) ∧
    (Role.RoleLastMessageStatus ∈ (self.updateLastMessage td message).2 ↔
      self.senderMessageStatus td ≠
        (self.updateLastMessage td message).1.senderMessageStatus td) ∧
    (∀ role ∈ (self.updateLastMessage td message).2,
      role ∈ [Role.RoleDisplay, Role.RoleLastMessageSenderId, Role.RoleLastMessageDate,
        Role.RoleFilter, Role.RoleLastMessageText, Role.RoleLastMessageStatus]) ∧
    ((QHash.value self.chatData LAST_MESSAGE).toMap = message →
      (self.updateLastMessage td message).2 = [Role.RoleDisplay]) := by
  refine ⟨?_, ?_, ?_, ?_, ?_, ?_, ?_, ?_⟩
  case refine_8 =>
    intro h
    obtain ⟨h1, h2, h3, h4⟩ := updateLastMessage_same self td message h
    unfold ChatData.updateLastMessage
    dsimp only at h1 h2 h3 h4 ⊢
    rw [if_neg (fun hne => hne h4.symm), if_neg (fun hne => hne h3.symm),
      if_neg (fun hne => hne h2.symm), if_neg (fun hne => hne h1.symm)]
  all_goals
    unfold ChatData.updateLastMessage
    dsimp only
    split_ifs <;> simp_all

/-- C24, amended, at a chat whose last message has the id 5 and the message with the id 5. -/
theorem updateLastMessage_reports_changes_witness :
    (QHash.value sampleChatWithMessage.chatData LAST_MESSAGE).toMap = [("id", .num 5)] ∧
    (sampleChatWithMessage.updateLastMessage sampleWrapper [("id", .num 5)]).2
      = [Role.RoleDisplay] :=
  ⟨by decide,
    (updateLastMessage_reports_changes sampleChatWithMessage sampleWrapper
      [("id", .num 5)]).2.2.2.2.2.2.2 (by decide)⟩


/-! ## The unread state -/

theorem wrapInt32_of_fits {n : Int} (h0 : 0 ≤ n) (h1 : n ≤ 2 ^ 31 - 1) : wrapInt32 n = n := by
  unfold wrapInt32
  rw [Int.emod_eq_of_lt (by omega) (by omega)]
  omega

theorem unreadCounts_cons (c : ChatData) (l : List ChatData) :
    unreadCounts (c :: l) =
      if c.unreadCount > 0 then c.unreadCount :: unreadCounts l else unreadCounts l := by
  unfold unreadCounts
  rw [List.map_cons, List.filter_cons]
  simp only [decide_eq_true_eq]

theorem unreadCounts_length_le_sum (l : List ChatData) :
    ((unreadCounts l).length : Int) ≤ (unreadCounts l).sum := by
  induction l with
  | nil => simp [unreadCounts]
  | cons c l ih =>
    rw [unreadCounts_cons]
    split_ifs with h
    · simp only [List.length_cons, List.sum_cons, Nat.cast_add, Nat.cast_one]
      omega
    · exact ih

/-- The loop of `calculateUnreadState`, started with the counters `acc`: while the sum fits
an `int`, no addition wraps. -/
theorem unreadLoop_of_fits (l : List ChatData) (acc : Int × Int) (h1 : 0 ≤ acc.2)
    (h2 : acc.2 ≤ acc.1) (hfit : acc.1 + (unreadCounts l).sum ≤ 2 ^ 31 - 1) :
    l.foldl
        (fun acc currentChat =>
          if currentChat.unreadCount > 0 then
            (wrapInt32 (acc.1 + currentChat.unreadCount), wrapInt32 (acc.2 + 1))
          else acc) acc
      = (acc.1 + (unreadCounts l).sum, acc.2 + (unreadCounts l).length) := by
  induction l generalizing acc with
  | nil => simp [unreadCounts]
  | cons c l ih =>
    rw [List.foldl_cons]
    rw [unreadCounts_cons] at hfit ⊢
    have hlen := unreadCounts_length_le_sum l
    have hlen0 : (0 : Int) ≤ ((unreadCounts l).length : Int) := Int.natCast_nonneg _
    split_ifs at hfit ⊢ with h
    · rw [List.sum_cons] at hfit
      have e1 : wrapInt32 (acc.1 + c.unreadCount) = acc.1 + c.unreadCount :=
        wrapInt32_of_fits (by omega) (by omega)
      have e2 : wrapInt32 (acc.2 + 1) = acc.2 + 1 := wrapInt32_of_fits (by omega) (by omega)
      rw [e1, e2, ih _ (by dsimp only; omega) (by dsimp only; omega) (by dsimp only; omega)]
      simp only [List.sum_cons, List.length_cons, Nat.cast_add, Nat.cast_one, Prod.mk.injEq]
      constructor <;> omega
    · exact ih acc h1 h2 hfit

/-- C27 as stated fails: two visible chats with the unread count 2147483647 each have the sum
4294967294, which no `int` holds; the model reports the pair (-2, 2). -/
theorem calculateUnreadState_overflows :
    (unreadCounts sampleOverflowModel.chatList).sum = 4294967294 ∧
    ChatListModel.calculateUnreadState { onlineOnlyMode := true } sampleOverflowModel
      = sampleOverflowModel.emit (.unreadStateChanged (-2) 2) := by
  refine ⟨?_, ?_⟩ <;> decide

/-- C27, amended. Unread aggregation: in online-only mode, for every model state in which the sum
of the positive unread counts of the visible sequence fits a 32-bit `int`,
`calculateUnreadState` reports the pair (m, c) where m is the sum of the unread counts of the
entities of the visible sequence that have a positive unread count and c is the number of such
entities; the Hidden Set contributes to neither, and nothing but the emitted signal is added to
the state. -/
theorem calculateUnreadState_reports (appSettings : AppSettings) (m : ChatListModel)
    (honline : appSettings.onlineOnlyMode = true)
    (hfit : (unreadCounts m.chatList).sum ≤ 2 ^ 31 - 1) :
    ChatListModel.calculateUnreadState appSettings m
      = m.emit (.unreadStateChanged (unreadCounts m.chatList).sum
          (unreadCounts m.chatList).length) := by
  unfold ChatListModel.calculateUnreadState
  rw [if_pos honline]
  dsimp only
  rw [unreadLoop_of_fits m.chatList (0, 0) (le_refl _) (le_refl _)
    (by dsimp only; omega)]
  simp

/-- C27, amended, at four visible chats with the unread counts 0, 3, 0 and 5 (and a hidden chat
with the unread count 7): the pair is (8, 2). -/
theorem calculateUnreadState_reports_witness :
    sampleUnreadModel.chatList.map ChatData.unreadCount = [0, 3, 0, 5] ∧
    ChatListModel.calculateUnreadState { onlineOnlyMode := true } sampleUnreadModel
      = sampleUnreadModel.emit (.unreadStateChanged 8 2) :=
  ⟨by decide,
    (calculateUnreadState_reports { onlineOnlyMode := true } sampleUnreadModel rfl
      (by decide)).trans (by decide)⟩


/-! ## Events for entities of the Hidden Set -/

/-- C29, evaluated on the code. The private chat 1 was discovered without a last message and is
in the Hidden Set ("show all" is off, its identity is no key of `chatIndexMap`). After
`messageSendSucceeded` stored a last message in it, `isHidden` is false for it, but it is still
in the Hidden Set and the visible sequence is empty. The slot `handleChatLastMessageUpdated`
moves the chat to the visible sequence in the same state. -/
theorem send_succeeded_leaves_chat_in_hidden_set :
    ∃ m m1 : ChatListModel, ∃ chat1 : ChatData,
      run ChatListModel.empty hiddenPrivateChatEvents = some m ∧
      m.showHiddenChats = false ∧ QHash.contains m.hiddenChats 1 = true ∧
      QHash.contains m.chatIndexMap 1 = false ∧
      step sampleCollaborators m (.messageSendSucceeded 9 8 sampleSentMessage) = some m1 ∧
      QHash.find m1.hiddenChats 1 = some chat1 ∧
      QHash.value chat1.chatData LAST_MESSAGE = .map sampleSentMessage ∧
      chat1.isHidden = false ∧ m1.chatList = [] ∧
      (step sampleCollaborators m (.chatLastMessageUpdated "1" "" sampleSentMessage)).map
        (fun m2 => (chatIds m2.chatList, QHash.contains m2.hiddenChats 1)) = some ([1], false) := by
  refine ⟨_, _, _, rfl, ?_, ?_, ?_, rfl, rfl, ?_, ?_, ?_, ?_⟩ <;> decide

/-- C30, evaluated on the code. The private chat 1 is in the Hidden Set and its identity is no
key of `chatIndexMap`. The event `chatDraftMessageUpdated` for it, with a draft and the order key
"50", leaves the model as it is: neither the draft nor the order key is stored. The slot
`handleChatOrderUpdated` stores the order key in the hidden entity in the same state. -/
theorem draft_update_misses_hidden_chat :
    ∃ m : ChatListModel, ∃ chat : ChatData,
      run ChatListModel.empty hiddenPrivateChatEvents = some m ∧
      QHash.find m.hiddenChats 1 = some chat ∧ QHash.contains m.chatIndexMap 1 = false ∧
      QHash.contains chat.chatData DRAFT_MESSAGE = false ∧ chat.order = 10 ∧
      step sampleCollaborators m (.chatDraftMessageUpdated 1 [("date", .num 3)] "50") = some m ∧
      (step sampleCollaborators m (.chatOrderUpdated "1" "50")).map
        (fun m2 => (QHash.find m2.hiddenChats 1).map (fun c => c.order)) = some (some 50) := by
  refine ⟨_, _, rfl, rfl, ?_, ?_, ?_, ?_, ?_⟩ <;> decide


/-! ## `updateGroup` -/

/-- C33. `updateGroup` applies only to the matching group and reports exactly what changed: for
every entity and group, if no group is given or the group id of the entity differs from the id of
the group, the entity is unchanged and the returned roles are empty; otherwise the entity
afterwards has the membership status and the verified flag of the group (and is unchanged apart
from these two), and the returned roles contain the membership-status role iff the status
changed, the verified role iff the flag changed, and nothing else. -/
theorem updateGroup_reports_changes (self : ChatData) (group : Option TDLibWrapper.Group) :
    ((group = none ∨ ∃ g, group = some g ∧ self.groupId ≠ g.groupId) →
      self.updateGroup group = (self, [])) ∧
    (∀ g, group = some g → self.groupId = g.groupId →
      (self.updateGroup group).1 =
        { self with
          memberStatus := g.chatMemberStatus
          verified := (QHash.value g.groupInfo IS_VERIFIED).toBool } ∧
      (Role.RoleChatMemberStatus ∈ (self.updateGroup group).2 ↔
        self.memberStatus ≠ g.chatMemberStatus) ∧
      (Role.RoleIsVerified ∈ (self.updateGroup group).2 ↔
        self.verified ≠ (QHash.value g.groupInfo IS_VERIFIED).toBool) ∧
      ∀ role ∈ (self.updateGroup group).2,
        role = Role.RoleChatMemberStatus ∨ role = Role.RoleIsVerified) := by
  constructor
  · rintro (rfl | ⟨g, rfl, hne⟩)
    · rfl
    · unfold ChatData.updateGroup
      dsimp only
      rw [if_neg hne]
  · rintro g rfl heq
    unfold ChatData.updateGroup
    dsimp only
    rw [if_pos heq]
    by_cases h1 : self.memberStatus = g.chatMemberStatus <;>
      by_cases h2 : self.verified = (QHash.value g.groupInfo IS_VERIFIED).toBool
    · simp [h1, h2]
      rw [← h1, ← h2]
    · simp [h1, h2]
    · simp [h1, h2]
    · simp [h1, h2]

/-- C33, at the supergroup chat of the group 5 (member, not verified) and the group 5 (verified,
administrator): both roles are reported. -/
theorem updateGroup_reports_changes_witness :
    (sampleGroupChat.updateGroup (some sampleGroup)).1 =
      { sampleGroupChat with
        memberStatus := .ChatMemberStatusAdministrator
        verified := true } ∧
    (sampleGroupChat.updateGroup (some sampleGroup)).2 =
      [Role.RoleChatMemberStatus, Role.RoleIsVerified] :=
  ⟨((updateGroup_reports_changes sampleGroupChat (some sampleGroup)).2 sampleGroup rfl
      (by decide)).1.trans (by decide), by decide⟩


/-! ## The order of insertion -/

theorem placeChat_nil (x : ChatData) : placeChat x [] = [x] := by
  unfold placeChat
  rw [QList.insert_nil]

theorem placeChat_cons (x y : ChatData) (l : List ChatData) :
    placeChat x (y :: l) = if SortsBefore x y then x :: y :: l else y :: placeChat x l := by
  unfold placeChat
  rw [List.findIdx_cons]
  by_cases h : SortsBefore x y
  · have ht : sortsBeforeTest x y = true := by
      unfold sortsBeforeTest
      exact decide_eq_true h
    rw [if_pos h, ht]
    simp only [cond_true]
    exact QList.insert_zero _ _
  · have ht : sortsBeforeTest x y = false := by
      unfold sortsBeforeTest
      exact decide_eq_false h
    rw [if_neg h, ht]
    simp only [cond_false]
    exact QList.insert_cons_succ _ _ _ _

theorem addVisibleChat_chatList_eq_placeChat (td : TDLibWrapper) (m : ChatListModel)
    (chat : ChatData) :
    (ChatListModel.addVisibleChat td m chat).chatList = placeChat chat m.chatList :=
  addVisibleChat_chatList td m chat

/-- Two entities with different identities can be placed in either order. -/
theorem placeChat_comm {a b : ChatData} (hne : a.chatId ≠ b.chatId) (l : List ChatData) :
    placeChat a (placeChat b l) = placeChat b (placeChat a l) := by
  have hab : SortsBefore a b → ¬ SortsBefore b a := not_sortsBefore_of_sortsBefore hne
  have hba : ¬ SortsBefore a b → SortsBefore b a := sortsBefore_of_not
  induction l with
  | nil =>
    rw [placeChat_nil, placeChat_nil, placeChat_cons a b [], placeChat_cons b a [],
      placeChat_nil, placeChat_nil]
    by_cases h : SortsBefore a b
    · rw [if_pos h, if_neg (hab h)]
    · rw [if_neg h, if_pos (hba h)]
  | cons y l ih =>
    rw [placeChat_cons b y l, placeChat_cons a y l]
    by_cases ha : SortsBefore a y <;> by_cases hb : SortsBefore b y
    · rw [if_pos ha, if_pos hb, placeChat_cons a b (y :: l), placeChat_cons b a (y :: l),
        placeChat_cons a y l, placeChat_cons b y l, if_pos ha, if_pos hb]
      by_cases h : SortsBefore a b
      · rw [if_pos h, if_neg (hab h)]
      · rw [if_neg h, if_pos (hba h)]
    · have hnba : ¬ SortsBefore b a := fun h => hb (sortsBefore_trans h ha)
      rw [if_pos ha, if_neg hb, placeChat_cons a y (placeChat b l), if_pos ha,
        placeChat_cons b a (y :: l), if_neg hnba, placeChat_cons b y l, if_neg hb]
    · have hnab : ¬ SortsBefore a b := fun h => ha (sortsBefore_trans h hb)
      rw [if_neg ha, if_pos hb, placeChat_cons a b (y :: l), if_neg hnab, placeChat_cons a y l,
        if_neg ha, placeChat_cons b y (placeChat a l), if_pos hb]
    · rw [if_neg ha, if_neg hb, placeChat_cons a y (placeChat b l), if_neg ha,
        placeChat_cons b y (placeChat a l), if_neg hb, ih]

/-- C35. The visible order does not depend on the order of insertion: for every sorted visible
sequence and entities `a` and `b` whose identities are distinct from each other and from those in
the sequence, `addVisibleChat(a)` followed by `addVisibleChat(b)` yields the same sequence as
`addVisibleChat(b)` followed by `addVisibleChat(a)`. -/
theorem addVisibleChat_order_independent (td : TDLibWrapper) (m : ChatListModel)
    (a b : ChatData) (_hs : SortedChats m.chatList) (hab : a.chatId ≠ b.chatId)
    (_ha : a.chatId ∉ chatIds m.chatList) (_hb : b.chatId ∉ chatIds m.chatList) :
    (ChatListModel.addVisibleChat td (ChatListModel.addVisibleChat td m a) b).chatList
      = (ChatListModel.addVisibleChat td (ChatListModel.addVisibleChat td m b) a).chatList := by
  rw [addVisibleChat_chatList_eq_placeChat, addVisibleChat_chatList_eq_placeChat,
    addVisibleChat_chatList_eq_placeChat, addVisibleChat_chatList_eq_placeChat]
  exact (placeChat_comm hab m.chatList).symm

/-- C35, at two entities with the order key 5 and the identities 100 and 200: they end up as
200, 100 whichever is inserted first. -/
theorem addVisibleChat_order_independent_witness :
    chatIds (ChatListModel.addVisibleChat sampleWrapper
      (ChatListModel.addVisibleChat sampleWrapper ChatListModel.empty (sampleChat 100 5))
      (sampleChat 200 5)).chatList = [200, 100] ∧
    chatIds (ChatListModel.addVisibleChat sampleWrapper
      (ChatListModel.addVisibleChat sampleWrapper ChatListModel.empty (sampleChat 200 5))
      (sampleChat 100 5)).chatList = [200, 100] :=
  have h := addVisibleChat_order_independent sampleWrapper ChatListModel.empty
    (sampleChat 100 5) (sampleChat 200 5) (by decide) (by decide) (by decide) (by decide)
  ⟨by decide, h ▸ (by decide)⟩


/-! ## The clone of a model -/

theorem clone_loop_chatList (td : TDLibWrapper) (l : List ChatData) (res : ChatListModel) :
    (l.foldl (fun res chat => { res with chatList := res.chatList ++ [chat.clone td] })
        res).chatList = res.chatList ++ l.map (fun c => c.clone td) ∧
    (l.foldl (fun res chat => { res with chatList := res.chatList ++ [chat.clone td] })
        res).chatIndexMap = res.chatIndexMap := by
  induction l generalizing res with
  | nil => simp
  | cons c l ih =>
    rw [List.foldl_cons]
    obtain ⟨h1, h2⟩ := ih { res with chatList := res.chatList ++ [c.clone td] }
    rw [h1, h2]
    simp

/-- The clone of a model holds the clones of the visible entities, in order, and an empty
identity→position mapping. -/
theorem clone_chatList (td : TDLibWrapper) (m : ChatListModel) :
    (m.clone td).chatList = m.chatList.map (fun c => c.clone td) ∧
    (m.clone td).chatIndexMap = [] := by
  unfold ChatListModel.clone
  obtain ⟨h1, h2⟩ := clone_loop_chatList td m.chatList
    { ChatListModel.empty with relativeTimeRefreshTimerActive := false }
  exact ⟨by rw [h1]; rfl, by rw [h2]; rfl⟩

/-- The scalar members of the clone of an entity are those of the original. -/
theorem clone_scalars (c : ChatData) (td : TDLibWrapper) :
    (c.clone td).chatId = c.chatId ∧ (c.clone td).order = c.order ∧
    (c.clone td).groupId = c.groupId ∧ (c.clone td).verified = c.verified ∧
    (c.clone td).chatType = c.chatType ∧ (c.clone td).memberStatus = c.memberStatus ∧
    (c.clone td).secretChatState = c.secretChatState :=
  ⟨rfl, rfl, rfl, rfl, rfl, rfl, rfl⟩

/-- C32, evaluated on the code. The model holds the visible private chat 1. Its clone holds the
clone of the chat, with the identity 1, but the identity→position mapping of the clone is empty:
`getById(1)` returns the attribute bag of the chat on the original and the empty map on the
clone. -/
theorem clone_leaves_index_empty :
    ∃ m : ChatListModel,
      run ChatListModel.empty visiblePrivateChatEvents = some m ∧
      chatIds m.chatList = [1] ∧
      chatIds (m.clone sampleWrapper).chatList = [1] ∧
      (m.clone sampleWrapper).chatIndexMap = [] ∧
      m.getById 1 = some (privateChatPayload 1 "10" true) ∧
      (m.clone sampleWrapper).getById 1 = some [] := by
  refine ⟨_, rfl, ?_, ?_, ?_, ?_, ?_⟩ <;> decide


/-! ## Indexed read access -/

/-- Outside of the rows of the model every role reads as the invalid value. -/
theorem data_outside (td : TDLibWrapper) (enums : EnumValues) (m : ChatListModel) (row : Int)
    (role : Role) (h : ¬ (0 ≤ row ∧ row < m.chatList.length)) :
    ChatListModel.data td enums m row role = some .invalid := by
  unfold ChatListModel.data
  rw [if_neg h]

/-- C34, evaluated on the code. The model holds one visible chat and has received no
`chatFolders` event, so that the list of folder titles is empty. Reading the role of the chat
folder list at the row 0 reads the list of folder titles at the position 0, outside of its bounds,
and so does `get(0)`, which reads every role; the other roles yield a value. -/
theorem data_reads_folder_titles_out_of_range :
    ∃ m : ChatListModel,
      run ChatListModel.empty visiblePrivateChatEvents = some m ∧
      m.rowCount = 1 ∧ ChatListModel.getChatFolderList m = [] ∧
      ChatListModel.data sampleWrapper sampleEnums m 0 .RoleChatFoldersList = none ∧
      ChatListModel.get sampleWrapper sampleEnums m 0 = none ∧
      (∀ entry ∈ ChatListModel.roleNames, entry.1 ≠ .RoleChatFoldersList →
        (ChatListModel.data sampleWrapper sampleEnums m 0 entry.1).isSome = true) := by
  refine ⟨_, rfl, ?_, ?_, ?_, ?_, ?_⟩ <;> decide


/-! ## Turning "show all" on -/

theorem updateGroup_none (c : ChatData) : c.updateGroup none = (c, []) := rfl

theorem set_get_self {l : List ChatData} {i : Nat} (h : i < l.length) :
    l.set i (l.get ⟨i, h⟩) = l := by
  apply List.ext_getElem?
  intro p
  rw [List.getElem?_set]
  split_ifs with h1
  · subst h1
    exact (List.getElem?_eq_getElem h).symm
  · rfl

/-- While "show all" is on and no group is given, the first loop of `updateChatVisibility`
changes nothing. -/
theorem hideLoop_showing :
    ∀ (rounds : Nat) (m : ChatListModel) (i : Nat), m.showHiddenChats = true →
      ChatListModel.hideLoop none rounds m i = m := by
  intro rounds
  induction rounds with
  | zero => intro m i _; rfl
  | succ r ih =>
    intro m i hshow
    unfold ChatListModel.hideLoop
    by_cases hi : i < m.chatList.length
    · rw [dif_pos hi]
      simp only [updateGroup_none]
      rw [if_neg (fun h => h.2 hshow), if_neg (fun h => h rfl), set_get_self hi]
      exact ih m (i + 1) hshow
    · rw [dif_neg hi]

theorem QHash.remove_assign {K V : Type} [DecidableEq K] (H : QHash K V) (k : K) (v : V) :
    QHash.remove (QHash.assign H k v) k = QHash.remove H k := by
  unfold QHash.remove QHash.assign
  induction H with
  | nil => rfl
  | cons p H ih =>
    rw [List.map_cons, List.filter_cons, List.filter_cons, ih]
    by_cases hk : p.1 = k
    · simp [hk]
    · simp [hk]

/-- While "show all" is on and no group is given, the second loop of `updateChatVisibility`
moves every entity of the snapshot to the visible sequence. -/
theorem showLoop_showing (td : TDLibWrapper) :
    ∀ (chats : List ChatData) (m : ChatListModel), m.showHiddenChats = true →
      (ChatListModel.showLoop td none chats m).chatList.Perm (m.chatList ++ chats) ∧
      (SortedChats m.chatList → SortedChats (ChatListModel.showLoop td none chats m).chatList) ∧
      (ChatListModel.showLoop td none chats m).hiddenChats
        = m.hiddenChats.filter (fun p => decide (p.1 ∉ chatIds chats)) ∧
      (ChatListModel.showLoop td none chats m).showHiddenChats = true := by
  intro chats
  induction chats with
  | nil =>
    intro m hshow
    unfold ChatListModel.showLoop
    refine ⟨by simp, id, ?_, hshow⟩
    simp [chatIds]
  | cons c rest ih =>
    intro m hshow
    unfold ChatListModel.showLoop
    simp only [updateGroup_none]
    rw [if_pos (Or.inr hshow)]
    obtain ⟨h1, h2, h3, h4⟩ := ih
      (ChatListModel.addVisibleChat td
        { m with
          hiddenChats := QHash.remove (QHash.assign m.hiddenChats c.chatId c) c.chatId } c)
      (by rw [addVisibleChat_showHiddenChats]; exact hshow)
    refine ⟨?_, ?_, ?_, h4⟩
    · refine h1.trans ?_
      rw [addVisibleChat_chatList]
      exact (List.Perm.append_right _ (QList.insert_perm _ _ _)).trans List.perm_middle.symm
    · intro hs
      apply h2
      rw [addVisibleChat_chatList]
      exact sortedChats_insert_findIdx c _ hs
    · rw [h3, addVisibleChat_hiddenChats]
      dsimp only
      rw [QHash.remove_assign]
      unfold QHash.remove
      rw [List.filter_filter]
      apply List.filter_congr
      intro p _
      simp only [chatIds, List.map_cons, List.mem_cons, not_or, ne_eq, Bool.decide_and,
        Bool.and_comm]

/-- C31. Turning "show all" on promotes every hidden entity: for every state with "show all"
off, a sorted visible sequence and identities that are pairwise distinct across the visible
sequence and the Hidden Set (which is keyed by identity), after `setShowAllChats(true)` the Hidden
Set is empty, the visible sequence consists of the former visible entities and the former hidden
entities (its length is the sum of both counts), and it is sorted under `compareTo`. -/
theorem setShowAllChats_promotes_all (td : TDLibWrapper) (m : ChatListModel)
    (hoff : m.showHiddenChats = false) (hs : SortedChats m.chatList) (hwf : WellFormed m) :
    (ChatListModel.setShowAllChats td m true).hiddenChats = [] ∧
    (ChatListModel.setShowAllChats td m true).chatList.Perm
      (m.chatList ++ QHash.values m.hiddenChats) ∧
    (ChatListModel.setShowAllChats td m true).chatList.length
      = m.chatList.length + m.hiddenChats.length ∧
    SortedChats (ChatListModel.setShowAllChats td m true).chatList ∧
    (ChatListModel.setShowAllChats td m true).showHiddenChats = true := by
  unfold ChatListModel.setShowAllChats ChatListModel.updateChatVisibility
  rw [if_pos (by rw [hoff]; decide)]
  dsimp only
  rw [hideLoop_showing _ _ _ rfl]
  obtain ⟨h1, h2, h3, h4⟩ := showLoop_showing td (QHash.values m.hiddenChats)
    { m with showHiddenChats := true } rfl
  refine ⟨?_, h1, ?_, h2 hs, h4⟩
  · show (ChatListModel.showLoop td none (QHash.values m.hiddenChats)
      { m with showHiddenChats := true }).hiddenChats = []
    rw [h3, hwf.2.chatIds_values]
    rw [List.filter_eq_nil_iff]
    intro p hp
    simp only [decide_eq_true_eq, not_not]
    exact List.mem_map.mpr ⟨p, hp, rfl⟩
  · have := h1.length_eq
    simp only [List.length_append, QHash.values, List.length_map] at this
    exact this

/-- C31, at a model with two visible chats and one hidden chat, whose order key puts it between
the two. -/
theorem setShowAllChats_promotes_all_witness :
    (ChatListModel.setShowAllChats sampleWrapper sampleMixedModel true).hiddenChats = [] ∧
    chatIds (ChatListModel.setShowAllChats sampleWrapper sampleMixedModel true).chatList
      = [3, 2, 1] ∧
    SortedChats (ChatListModel.setShowAllChats sampleWrapper sampleMixedModel true).chatList :=
  have h := setShowAllChats_promotes_all sampleWrapper sampleMixedModel rfl (by decide)
    ⟨by decide, by unfold Keyed; decide⟩
  ⟨h.1, by decide, h.2.2.2.1⟩


/-! ## Turning "show all" on and off again -/

theorem setShowAllChats_on (td : TDLibWrapper) (m : ChatListModel)
    (hoff : m.showHiddenChats = false) :
    ChatListModel.setShowAllChats td m true
      = (ChatListModel.showLoop td none (QHash.values m.hiddenChats)
          { m with showHiddenChats := true }).emit .showAllChatsChanged := by
  unfold ChatListModel.setShowAllChats ChatListModel.updateChatVisibility
  rw [if_pos (by rw [hoff]; decide)]
  dsimp only
  rw [hideLoop_showing _ _ _ rfl]

theorem QList.filter_insert_of_false {α : Type} (q : α → Bool) (l : List α) (k : Nat) {x : α}
    (hx : q x = false) : (QList.insert l k x).filter q = l.filter q := by
  unfold QList.insert
  rw [List.filter_append, List.filter_cons, hx]
  simp only [Bool.false_eq_true, if_false]
  rw [← List.filter_append, List.take_append_drop]

/-- The second loop of `updateChatVisibility`, while "show all" is on, does not disturb the
entities that pass a test which the entities of the snapshot fail. -/
theorem showLoop_showing_filter (td : TDLibWrapper) (q : ChatData → Bool) :
    ∀ (chats : List ChatData) (m : ChatListModel), m.showHiddenChats = true →
      (∀ c ∈ chats, q c = false) →
      (ChatListModel.showLoop td none chats m).chatList.filter q = m.chatList.filter q := by
  intro chats
  induction chats with
  | nil =>
    intro m _ _
    unfold ChatListModel.showLoop
    rfl
  | cons c rest ih =>
    intro m hshow hq
    unfold ChatListModel.showLoop
    simp only [updateGroup_none]
    rw [if_pos (Or.inr hshow), ih _ (by rw [addVisibleChat_showHiddenChats]; exact hshow)
      (fun d hd => hq d (List.mem_cons_of_mem _ hd)), addVisibleChat_chatList]
    exact QList.filter_insert_of_false q _ _ (hq c (List.mem_cons_self _ _))

/-- While "show all" is off and no group is given, the first loop of `updateChatVisibility`,
started at position `i` with enough rounds, moves exactly the entities classified hidden from
position `i` on to the Hidden Set, in their order. -/
theorem hideLoop_hiding :
    ∀ (rounds : Nat) (m : ChatListModel) (i : Nat), m.showHiddenChats = false →
      m.chatList.length ≤ i + rounds →
      (ChatListModel.hideLoop none rounds m i).chatList
        = m.chatList.take i ++ (m.chatList.drop i).filter (fun c => !c.isHidden) ∧
      (ChatListModel.hideLoop none rounds m i).hiddenChats
        = ((m.chatList.drop i).filter (fun c => c.isHidden)).foldl
            (fun H c => QHash.insert H c.chatId c) m.hiddenChats ∧
      (ChatListModel.hideLoop none rounds m i).showHiddenChats = false := by
  intro rounds
  induction rounds with
  | zero =>
    intro m i hoff hlen
    have h1 : m.chatList.length ≤ i := by omega
    rw [List.take_of_length_le h1, List.drop_of_length_le h1]
    exact ⟨by simp [ChatListModel.hideLoop], rfl, hoff⟩
  | succ r ih =>
    intro m i hoff hlen
    unfold ChatListModel.hideLoop
    by_cases hi : i < m.chatList.length
    · rw [dif_pos hi]
      simp only [updateGroup_none]
      rw [set_get_self hi]
      have hdrop : m.chatList.drop i = m.chatList.get ⟨i, hi⟩ :: m.chatList.drop (i + 1) :=
        List.drop_eq_getElem_cons hi
      rw [hdrop]
      have htk : m.chatList.take (i + 1) = m.chatList.take i ++ [m.chatList.get ⟨i, hi⟩] := by
        rw [List.take_succ, List.getElem?_eq_getElem hi]
        rfl
      rcases Bool.eq_false_or_eq_true (m.chatList.get ⟨i, hi⟩).isHidden with hh | hh
      swap
      · rw [if_neg (fun h => by rw [hh] at h; cases h.1), if_neg (fun h => h rfl)]
        obtain ⟨e1, e2, e3⟩ := ih m (i + 1) hoff (by omega)
        refine ⟨?_, ?_, e3⟩
        · rw [e1, htk, List.filter_cons_of_pos (by rw [hh]; rfl), List.append_assoc]
          rfl
        · rw [e2, List.filter_cons_of_neg (by rw [hh]; decide)]
      · rw [if_pos ⟨hh, by rw [hoff]; decide⟩]
        have hlen1 : (QList.removeAt m.chatList i).length = m.chatList.length - 1 :=
          QList.length_removeAt m.chatList hi
        have htake : (QList.removeAt m.chatList i).take i = m.chatList.take i := by
          unfold QList.removeAt
          exact List.take_left' (by rw [List.length_take]; omega)
        have hdrop1 : (QList.removeAt m.chatList i).drop i = m.chatList.drop (i + 1) := by
          unfold QList.removeAt
          exact List.drop_left' (by rw [List.length_take]; omega)
        obtain ⟨e1, e2, e3⟩ := ih (ChatListModel.hideChatAt m i (m.chatList.get ⟨i, hi⟩)) i hoff
          (by
            show (QList.removeAt m.chatList i).length ≤ i + r
            omega)
        refine ⟨?_, ?_, e3⟩
        · rw [e1]
          show (QList.removeAt m.chatList i).take i ++
            ((QList.removeAt m.chatList i).drop i).filter (fun c => !c.isHidden) = _
          rw [htake, hdrop1, List.filter_cons_of_neg (by rw [hh]; decide)]
        · rw [e2]
          show (((QList.removeAt m.chatList i).drop i).filter (fun c => c.isHidden)).foldl
            (fun H c => QHash.insert H c.chatId c)
            (QHash.insert m.hiddenChats (m.chatList.get ⟨i, hi⟩).chatId
              (m.chatList.get ⟨i, hi⟩)) = _
          rw [hdrop1, List.filter_cons_of_pos hh, List.foldl_cons]
    · rw [dif_neg hi]
      have h1 : m.chatList.length ≤ i := by omega
      rw [List.take_of_length_le h1, List.drop_of_length_le h1]
      exact ⟨by simp, rfl, hoff⟩

theorem QHash.eq_of_mem_of_nodup {K V : Type} {H : QHash K V} (hnd : (QHash.keys H).Nodup)
    {k : K} {v v1 : V} (h : (k, v) ∈ H) (h1 : (k, v1) ∈ H) : v = v1 := by
  induction H with
  | nil => cases h
  | cons p H ih =>
    simp only [QHash.keys, List.map_cons, List.nodup_cons, List.mem_map, not_exists,
      not_and] at hnd
    rcases List.mem_cons.mp h with e | e <;> rcases List.mem_cons.mp h1 with e1 | e1
    · rw [← e] at e1
      exact (Prod.mk.inj e1).2.symm
    · exact absurd (by rw [← e]) (hnd.1 _ e1)
    · exact absurd (by rw [← e1]) (hnd.1 _ e)
    · exact ih hnd.2 e e1

theorem QHash.assign_of_mem {K V : Type} [DecidableEq K] {H : QHash K V}
    (hnd : (QHash.keys H).Nodup) {k : K} {v : V} (h : (k, v) ∈ H) : QHash.assign H k v = H := by
  unfold QHash.assign
  conv_rhs => rw [← List.map_id H]
  apply List.map_congr_left
  intro p hp
  split_ifs with hk
  · obtain ⟨k1, v1⟩ := p
    dsimp only at hk
    subst hk
    rw [QHash.eq_of_mem_of_nodup hnd h hp]
    rfl
  · rfl

/-- While "show all" is off and no group is given, the second loop of `updateChatVisibility`
leaves a model as it is when every entity of the snapshot is classified hidden and stands in the
Hidden Set under its identity. -/
theorem showLoop_hidden (td : TDLibWrapper) :
    ∀ (chats : List ChatData) (m : ChatListModel), m.showHiddenChats = false →
      (QHash.keys m.hiddenChats).Nodup →
      (∀ c ∈ chats, c.isHidden = true ∧ (c.chatId, c) ∈ m.hiddenChats) →
      ChatListModel.showLoop td none chats m = m := by
  intro chats
  induction chats with
  | nil =>
    intro m _ _ _
    unfold ChatListModel.showLoop
    rfl
  | cons c rest ih =>
    intro m hoff hnd hc
    obtain ⟨h1, h2⟩ := hc c (List.mem_cons_self _ _)
    unfold ChatListModel.showLoop
    simp only [updateGroup_none]
    rw [if_neg (by
      rintro (h | h)
      · exact h h1
      · rw [hoff] at h; cases h)]
    rw [QHash.assign_of_mem hnd h2]
    exact ih m hoff hnd (fun d hd => hc d (List.mem_cons_of_mem _ hd))

theorem foldl_insert_perm :
    ∀ (cs : List ChatData) (H : QHash Int ChatData), (chatIds cs).Nodup →
      (∀ c ∈ cs, c.chatId ∉ QHash.keys H) →
      (cs.foldl (fun H c => QHash.insert H c.chatId c) H).Perm
        (cs.map (fun c => (c.chatId, c)) ++ H) := by
  intro cs
  induction cs with
  | nil => intro H _ _; exact List.Perm.refl _
  | cons c rest ih =>
    intro H hnd hfresh
    simp only [chatIds, List.map_cons, List.nodup_cons, List.mem_map, not_exists, not_and]
      at hnd
    rw [List.foldl_cons]
    have hins : QHash.insert H c.chatId c = (c.chatId, c) :: H := by
      unfold QHash.insert
      rw [QHash.remove_of_not_mem (hfresh c (List.mem_cons_self _ _))]
    rw [hins]
    refine (ih _ hnd.2 ?_).trans ?_
    · intro d hd
      simp only [QHash.keys, List.map_cons, List.mem_cons, not_or]
      exact ⟨fun e => hnd.1 d hd e, hfresh d (List.mem_cons_of_mem _ hd)⟩
    · rw [List.map_cons]
      exact List.perm_middle

theorem QHash.find_of_mem_of_nodup {K V : Type} [DecidableEq K] {H : QHash K V}
    (hnd : (QHash.keys H).Nodup) {k : K} {v : V} (h : (k, v) ∈ H) :
    QHash.find H k = some v := by
  induction H with
  | nil => cases h
  | cons p H ih =>
    obtain ⟨k1, v1⟩ := p
    simp only [QHash.keys, List.map_cons, List.nodup_cons, List.mem_map, not_exists,
      not_and] at hnd
    unfold QHash.find
    rcases List.mem_cons.mp h with e | e
    · cases e
      rw [if_pos rfl]
    · have hne : k1 ≠ k := fun e1 => hnd.1 (k, v) e e1.symm
      rw [if_neg hne]
      exact ih hnd.2 e

theorem QHash.find_eq_of_perm {K V : Type} [DecidableEq K] {H H1 : QHash K V}
    (hp : H1.Perm H) (hnd : (QHash.keys H).Nodup) (k : K) :
    QHash.find H1 k = QHash.find H k := by
  have hnd1 : (QHash.keys H1).Nodup := (hp.map Prod.fst).nodup_iff.mpr hnd
  cases h : QHash.find H k with
  | some v =>
    exact QHash.find_of_mem_of_nodup hnd1 (hp.mem_iff.mpr (QHash.mem_of_find h))
  | none =>
    cases h1 : QHash.find H1 k with
    | none => rfl
    | some v =>
      rw [QHash.find_of_mem_of_nodup hnd (hp.mem_iff.mp (QHash.mem_of_find h1))] at h
      cases h

theorem emit_chatList (m : ChatListModel) (s : Signal) : (m.emit s).chatList = m.chatList :=
  rfl

theorem emit_hiddenChats (m : ChatListModel) (s : Signal) :
    (m.emit s).hiddenChats = m.hiddenChats := rfl

theorem emit_showHiddenChats (m : ChatListModel) (s : Signal) :
    (m.emit s).showHiddenChats = m.showHiddenChats := rfl

/-- What turning "show all" on does to a model in which it was off. -/
theorem setShowAllChats_on_facts (td : TDLibWrapper) (m : ChatListModel)
    (hoff : m.showHiddenChats = false) (hkeyed : Keyed m.hiddenChats) :
    (ChatListModel.setShowAllChats td m true).hiddenChats = [] ∧
    (ChatListModel.setShowAllChats td m true).chatList.Perm
      (m.chatList ++ QHash.values m.hiddenChats) ∧
    (ChatListModel.setShowAllChats td m true).showHiddenChats = true ∧
    ∀ q : ChatData → Bool, (∀ c ∈ QHash.values m.hiddenChats, q c = false) →
      (ChatListModel.setShowAllChats td m true).chatList.filter q = m.chatList.filter q := by
  rw [setShowAllChats_on td m hoff, emit_chatList, emit_hiddenChats, emit_showHiddenChats]
  obtain ⟨p1, _, p3, p4⟩ := showLoop_showing td (QHash.values m.hiddenChats)
    { m with showHiddenChats := true } rfl
  refine ⟨?_, p1, p4, ?_⟩
  · rw [p3, hkeyed.chatIds_values]
    show m.hiddenChats.filter _ = []
    rw [List.filter_eq_nil_iff]
    intro p hp
    simp only [decide_eq_true_eq, not_not]
    exact List.mem_map.mpr ⟨p, hp, rfl⟩
  · intro q hq
    exact showLoop_showing_filter td q (QHash.values m.hiddenChats)
      { m with showHiddenChats := true } rfl hq

/-- While "show all" is off and the Hidden Set is empty, `updateChatVisibility` without a group
moves exactly the entities classified hidden to the Hidden Set. -/
theorem updateChatVisibility_hiding (td : TDLibWrapper) (m : ChatListModel)
    (hoff : m.showHiddenChats = false) (hempty : m.hiddenChats = [])
    (hnd : (chatIds (m.chatList.filter (fun c => c.isHidden))).Nodup) :
    (ChatListModel.updateChatVisibility td m none).chatList
      = m.chatList.filter (fun c => !c.isHidden) ∧
    (ChatListModel.updateChatVisibility td m none).hiddenChats.Perm
      ((m.chatList.filter (fun c => c.isHidden)).map (fun c => (c.chatId, c))) ∧
    (ChatListModel.updateChatVisibility td m none).showHiddenChats = false := by
  unfold ChatListModel.updateChatVisibility
  dsimp only
  obtain ⟨q1, q2, q3⟩ := hideLoop_hiding m.chatList.length m 0 hoff (by omega)
  rw [List.take_zero, List.drop_zero, List.nil_append] at q1
  rw [List.drop_zero, hempty] at q2
  generalize ChatListModel.hideLoop none m.chatList.length m 0 = h at q1 q2 q3 ⊢
  have hperm : h.hiddenChats.Perm
      ((m.chatList.filter (fun c => c.isHidden)).map (fun c => (c.chatId, c))) := by
    rw [q2]
    have := foldl_insert_perm (m.chatList.filter (fun c => c.isHidden)) [] hnd
      (fun _ _ hk => by cases hk)
    rw [List.append_nil] at this
    exact this
  have hkeys : (QHash.keys h.hiddenChats).Nodup := by
    have hp := hperm.map Prod.fst
    rw [List.map_map] at hp
    exact hp.nodup_iff.mpr hnd
  have hsl := showLoop_hidden td (QHash.values h.hiddenChats) h q3 hkeys
    (by
      intro c hc
      obtain ⟨p, hp, e⟩ := List.mem_map.mp hc
      obtain ⟨d, hd, e1⟩ := List.mem_map.mp (hperm.mem_iff.mp hp)
      have hdh : d.isHidden = true := (List.mem_filter.mp hd).2
      have hcd : c = d := by rw [← e, ← e1]
      subst hcd
      refine ⟨hdh, ?_⟩
      rw [e1]
      exact hp)
  rw [hsl]
  exact ⟨q1, hperm, q3⟩

/-- C38. Toggling "show all" on and off again is a round trip on the projection: for every state
with "show all" off, a sorted visible sequence, pairwise distinct identities across the visible
sequence and the Hidden Set (which is keyed by identity), no visible entity classified hidden and
every entity of the Hidden Set classified hidden, `setShowAllChats(true)` followed by
`setShowAllChats(false)` yields the same visible sequence (the same entities in the same order)
and the same Hidden Set (the same entities under the same identities) as before. -/
theorem setShowAllChats_round_trip (td : TDLibWrapper) (m : ChatListModel)
    (hoff : m.showHiddenChats = false) (_hs : SortedChats m.chatList) (hwf : WellFormed m)
    (hvis : ∀ c ∈ m.chatList, c.isHidden = false)
    (hhid : ∀ p ∈ m.hiddenChats, p.2.isHidden = true) :
    (ChatListModel.setShowAllChats td (ChatListModel.setShowAllChats td m true) false).chatList
      = m.chatList ∧
    (ChatListModel.setShowAllChats td
      (ChatListModel.setShowAllChats td m true) false).hiddenChats.Perm m.hiddenChats ∧
    (∀ k : Int,
      QHash.find (ChatListModel.setShowAllChats td
        (ChatListModel.setShowAllChats td m true) false).hiddenChats k
        = QHash.find m.hiddenChats k) ∧
    (ChatListModel.setShowAllChats td
      (ChatListModel.setShowAllChats td m true) false).showHiddenChats = false := by
  obtain ⟨hnd, hkeyed⟩ := hwf
  have hndk : (QHash.keys m.hiddenChats).Nodup := hnd.of_append_right
  have hvals : ∀ c ∈ QHash.values m.hiddenChats, c.isHidden = true := by
    intro c hc
    obtain ⟨p, hp, e⟩ := List.mem_map.mp hc
    rw [← e]
    exact hhid p hp
  obtain ⟨f1, f2, f3, f4⟩ := setShowAllChats_on_facts td m hoff hkeyed
  generalize ChatListModel.setShowAllChats td m true = r at f1 f2 f3 f4 ⊢
  have hfv : m.chatList.filter (fun c => !c.isHidden) = m.chatList := by
    rw [List.filter_eq_self]
    intro c hc
    show (!c.isHidden) = true
    rw [hvis c hc]
    rfl
  have hfh : (m.chatList ++ QHash.values m.hiddenChats).filter (fun c => c.isHidden)
      = QHash.values m.hiddenChats := by
    rw [List.filter_append]
    have e1 : m.chatList.filter (fun c => c.isHidden) = [] := by
      rw [List.filter_eq_nil_iff]
      intro c hc
      show ¬ c.isHidden = true
      rw [hvis c hc]
      decide
    have e2 : (QHash.values m.hiddenChats).filter (fun c => c.isHidden)
        = QHash.values m.hiddenChats := by
      rw [List.filter_eq_self]
      exact hvals
    rw [e1, e2, List.nil_append]
  have hcs : (r.chatList.filter (fun c => c.isHidden)).Perm (QHash.values m.hiddenChats) := by
    have := f2.filter (fun c => c.isHidden)
    rw [hfh] at this
    exact this
  have hpairs : (QHash.values m.hiddenChats).map (fun c => (c.chatId, c)) = m.hiddenChats := by
    unfold QHash.values
    rw [List.map_map]
    conv_rhs => rw [← List.map_id m.hiddenChats]
    apply List.map_congr_left
    intro p hp
    simp only [Function.comp, id]
    rw [hkeyed p hp]
  have hkey : ChatListModel.setShowAllChats td r false
      = (ChatListModel.updateChatVisibility td { r with showHiddenChats := false } none).emit
          .showAllChatsChanged := by
    unfold ChatListModel.setShowAllChats
    rw [if_pos (by rw [f3]; decide)]
  obtain ⟨g1, g2, g3⟩ := updateChatVisibility_hiding td { r with showHiddenChats := false } rfl
    f1 (by
      show (chatIds (r.chatList.filter (fun c => c.isHidden))).Nodup
      have hp : (chatIds (r.chatList.filter (fun c => c.isHidden))).Perm
          (chatIds (QHash.values m.hiddenChats)) := hcs.map _
      rw [hp.nodup_iff, hkeyed.chatIds_values]
      exact hndk)
  rw [hkey, emit_chatList, emit_hiddenChats, emit_showHiddenChats]
  have hperm : (ChatListModel.updateChatVisibility td { r with showHiddenChats := false }
      none).hiddenChats.Perm m.hiddenChats := by
    refine g2.trans ?_
    have := hcs.map (fun c => (c.chatId, c))
    rw [hpairs] at this
    exact this
  refine ⟨?_, hperm, fun k => QHash.find_eq_of_perm hperm hndk k, g3⟩
  rw [g1]
  show r.chatList.filter (fun c => !c.isHidden) = m.chatList
  rw [f4 _ (fun c hc => by
    show (!c.isHidden) = false
    rw [hvals c hc]
    rfl), hfv]

/-- C38, at a model with two visible chats and one hidden chat, whose order key puts it between
the two. -/
theorem setShowAllChats_round_trip_witness :
    (ChatListModel.setShowAllChats sampleWrapper
      (ChatListModel.setShowAllChats sampleWrapper sampleMixedModel true) false).chatList
      = sampleMixedModel.chatList ∧
    (ChatListModel.setShowAllChats sampleWrapper
      (ChatListModel.setShowAllChats sampleWrapper sampleMixedModel true) false).hiddenChats.Perm
      sampleMixedModel.hiddenChats :=
  have h := setShowAllChats_round_trip sampleWrapper sampleMixedModel rfl (by decide)
    ⟨by decide, by unfold Keyed; decide⟩ (by decide) (by decide)
  ⟨h.1, h.2.1⟩


/-! ## The index under demotion and promotion -/

theorem RowsAccounted.refl_rows (m : ChatListModel) : RowsAccounted m m :=
  ⟨[], (List.append_nil _).symm, by simp⟩

theorem RowsAccounted.trans_rows {m r s : ChatListModel} (h1 : RowsAccounted m r)
    (h2 : RowsAccounted r s) : RowsAccounted m s := by
  obtain ⟨x1, e1, c1⟩ := h1
  obtain ⟨x2, e2, c2⟩ := h2
  refine ⟨x1 ++ x2, by rw [e2, e1, List.append_assoc], ?_⟩
  rw [List.countP_append, List.countP_append]
  omega

theorem KeepsIndex.refl_index (m : ChatListModel) : KeepsIndex m m :=
  fun h => ⟨h, RowsAccounted.refl_rows m⟩

theorem KeepsIndex.trans_index {m r s : ChatListModel} (h1 : KeepsIndex m r) (h2 : KeepsIndex r s) :
    KeepsIndex m s := by
  intro h
  obtain ⟨a1, b1⟩ := h1 h
  obtain ⟨a2, b2⟩ := h2 a1
  exact ⟨a2, b1.trans_rows b2⟩

theorem indexCorrect_set {l : List ChatData} {map : QHash Int Nat} (hidx : IndexCorrect l map)
    {i : Nat} {c d : ChatData} (hc : l[i]? = some c) (hid : d.chatId = c.chatId) :
    IndexCorrect (l.set i d) map := by
  rw [indexCorrect_iff] at hidx ⊢
  intro p x hx
  rw [List.getElem?_set] at hx
  by_cases hp : i = p
  · subst hp
    rw [if_pos rfl, if_pos (List.getElem?_eq_some.mp hc).1] at hx
    cases hx
    rw [hid]
    exact hidx i c hc
  · rw [if_neg hp] at hx
    exact hidx p x hx

theorem indexCorrect_removeAt {l : List ChatData} {map : QHash Int Nat}
    (hidx : IndexCorrect l map) (i : Nat) :
    IndexCorrect (QList.removeAt l i)
      (ChatListModel.reindex (QList.removeAt l i) map i (QList.removeAt l i).length) := by
  have hnd : (chatIds l).Nodup := hidx.nodup
  have hnd1 : (chatIds (QList.removeAt l i)).Nodup := by
    rw [QList.removeAt_eq_eraseIdx]
    exact List.Nodup.sublist ((List.eraseIdx_sublist l i).map _) hnd
  rw [indexCorrect_iff] at hidx ⊢
  intro p c hc
  by_cases hp : i ≤ p
  · exact reindex_find_inside hnd1 map hp (List.getElem?_eq_some.mp hc).1 hc
  · rw [reindex_find_outside]
    · apply hidx p
      rw [QList.getElem?_removeAt, if_pos (by omega)] at hc
      exact hc
    · intro q d hq1 _ hd e
      have := position_unique hnd1 hd hc e
      omega

theorem KeepsIndex.set_index (m : ChatListModel) {i : Nat} {c d : ChatData}
    (hc : m.chatList[i]? = some c) (hid : d.chatId = c.chatId) :
    KeepsIndex m { m with chatList := m.chatList.set i d } := by
  intro h
  refine ⟨⟨(SameIds.set m hc hid h.1).1, indexCorrect_set h.2 hc hid⟩, [], ?_, ?_⟩
  · exact (List.append_nil _).symm
  · simp

theorem KeepsIndex.emit_index (m : ChatListModel) (s : Signal) (h1 : s.isRowsRemoved = false)
    (h2 : s.isRowsInserted = false) : KeepsIndex m (m.emit s) := by
  intro h
  refine ⟨⟨(SameIds.emit m s h.1).1, h.2⟩, [s], rfl, ?_⟩
  simp [h1, h2, ChatListModel.emit]

theorem KeepsIndex.hideChatAt_index (m : ChatListModel) {i : Nat} {chat : ChatData}
    (hc : m.chatList[i]? = some chat) : KeepsIndex m (ChatListModel.hideChatAt m i chat) := by
  intro h
  refine ⟨⟨(SameIds.hideChatAt m hc h.1).1, indexCorrect_removeAt h.2 i⟩,
    [Signal.rowsRemoved i i, Signal.countChanged], rfl, ?_⟩
  have hi : i < m.chatList.length := (List.getElem?_eq_some.mp hc).1
  have hlen : (ChatListModel.hideChatAt m i chat).chatList.length = m.chatList.length - 1 :=
    hideChatAt_length m chat hi
  rw [hlen]
  simp [Signal.isRowsRemoved, Signal.isRowsInserted]
  omega

theorem KeepsIndex.assign_same_index (m : ChatListModel) {k : Int} {c : ChatData}
    (hid : c.chatId = k) :
    KeepsIndex m { m with hiddenChats := QHash.assign m.hiddenChats k c } := by
  intro h
  refine ⟨⟨(SameIds.assign_same m hid h.1).1, h.2⟩, [], ?_, ?_⟩
  · exact (List.append_nil _).symm
  · simp

theorem KeepsIndex.promote_index (td : TDLibWrapper) (m : ChatListModel) {chat : ChatData}
    (hk : chat.chatId ∈ QHash.keys m.hiddenChats) :
    KeepsIndex m
      (ChatListModel.addVisibleChat td
        { m with hiddenChats := QHash.remove m.hiddenChats chat.chatId } chat) := by
  intro h
  have hnew : ∀ x ∈ m.chatList, x.chatId ≠ chat.chatId := by
    intro x hx e
    exact List.disjoint_of_nodup_append h.1.1 (List.mem_map.mpr ⟨x, hx, rfl⟩) (e ▸ hk)
  refine ⟨⟨(SameIds.promote td m hk h.1).1, ?_⟩, ?_⟩
  · rw [addVisibleChat_chatList, addVisibleChat_chatIndexMap]
    exact indexCorrect_insert h.2 chat hnew (List.findIdx_le_length _)
  · refine ⟨_, addVisibleChat_emitted _ _ _, ?_⟩
    rw [addVisibleChat_chatList, QList.length_insert]
    dsimp only
    split_ifs <;> simp [Signal.isRowsRemoved, Signal.isRowsInserted]

theorem KeepsIndex.hideLoop_index (group : Option TDLibWrapper.Group) :
    ∀ (rounds : Nat) (m : ChatListModel) (i : Nat),
      KeepsIndex m (ChatListModel.hideLoop group rounds m i) := by
  intro rounds
  induction rounds with
  | zero => intro m i; exact KeepsIndex.refl_index m
  | succ r ih =>
    intro m i
    unfold ChatListModel.hideLoop
    by_cases hi : i < m.chatList.length
    · rw [dif_pos hi]
      have hc : m.chatList[i]? = some (m.chatList.get ⟨i, hi⟩) := List.getElem?_eq_getElem hi
      have hid := updateGroup_chatId (m.chatList.get ⟨i, hi⟩) group
      have hset := KeepsIndex.set_index m hc hid
      have hc1 := getElem?_set_self hc ((m.chatList.get ⟨i, hi⟩).updateGroup group).1
      dsimp only
      split_ifs
      · exact hset.trans_index ((KeepsIndex.hideChatAt_index _ hc1).trans_index (ih _ _))
      · exact hset.trans_index
          (KeepsIndex.trans_index (KeepsIndex.emit_index _ (Signal.dataChanged _ _ _) rfl rfl)
            (ih _ _))
      · exact hset.trans_index (ih _ _)
    · rw [dif_neg hi]
      exact KeepsIndex.refl_index m

theorem KeepsIndex.showLoop_index (td : TDLibWrapper) (group : Option TDLibWrapper.Group) :
    ∀ (chats : List ChatData) (m : ChatListModel), (chatIds chats).Nodup →
      (∀ c ∈ chats, c.chatId ∈ QHash.keys m.hiddenChats) →
      KeepsIndex m (ChatListModel.showLoop td group chats m) := by
  intro chats
  induction chats with
  | nil => intro m _ _; exact KeepsIndex.refl_index m
  | cons chat rest ih =>
    intro m hnd hmem
    simp only [chatIds, List.map_cons, List.nodup_cons, List.mem_map, not_exists, not_and]
      at hnd
    unfold ChatListModel.showLoop
    have hid := updateGroup_chatId chat group
    have hassign := KeepsIndex.assign_same_index m hid
    have hkey : chat.chatId ∈ QHash.keys m.hiddenChats := hmem chat (List.mem_cons_self _ _)
    dsimp only
    split_ifs
    · refine hassign.trans_index (KeepsIndex.trans_index ?_ (ih _ hnd.2 ?_))
      · apply KeepsIndex.promote_index
        rw [hid]
        simp only [QHash.keys_assign]
        exact hkey
      · intro c hc
        rw [addVisibleChat_hiddenChats]
        apply QHash.mem_keys_remove_of_ne
        · rw [hid]
          exact fun e => hnd.1 c hc e
        · simp only [QHash.keys_assign]
          exact hmem c (List.mem_cons_of_mem _ hc)
    · refine hassign.trans_index (ih _ hnd.2 ?_)
      intro c hc
      simp only [QHash.keys_assign]
      exact hmem c (List.mem_cons_of_mem _ hc)

/-! ## The row notifications of demotion and promotion -/

theorem chatIds_removeAt (l : List ChatData) (i : Nat) :
    chatIds (QList.removeAt l i) = QList.removeAt (chatIds l) i := by
  unfold chatIds QList.removeAt
  rw [List.map_append, List.map_take, List.map_drop]

theorem chatIds_insert (l : List ChatData) (pos : Nat) (c : ChatData) :
    chatIds (QList.insert l pos c) = QList.insert (chatIds l) pos c.chatId := by
  unfold chatIds QList.insert
  rw [List.map_append, List.map_cons, List.map_take, List.map_drop]

theorem rowsReplay_append {a b c : List Int} {x y : List Signal} (h1 : RowsReplay a x b)
    (h2 : RowsReplay b y c) : RowsReplay a (x ++ y) c := by
  induction h1 with
  | done ids => exact h2
  | removed ids i rest after hi _ ih => exact RowsReplay.removed ids i _ c hi (ih h2)
  | inserted ids pos id rest after hpos _ ih =>
    exact RowsReplay.inserted ids pos id _ c hpos (ih h2)
  | other ids s rest after e1 e2 e3 _ ih => exact RowsReplay.other ids s _ c e1 e2 e3 (ih h2)

theorem rowsReplayed_refl (m : ChatListModel) : RowsReplayed m m :=
  ⟨[], (List.append_nil _).symm, RowsReplay.done _⟩

theorem rowsReplayed_trans {m r s : ChatListModel} (h1 : RowsReplayed m r)
    (h2 : RowsReplayed r s) : RowsReplayed m s := by
  obtain ⟨x1, e1, c1⟩ := h1
  obtain ⟨x2, e2, c2⟩ := h2
  exact ⟨x1 ++ x2, by rw [e2, e1, List.append_assoc], rowsReplay_append c1 c2⟩

theorem rowsReplayed_of_ids {m r : ChatListModel} (he : r.emitted = m.emitted)
    (hl : chatIds r.chatList = chatIds m.chatList) : RowsReplayed m r :=
  ⟨[], by rw [he, List.append_nil], by rw [hl]; exact RowsReplay.done _⟩

theorem rowsReplayed_emit (m : ChatListModel) (s : Signal) (h1 : s.isRowsRemoved = false)
    (h2 : s.isRowsInserted = false) (h3 : s.isRowsMoved = false) :
    RowsReplayed m (m.emit s) :=
  ⟨[s], rfl, RowsReplay.other _ s [] _ h1 h2 h3 (RowsReplay.done _)⟩

theorem rowsReplayed_hideChatAt (m : ChatListModel) (i : Nat) (chat : ChatData)
    (hi : i < m.chatList.length) : RowsReplayed m (ChatListModel.hideChatAt m i chat) := by
  refine ⟨[Signal.rowsRemoved i i, Signal.countChanged], rfl, ?_⟩
  show RowsReplay (chatIds m.chatList) _ (chatIds (QList.removeAt m.chatList i))
  rw [chatIds_removeAt]
  refine RowsReplay.removed _ i _ _ ?_ ?_
  · unfold chatIds
    rw [List.length_map]
    exact hi
  · exact RowsReplay.other _ _ [] _ rfl rfl rfl (RowsReplay.done _)

theorem rowsReplayed_addVisibleChat (td : TDLibWrapper) (m : ChatListModel) (chat : ChatData) :
    RowsReplayed m (ChatListModel.addVisibleChat td m chat) := by
  refine ⟨_, addVisibleChat_emitted td m chat, ?_⟩
  rw [addVisibleChat_chatList, chatIds_insert]
  refine RowsReplay.inserted _ _ chat.chatId _ _ ?_ ?_
  · unfold chatIds
    rw [List.length_map]
    exact List.findIdx_le_length _
  · refine RowsReplay.other _ _ _ _ rfl rfl rfl ?_
    split_ifs
    · exact RowsReplay.other _ _ _ _ rfl rfl rfl
        (RowsReplay.other _ _ _ _ rfl rfl rfl (RowsReplay.done _))
    · exact RowsReplay.done _

theorem rowsReplayed_hideLoop (group : Option TDLibWrapper.Group) :
    ∀ (rounds : Nat) (m : ChatListModel) (i : Nat),
      RowsReplayed m (ChatListModel.hideLoop group rounds m i) := by
  intro rounds
  induction rounds with
  | zero => intro m i; exact rowsReplayed_refl m
  | succ r ih =>
    intro m i
    unfold ChatListModel.hideLoop
    by_cases hi : i < m.chatList.length
    · rw [dif_pos hi]
      have hc : m.chatList[i]? = some (m.chatList.get ⟨i, hi⟩) := List.getElem?_eq_getElem hi
      have hid := updateGroup_chatId (m.chatList.get ⟨i, hi⟩) group
      have hset : RowsReplayed m
          { m with
            chatList := m.chatList.set i ((m.chatList.get ⟨i, hi⟩).updateGroup group).1 } :=
        rowsReplayed_of_ids rfl (chatIds_set hc hid)
      dsimp only
      split_ifs
      · refine rowsReplayed_trans hset (rowsReplayed_trans
          (rowsReplayed_hideChatAt _ i _ ?_) (ih _ _))
        show i < (m.chatList.set i _).length
        rw [List.length_set]
        exact hi
      · exact rowsReplayed_trans hset (rowsReplayed_trans
          (rowsReplayed_emit _ (Signal.dataChanged _ _ _) rfl rfl rfl) (ih _ _))
      · exact rowsReplayed_trans hset (ih _ _)
    · rw [dif_neg hi]
      exact rowsReplayed_refl m

theorem rowsReplayed_showLoop (td : TDLibWrapper) (group : Option TDLibWrapper.Group) :
    ∀ (chats : List ChatData) (m : ChatListModel),
      RowsReplayed m (ChatListModel.showLoop td group chats m) := by
  intro chats
  induction chats with
  | nil => intro m; exact rowsReplayed_refl m
  | cons chat rest ih =>
    intro m
    unfold ChatListModel.showLoop
    dsimp only
    split_ifs
    · have h1 : RowsReplayed m
          { m with
            hiddenChats :=
              QHash.remove (QHash.assign m.hiddenChats chat.chatId (chat.updateGroup group).1)
                (chat.updateGroup group).1.chatId } :=
        rowsReplayed_of_ids rfl rfl
      exact rowsReplayed_trans h1
        (rowsReplayed_trans (rowsReplayed_addVisibleChat td _ _) (ih _))
    · have h1 : RowsReplayed m
          { m with
            hiddenChats :=
              QHash.assign m.hiddenChats chat.chatId (chat.updateGroup group).1 } :=
        rowsReplayed_of_ids rfl rfl
      exact rowsReplayed_trans h1 (ih _)

/-- The signals `updateChatVisibility` emits announce every removal and every insertion at its
position, in every state. -/
theorem rowsReplayed_updateChatVisibility (td : TDLibWrapper) (m : ChatListModel)
    (group : Option TDLibWrapper.Group) :
    RowsReplayed m (ChatListModel.updateChatVisibility td m group) := by
  unfold ChatListModel.updateChatVisibility
  dsimp only
  exact rowsReplayed_trans (rowsReplayed_hideLoop group _ m 0) (rowsReplayed_showLoop td group _ _)

theorem sampleSwapModel_indexCorrect :
    IndexCorrect sampleSwapModel.chatList sampleSwapModel.chatIndexMap := by
  rw [indexCorrect_iff]
  intro p c hc
  match p, hc with
  | 0, hc => cases hc; decide
  | p + 1, hc => simp [sampleSwapModel] at hc

/-- C36. Demotion and promotion keep the in-sequence index correct: for every state with pairwise
distinct identities (across the visible sequence and the Hidden Set, which is keyed by identity)
in which `chatIndexMap` maps every entity of the visible sequence to its position, after
`updateChatVisibility(group)`, for any group or none and either value of "show all", every
entity of the resulting visible sequence is again mapped by `chatIndexMap` to its position, and
every removed row is announced at its position: the signals emitted by the call, applied in their
order to the identities of the old visible sequence (a removal notification `rowsRemoved(i, i)`
takes out the row that stands at `i` at that moment, an insertion notification
`rowsInserted(pos, pos)` puts a row in at `pos`), give the identities of the new visible
sequence, and the removal and insertion notifications add up with the lengths. -/
theorem updateChatVisibility_keeps_index (td : TDLibWrapper) (m : ChatListModel)
    (group : Option TDLibWrapper.Group) (hwf : WellFormed m)
    (hidx : IndexCorrect m.chatList m.chatIndexMap) :
    IndexCorrect (ChatListModel.updateChatVisibility td m group).chatList
      (ChatListModel.updateChatVisibility td m group).chatIndexMap ∧
    RowsReplayed m (ChatListModel.updateChatVisibility td m group) ∧
    RowsAccounted m (ChatListModel.updateChatVisibility td m group) := by
  refine ⟨?_, rowsReplayed_updateChatVisibility td m group, ?_⟩
  all_goals
    unfold ChatListModel.updateChatVisibility
    dsimp only
    obtain ⟨hwf1, hacc1⟩ := KeepsIndex.hideLoop_index group m.chatList.length m 0 ⟨hwf, hidx⟩
    obtain ⟨hwf2, hacc2⟩ := KeepsIndex.showLoop_index td group
      (QHash.values (ChatListModel.hideLoop group m.chatList.length m 0).hiddenChats)
      (ChatListModel.hideLoop group m.chatList.length m 0)
      (by rw [hwf1.1.2.chatIds_values]; exact hwf1.1.1.of_append_right)
      (by
        intro c hc
        rw [← hwf1.1.2.chatIds_values]
        exact List.mem_map.mpr ⟨c, hc, rfl⟩)
      hwf1
    first
      | exact hwf2.2
      | exact hacc1.trans_rows hacc2

/-- C36, at a model in which one call demotes the visible chat 2 (a private chat without a last
message) and promotes the hidden chat 1 (a private chat with a last message): the row 0 is
announced as removed and then a row 0 as inserted, and the index maps the chat 1 to the
position 0. -/
theorem updateChatVisibility_keeps_index_witness :
    chatIds sampleSwapModel.chatList = [2] ∧
    chatIds (ChatListModel.updateChatVisibility sampleWrapper sampleSwapModel none).chatList
      = [1] ∧
    (ChatListModel.updateChatVisibility sampleWrapper sampleSwapModel none).emitted
      = [.rowsRemoved 0 0, .countChanged, .rowsInserted 0 0, .countChanged] ∧
    IndexCorrect (ChatListModel.updateChatVisibility sampleWrapper sampleSwapModel none).chatList
      (ChatListModel.updateChatVisibility sampleWrapper sampleSwapModel none).chatIndexMap ∧
    RowsReplayed sampleSwapModel
      (ChatListModel.updateChatVisibility sampleWrapper sampleSwapModel none) ∧
    RowsAccounted sampleSwapModel
      (ChatListModel.updateChatVisibility sampleWrapper sampleSwapModel none) :=
  ⟨by decide, by decide, by decide,
    updateChatVisibility_keeps_index sampleWrapper sampleSwapModel none
      ⟨by decide, by unfold Keyed; decide⟩ sampleSwapModel_indexCorrect⟩

/-- Without the notifications the rows do not replay: an observer that is told nothing keeps the
old sequence of identities, which differs from the new one when a row was exchanged. -/
theorem rowsReplay_nil_iff (before after : List Int) :
    RowsReplay before [] after ↔ before = after := by
  constructor
  · intro h
    cases h
    rfl
  · rintro rfl
    exact RowsReplay.done _


/-! ## No entity classified hidden is shown -/

theorem isHidden_insert_of_ne (c : ChatData) {key : String} (value : QVariant)
    (hkey : key ≠ LAST_MESSAGE) :
    ({ c with chatData := QHash.insert c.chatData key value } : ChatData).isHidden
      = c.isHidden := by
  unfold ChatData.isHidden
  dsimp only
  rw [QHash.value_insert_of_ne _ _ (Ne.symm hkey)]

theorem setOrder_isHidden (c : ChatData) (order : String) :
    (c.setOrder order).1.isHidden = c.isHidden := by
  unfold ChatData.setOrder
  split_ifs
  · unfold ChatData.isHidden
    dsimp only
    rw [QHash.value_insert_of_ne _ _ (by decide)]
  · rfl

theorem isHidden_with_message (c : ChatData) (message : QVariantMap)
    (h : c.isHidden = false) :
    ({ c with chatData := QHash.insert c.chatData LAST_MESSAGE (.map message) } :
      ChatData).isHidden = false := by
  unfold ChatData.isHidden at h ⊢
  dsimp only at h ⊢
  rw [QHash.value_insert_self]
  cases hct : c.chatType <;> cases hms : c.memberStatus <;> rw [hct, hms] at h <;>
    simp_all [QVariant.isNull]

theorem updateLastMessage_isHidden (c : ChatData) (td : TDLibWrapper) (message : QVariantMap)
    (h : c.isHidden = false) : (c.updateLastMessage td message).1.isHidden = false :=
  isHidden_with_message c message h

theorem KeepsShown.refl_shown (m : ChatListModel) : KeepsShown m m := id

theorem KeepsShown.trans_shown {m m1 m2 : ChatListModel} (h1 : KeepsShown m m1)
    (h2 : KeepsShown m1 m2) : KeepsShown m m2 := fun h => h2 (h1 h)

theorem KeepsShown.of_subset_shown {m m1 : ChatListModel}
    (hshow : m1.showHiddenChats = m.showHiddenChats)
    (hsub : ∀ c ∈ m1.chatList, c ∈ m.chatList) : KeepsShown m m1 := by
  intro h hoff c hc
  exact h (hshow ▸ hoff) c (hsub c hc)

theorem KeepsShown.emit_shown (m : ChatListModel) (s : Signal) : KeepsShown m (m.emit s) :=
  KeepsShown.of_subset_shown rfl (fun _ h => h)

theorem KeepsShown.hidden_shown (m : ChatListModel) (H : QHash Int ChatData) :
    KeepsShown m { m with hiddenChats := H } :=
  KeepsShown.of_subset_shown rfl (fun _ h => h)

theorem KeepsShown.set_shown (m : ChatListModel) {i : Nat} {c d : ChatData}
    (hc : m.chatList[i]? = some c)
    (hd : m.showHiddenChats = false → c.isHidden = false → d.isHidden = false) :
    KeepsShown m { m with chatList := m.chatList.set i d } := by
  intro h hoff x hx
  rcases List.mem_or_eq_of_mem_set hx with hx1 | hx1
  · exact h hoff x hx1
  · rw [hx1]
    exact hd hoff (h hoff c (List.getElem?_mem hc))

theorem KeepsShown.add_shown (td : TDLibWrapper) (m : ChatListModel) (chat : ChatData)
    (hd : m.showHiddenChats = false → chat.isHidden = false) :
    KeepsShown m (ChatListModel.addVisibleChat td m chat) := by
  intro h hoff x hx
  rw [addVisibleChat_showHiddenChats] at hoff
  rw [addVisibleChat_chatList] at hx
  rcases List.mem_cons.mp ((QList.insert_perm _ _ _).mem_iff.mp hx) with e | e
  · rw [e]
    exact hd hoff
  · exact h hoff x e

theorem KeepsShown.updateChatOrder_shown {m m1 : ChatListModel} {i j : Nat}
    (h : ChatListModel.updateChatOrder m i = some (m1, j)) : KeepsShown m m1 := by
  obtain ⟨_, hp, _, hs, _⟩ := updateChatOrder_some h
  exact KeepsShown.of_subset_shown hs (fun c hc => hp.mem_iff.mp hc)

theorem KeepsShown.reorder_shown {m m1 : ChatListModel} {i j : Nat} {changed : Bool}
    {chat : ChatData} (hc : m.chatList[i]? = some chat)
    (h : (if changed = true then ChatListModel.updateChatOrder m i else some (m, i))
      = some (m1, j)) :
    KeepsShown m m1 ∧ m1.chatList[j]? = some chat := by
  split_ifs at h
  · obtain ⟨_, _, _, _, hat⟩ := updateChatOrder_some h
    exact ⟨KeepsShown.updateChatOrder_shown h, by rw [hat, hc]⟩
  · simp only [Option.some.injEq, Prod.mk.injEq] at h
    obtain ⟨e1, e2⟩ := h
    subst e1 e2
    exact ⟨KeepsShown.refl_shown _, hc⟩

theorem QList.removeAt_set {α : Type} (l : List α) (i : Nat) (x : α) :
    QList.removeAt (l.set i x) i = QList.removeAt l i := by
  apply List.ext_getElem?
  intro p
  rw [QList.getElem?_removeAt, QList.getElem?_removeAt, List.getElem?_set, List.getElem?_set]
  split_ifs <;> first | rfl | omega

theorem QList.mem_of_mem_removeAt {α : Type} {l : List α} {i : Nat} {x : α}
    (h : x ∈ QList.removeAt l i) : x ∈ l := by
  rw [QList.removeAt_eq_eraseIdx] at h
  exact (List.eraseIdx_sublist l i).subset h

theorem hideLoop_showHiddenChats (group : Option TDLibWrapper.Group) :
    ∀ (rounds : Nat) (m : ChatListModel) (i : Nat),
      (ChatListModel.hideLoop group rounds m i).showHiddenChats = m.showHiddenChats := by
  intro rounds
  induction rounds with
  | zero => intro m i; rfl
  | succ r ih =>
    intro m i
    unfold ChatListModel.hideLoop
    by_cases hi : i < m.chatList.length
    · rw [dif_pos hi]
      dsimp only
      split_ifs <;> rw [ih] <;> rfl
    · rw [dif_neg hi]

/-- While "show all" is off, the first loop of `updateChatVisibility`, started at position `i`
with enough rounds and no entity classified hidden in front of `i`, leaves no entity classified
hidden in the visible sequence. -/
theorem hideLoop_noHidden (group : Option TDLibWrapper.Group) :
    ∀ (rounds : Nat) (m : ChatListModel) (i : Nat), m.chatList.length ≤ i + rounds →
      m.showHiddenChats = false →
      (∀ (p : Nat) (c : ChatData), p < i → m.chatList[p]? = some c → c.isHidden = false) →
      ∀ c ∈ (ChatListModel.hideLoop group rounds m i).chatList, c.isHidden = false := by
  intro rounds
  induction rounds with
  | zero =>
    intro m i hlen _ hfront c hc
    have hc1 : c ∈ m.chatList := hc
    obtain ⟨p, hp, e⟩ := List.mem_iff_getElem.mp hc1
    exact hfront p c (by omega) (by rw [List.getElem?_eq_getElem hp, e])
  | succ r ih =>
    intro m i hlen hoff hfront
    unfold ChatListModel.hideLoop
    by_cases hi : i < m.chatList.length
    · rw [dif_pos hi]
      dsimp only
      have hfront1 : ∀ (p : Nat) (c : ChatData), p < i →
          (m.chatList.set i ((m.chatList.get ⟨i, hi⟩).updateGroup group).1)[p]? = some c →
          c.isHidden = false := by
        intro p c hp hc
        rw [List.getElem?_set, if_neg (by omega)] at hc
        exact hfront p c hp hc
      have hnext : ¬ (((m.chatList.get ⟨i, hi⟩).updateGroup group).1.isHidden = true ∧
          ¬ m.showHiddenChats = true) →
          ∀ (p : Nat) (c : ChatData), p < i + 1 →
          (m.chatList.set i ((m.chatList.get ⟨i, hi⟩).updateGroup group).1)[p]? = some c →
          c.isHidden = false := by
        intro hcond p c hp hc
        by_cases hpi : p = i
        · subst hpi
          rw [List.getElem?_set, if_pos rfl, if_pos hi] at hc
          cases hc
          by_contra hne
          exact hcond ⟨by simpa using hne, by rw [hoff]; decide⟩
        · exact hfront1 p c (by omega) hc
      split_ifs with h1 h2
      · apply ih
        · show (QList.removeAt _ i).length ≤ i + r
          rw [QList.length_removeAt _ (by rw [List.length_set]; exact hi), List.length_set]
          omega
        · exact hoff
        · intro p c hp hc
          have hc1 : (QList.removeAt
              (m.chatList.set i ((m.chatList.get ⟨i, hi⟩).updateGroup group).1) i)[p]?
              = some c := hc
          rw [QList.getElem?_removeAt, if_pos hp] at hc1
          exact hfront1 p c hp hc1
      · apply ih
        · show (m.chatList.set i _).length ≤ i + 1 + r
          rw [List.length_set]
          omega
        · exact hoff
        · exact hnext h1
      · apply ih
        · show (m.chatList.set i _).length ≤ i + 1 + r
          rw [List.length_set]
          omega
        · exact hoff
        · exact hnext h1
    · rw [dif_neg hi]
      intro c hc
      obtain ⟨p, hp, e⟩ := List.mem_iff_getElem.mp hc
      exact hfront p c (by omega) (by rw [List.getElem?_eq_getElem hp, e])

theorem KeepsShown.showLoop_shown (td : TDLibWrapper) (group : Option TDLibWrapper.Group) :
    ∀ (chats : List ChatData) (m : ChatListModel),
      KeepsShown m (ChatListModel.showLoop td group chats m) := by
  intro chats
  induction chats with
  | nil => intro m; exact KeepsShown.refl_shown m
  | cons chat rest ih =>
    intro m
    unfold ChatListModel.showLoop
    dsimp only
    split_ifs with hvis
    · refine KeepsShown.trans_shown
        (KeepsShown.hidden_shown m
          (QHash.remove (QHash.assign m.hiddenChats chat.chatId (chat.updateGroup group).1)
            (chat.updateGroup group).1.chatId))
        (KeepsShown.trans_shown ?_ (ih _))
      apply KeepsShown.add_shown
      intro hoff
      rcases hvis with hv | hv
      · simpa using hv
      · rw [hoff] at hv
        cases hv
    · exact KeepsShown.trans_shown
        (KeepsShown.hidden_shown m
          (QHash.assign m.hiddenChats chat.chatId (chat.updateGroup group).1))
        (ih _)

/-- After `updateChatVisibility` no entity classified hidden is shown while "show all" is off,
whatever the state was before. -/
theorem noHiddenShown_updateChatVisibility (td : TDLibWrapper) (m : ChatListModel)
    (group : Option TDLibWrapper.Group) :
    NoHiddenShown (ChatListModel.updateChatVisibility td m group) := by
  unfold ChatListModel.updateChatVisibility
  dsimp only
  apply KeepsShown.showLoop_shown
  intro hoff
  rw [hideLoop_showHiddenChats] at hoff
  exact hideLoop_noHidden group m.chatList.length m 0 (by omega) hoff
    (fun p _ hp _ => absurd hp (by omega))

theorem KeepsShown.secretLoop_shown (td : TDLibWrapper) (details : QVariantMap) :
    ∀ (rounds : Nat) (m : ChatListModel) (i : Nat),
      KeepsShown m (ChatListModel.secretLoop td details rounds m i) := by
  intro rounds
  induction rounds with
  | zero => intro m i; exact KeepsShown.refl_shown m
  | succ r ih =>
    intro m i
    unfold ChatListModel.secretLoop
    by_cases hi : i < m.chatList.length
    · rw [dif_pos hi]
      have hc : m.chatList[i]? = some (m.chatList.get ⟨i, hi⟩) := List.getElem?_eq_getElem hi
      dsimp only
      split_ifs with h1 h2 h3 h4
      · exact ih _ _
      · exact ih _ _
      · refine KeepsShown.trans_shown ?_ (ih _ _)
        refine KeepsShown.of_subset_shown (by rfl) ?_
        intro c hc1
        have hc2 : c ∈ QList.removeAt
            (m.chatList.set i ((m.chatList.get ⟨i, hi⟩).updateSecretChat td details).1) i := hc1
        rw [QList.removeAt_set] at hc2
        exact QList.mem_of_mem_removeAt hc2
      · refine (KeepsShown.set_shown m hc ?_).trans_shown
          ((KeepsShown.emit_shown _ _).trans_shown (ih _ _))
        intro hoff _
        by_contra hne
        exact h3 ⟨by simpa using hne, by rw [hoff]; decide⟩
      · refine (KeepsShown.set_shown m hc ?_).trans_shown (ih _ _)
        intro hoff _
        by_contra hne
        exact h3 ⟨by simpa using hne, by rw [hoff]; decide⟩
    · rw [dif_neg hi]
      exact KeepsShown.refl_shown m


theorem isHidden_eq_of (d c : ChatData)
    (h1 : QHash.value d.chatData LAST_MESSAGE = QHash.value c.chatData LAST_MESSAGE)
    (h2 : d.chatType = c.chatType) (h3 : d.memberStatus = c.memberStatus)
    (h4 : d.secretChatState = c.secretChatState) : d.isHidden = c.isHidden := by
  unfold ChatData.isHidden
  rw [h1, h2, h3, h4]

theorem KeepsShown.discover_shown (td : TDLibWrapper) (m : ChatListModel) (chat : ChatData) :
    KeepsShown m
      (if chat.isHidden = true ∧ ¬ m.showHiddenChats = true then
        { m with hiddenChats := QHash.insert m.hiddenChats chat.chatId chat }
       else ChatListModel.addVisibleChat td m chat) := by
  split_ifs with hcond
  · exact KeepsShown.hidden_shown m _
  · apply KeepsShown.add_shown
    intro hoff
    by_contra hne
    exact hcond ⟨by simpa using hne, by rw [hoff]; decide⟩

theorem KeepsShown.handleChatDiscovered_shown (td : TDLibWrapper) (m : ChatListModel)
    (chatToBeAdded : QVariantMap) :
    KeepsShown m (ChatListModel.handleChatDiscovered td m chatToBeAdded) := by
  unfold ChatListModel.handleChatDiscovered
  dsimp only
  exact KeepsShown.discover_shown td m _

theorem KeepsShown.storeAttribute_shown {m m1 : ChatListModel} {chatId : Int} {key : String}
    {value : QVariant} {roles : Option (List Role)} (hkey : key ≠ LAST_MESSAGE)
    (h : ChatListModel.storeAttribute m chatId key value roles = some m1) :
    KeepsShown m m1 := by
  unfold ChatListModel.storeAttribute at h
  dsimp only at h
  split_ifs at h
  · cases hc : m.chatList[QHash.value m.chatIndexMap chatId]? with
    | none => rw [hc] at h; cases h
    | some chat =>
      rw [hc] at h
      have hset := KeepsShown.set_shown m hc
        (d := { chat with chatData := QHash.insert chat.chatData key value })
        (fun _ hh => by rw [isHidden_insert_of_ne chat value hkey]; exact hh)
      cases roles with
      | none =>
        simp only [Option.some.injEq] at h
        rw [← h]
        exact hset
      | some changedRoles =>
        simp only [Option.some.injEq] at h
        rw [← h]
        exact hset.trans_shown (KeepsShown.emit_shown _ _)
  · cases hf : QHash.find m.hiddenChats chatId with
    | none =>
      rw [hf] at h
      simp only [Option.some.injEq] at h
      rw [← h]
      exact KeepsShown.refl_shown m
    | some chat =>
      rw [hf] at h
      simp only [Option.some.injEq] at h
      rw [← h]
      exact KeepsShown.hidden_shown m _

theorem KeepsShown.handleChatLastMessageUpdated_shown {td : TDLibWrapper} {m m1 : ChatListModel}
    {id order : String} {lastMessage : QVariantMap}
    (h : ChatListModel.handleChatLastMessageUpdated td m id order lastMessage = some m1) :
    KeepsShown m m1 := by
  unfold ChatListModel.handleChatLastMessageUpdated at h
  generalize QString.toLongLong id = r at h
  obtain ⟨chatId, ok⟩ := r
  dsimp only at h
  split_ifs at h with hok hcontains
  · cases hc : m.chatList[QHash.value m.chatIndexMap chatId]? with
    | none => rw [hc] at h; cases h
    | some chat =>
      rw [hc] at h
      dsimp only at h
      have hset := KeepsShown.set_shown m hc (d := (chat.setOrder order).1)
        (fun _ hh => by rw [setOrder_isHidden]; exact hh)
      have hc1 := getElem?_set_self hc (chat.setOrder order).1
      split at h
      · cases h
      · rename_i m2 j hres
        obtain ⟨hsame, hat⟩ := KeepsShown.reorder_shown hc1 hres
        simp only [Option.some.injEq] at h
        rw [← h]
        refine hset.trans_shown (hsame.trans_shown ?_)
        exact (KeepsShown.set_shown m2 hat
          (fun _ hh => updateLastMessage_isHidden _ td lastMessage hh)).trans_shown
          ((KeepsShown.emit_shown _ _).trans_shown (KeepsShown.emit_shown _ _))
  · cases hf : QHash.find m.hiddenChats chatId with
    | none =>
      rw [hf] at h
      simp only [Option.some.injEq] at h
      rw [← h]
      exact KeepsShown.refl_shown m
    | some chat =>
      rw [hf] at h
      dsimp only at h
      split_ifs at h with hvis
      · simp only [Option.some.injEq] at h
        rw [← h]
        refine KeepsShown.trans_shown (KeepsShown.hidden_shown m _) (KeepsShown.add_shown td _ _ ?_)
        intro hoff
        rcases hvis with hv | hv
        · simpa using hv
        · have hoff1 : m.showHiddenChats = false := hoff
          rw [hoff1] at hv
          cases hv
      · simp only [Option.some.injEq] at h
        rw [← h]
        exact KeepsShown.hidden_shown m _
  · simp only [Option.some.injEq] at h
    rw [← h]
    exact KeepsShown.refl_shown m

theorem KeepsShown.handleChatOrderUpdated_shown {m m1 : ChatListModel} {id order : String}
    (h : ChatListModel.handleChatOrderUpdated m id order = some m1) : KeepsShown m m1 := by
  unfold ChatListModel.handleChatOrderUpdated at h
  generalize QString.toLongLong id = r at h
  obtain ⟨chatId, ok⟩ := r
  dsimp only at h
  split_ifs at h with hok hcontains
  · cases hc : m.chatList[QHash.value m.chatIndexMap chatId]? with
    | none => rw [hc] at h; cases h
    | some chat =>
      rw [hc] at h
      dsimp only at h
      have hset := KeepsShown.set_shown m hc (d := (chat.setOrder order).1)
        (fun _ hh => by rw [setOrder_isHidden]; exact hh)
      split_ifs at h
      · obtain ⟨res, hres, e⟩ := Option.map_eq_some'.mp h
        obtain ⟨m2, j⟩ := res
        dsimp only at e
        subst e
        exact hset.trans_shown (KeepsShown.updateChatOrder_shown hres)
      · simp only [Option.some.injEq] at h
        rw [← h]
        exact hset
  · cases hf : QHash.find m.hiddenChats chatId with
    | none =>
      rw [hf] at h
      simp only [Option.some.injEq] at h
      rw [← h]
      exact KeepsShown.refl_shown m
    | some chat =>
      rw [hf] at h
      simp only [Option.some.injEq] at h
      rw [← h]
      exact KeepsShown.hidden_shown m _
  · simp only [Option.some.injEq] at h
    rw [← h]
    exact KeepsShown.refl_shown m

theorem KeepsShown.calculateUnreadState_shown (appSettings : AppSettings) (m : ChatListModel) :
    KeepsShown m (ChatListModel.calculateUnreadState appSettings m) := by
  unfold ChatListModel.calculateUnreadState
  split_ifs
  · exact KeepsShown.emit_shown _ _
  · exact KeepsShown.refl_shown m

theorem KeepsShown.handleChatReadInboxUpdated_shown {appSettings : AppSettings}
    {m m1 : ChatListModel} {id lastReadInboxMessageId : String} {unreadCount : Int}
    (h : ChatListModel.handleChatReadInboxUpdated appSettings m id lastReadInboxMessageId
      unreadCount = some m1) : KeepsShown m m1 := by
  unfold ChatListModel.handleChatReadInboxUpdated at h
  generalize QString.toLongLong id = r at h
  obtain ⟨chatId, ok⟩ := r
  dsimp only at h
  split_ifs at h with hok hcontains
  · cases hc : m.chatList[QHash.value m.chatIndexMap chatId]? with
    | none => rw [hc] at h; cases h
    | some chat =>
      rw [hc] at h
      simp only [Option.some.injEq] at h
      rw [← h]
      refine (KeepsShown.set_shown m hc ?_).trans_shown
        ((KeepsShown.emit_shown _ _).trans_shown (KeepsShown.calculateUnreadState_shown _ _))
      intro _ hh
      have e : ((chat.updateUnreadCount unreadCount).1.updateLastReadInboxMessageId
          (QString.toLongLong lastReadInboxMessageId).1).1.isHidden = chat.isHidden := by
        apply isHidden_eq_of
        · show QHash.value (QHash.insert (QHash.insert chat.chatData UNREAD_COUNT _)
            LAST_READ_INBOX_MESSAGE_ID _) LAST_MESSAGE = _
          rw [QHash.value_insert_of_ne _ _ (by decide),
            QHash.value_insert_of_ne _ _ (by decide)]
        · rfl
        · rfl
        · rfl
      rw [e]
      exact hh
  · cases hf : QHash.find m.hiddenChats chatId with
    | none =>
      rw [hf] at h
      simp only [Option.some.injEq] at h
      rw [← h]
      exact KeepsShown.refl_shown m
    | some chat =>
      rw [hf] at h
      simp only [Option.some.injEq] at h
      rw [← h]
      exact KeepsShown.hidden_shown m _
  · simp only [Option.some.injEq] at h
    rw [← h]
    exact KeepsShown.refl_shown m

theorem KeepsShown.handleMessageSendSucceeded_shown {td : TDLibWrapper} {m m1 : ChatListModel}
    {message : QVariantMap}
    (h : ChatListModel.handleMessageSendSucceeded td m message = some m1) :
    KeepsShown m m1 := by
  unfold ChatListModel.handleMessageSendSucceeded at h
  generalize (QHash.value message CHAT_ID).toLongLongOk = r at h
  obtain ⟨chatId, ok⟩ := r
  dsimp only at h
  split_ifs at h with hok hcontains
  · cases hc : m.chatList[QHash.value m.chatIndexMap chatId]? with
    | none => rw [hc] at h; cases h
    | some chat =>
      rw [hc] at h
      simp only [Option.some.injEq] at h
      rw [← h]
      exact (KeepsShown.set_shown m hc
        (fun _ hh => updateLastMessage_isHidden chat td message hh)).trans_shown
        (KeepsShown.emit_shown _ _)
  · cases hf : QHash.find m.hiddenChats chatId with
    | none =>
      rw [hf] at h
      simp only [Option.some.injEq] at h
      rw [← h]
      exact KeepsShown.refl_shown m
    | some chat =>
      rw [hf] at h
      simp only [Option.some.injEq] at h
      rw [← h]
      exact KeepsShown.hidden_shown m _
  · simp only [Option.some.injEq] at h
    rw [← h]
    exact KeepsShown.refl_shown m

theorem KeepsShown.handleChatDraftMessageUpdated_shown {m m1 : ChatListModel} {chatId : Int}
    {draftMessage : QVariantMap} {order : String}
    (h : ChatListModel.handleChatDraftMessageUpdated m chatId draftMessage order = some m1) :
    KeepsShown m m1 := by
  unfold ChatListModel.handleChatDraftMessageUpdated at h
  dsimp only at h
  split_ifs at h with hcontains
  · cases hc : m.chatList[QHash.value m.chatIndexMap chatId]? with
    | none => rw [hc] at h; cases h
    | some chat =>
      rw [hc] at h
      dsimp only at h
      have hset := KeepsShown.set_shown m hc
        (d := { chat with
          chatData := QHash.insert chat.chatData DRAFT_MESSAGE (.map draftMessage) })
        (fun _ hh => by rw [isHidden_insert_of_ne chat _ (by decide)]; exact hh)
      have hc1 := getElem?_set_self hc
        { chat with chatData := QHash.insert chat.chatData DRAFT_MESSAGE (.map draftMessage) }
      split_ifs at h
      · obtain ⟨res, hres, e⟩ := Option.map_eq_some'.mp h
        obtain ⟨m2, j⟩ := res
        · dsimp only at e
          subst e
          refine KeepsShown.trans_shown ?_ (KeepsShown.updateChatOrder_shown hres)
          exact hset.trans_shown ((KeepsShown.emit_shown _ _).trans_shown
            (KeepsShown.set_shown _ hc1 (fun _ hh => by rw [setOrder_isHidden]; exact hh)))
      · simp only [Option.some.injEq] at h
        rw [← h]
        exact hset.trans_shown ((KeepsShown.emit_shown _ _).trans_shown
          (KeepsShown.set_shown _ hc1 (fun _ hh => by rw [setOrder_isHidden]; exact hh)))
  · simp only [Option.some.injEq] at h
    rw [← h]
    exact KeepsShown.refl_shown m

theorem KeepsShown.setShowAllChats_shown (td : TDLibWrapper) (m : ChatListModel) (showAll : Bool) :
    KeepsShown m (ChatListModel.setShowAllChats td m showAll) := by
  unfold ChatListModel.setShowAllChats
  split_ifs
  · intro _
    exact KeepsShown.emit_shown _ _ (noHiddenShown_updateChatVisibility td _ none)
  · exact KeepsShown.refl_shown m

/-- Every event keeps the property that no entity classified hidden is shown while "show all"
is off. -/
theorem KeepsShown.step_shown {env : Collaborators} {m m1 : ChatListModel} {e : Event}
    (h : step env m e = some m1) : KeepsShown m m1 := by
  cases e with
  | newChatDiscovered chatId chatInformation =>
    simp only [Fernschreiber.step, Option.some.injEq] at h
    rw [← h]
    exact KeepsShown.handleChatDiscovered_shown _ _ _
  | chatLastMessageUpdated chatId order lastMessage =>
    exact KeepsShown.handleChatLastMessageUpdated_shown h
  | chatOrderUpdated chatId order => exact KeepsShown.handleChatOrderUpdated_shown h
  | chatReadInboxUpdated chatId lastReadInboxMessageId unreadCount =>
    exact KeepsShown.handleChatReadInboxUpdated_shown h
  | chatReadOutboxUpdated chatId lastReadOutboxMessageId =>
    simp only [Fernschreiber.step, ChatListModel.handleChatReadOutboxUpdated] at h
    split_ifs at h
    · exact KeepsShown.storeAttribute_shown (by decide) h
    · cases h; exact KeepsShown.refl_shown m
  | chatPhotoUpdated chatId photo =>
    simp only [Fernschreiber.step, ChatListModel.handleChatPhotoUpdated,
      ChatListModel.handleChatPinnedMessageUpdated, ChatListModel.handleChatTitleUpdated,
      ChatListModel.handleChatIsMarkedAsUnreadUpdated, ChatListModel.handleChatPinnedUpdated,
      ChatListModel.handleChatUnreadMentionCountUpdated,
      ChatListModel.handleChatUnreadReactionCountUpdated,
      ChatListModel.handleChatAvailableReactionsUpdated] at h
    exact KeepsShown.storeAttribute_shown (by decide) h
  | chatPinnedMessageUpdated chatId pinnedMessageId =>
    simp only [Fernschreiber.step, ChatListModel.handleChatPhotoUpdated,
      ChatListModel.handleChatPinnedMessageUpdated, ChatListModel.handleChatTitleUpdated,
      ChatListModel.handleChatIsMarkedAsUnreadUpdated, ChatListModel.handleChatPinnedUpdated,
      ChatListModel.handleChatUnreadMentionCountUpdated,
      ChatListModel.handleChatUnreadReactionCountUpdated,
      ChatListModel.handleChatAvailableReactionsUpdated] at h
    exact KeepsShown.storeAttribute_shown (by decide) h
  | messageSendSucceeded messageId oldMessageId message =>
    exact KeepsShown.handleMessageSendSucceeded_shown h
  | chatNotificationSettingsUpdated chatId chatNotificationSettings =>
    simp only [Fernschreiber.step, ChatListModel.handleChatNotificationSettingsUpdated] at h
    split_ifs at h
    · exact KeepsShown.storeAttribute_shown (by decide) h
    · cases h; exact KeepsShown.refl_shown m
  | superGroupUpdated groupId =>
    simp only [Fernschreiber.step, Option.some.injEq] at h
    rw [← h]
    exact fun _ => noHiddenShown_updateChatVisibility _ _ _
  | basicGroupUpdated groupId =>
    simp only [Fernschreiber.step, Option.some.injEq] at h
    rw [← h]
    exact fun _ => noHiddenShown_updateChatVisibility _ _ _
  | secretChatUpdated secretChatId secretChat =>
    simp only [Fernschreiber.step, Option.some.injEq] at h
    rw [← h]
    exact KeepsShown.secretLoop_shown _ _ _ _ _
  | secretChatReceived secretChatId secretChat =>
    simp only [Fernschreiber.step, Option.some.injEq] at h
    rw [← h]
    exact KeepsShown.secretLoop_shown _ _ _ _ _
  | chatTitleUpdated chatId title =>
    simp only [Fernschreiber.step, ChatListModel.handleChatPhotoUpdated,
      ChatListModel.handleChatPinnedMessageUpdated, ChatListModel.handleChatTitleUpdated,
      ChatListModel.handleChatIsMarkedAsUnreadUpdated, ChatListModel.handleChatPinnedUpdated,
      ChatListModel.handleChatUnreadMentionCountUpdated,
      ChatListModel.handleChatUnreadReactionCountUpdated,
      ChatListModel.handleChatAvailableReactionsUpdated] at h
    exact KeepsShown.storeAttribute_shown (by decide) h
  | chatIsMarkedAsUnreadUpdated chatId chatIsMarkedAsUnread =>
    simp only [Fernschreiber.step, ChatListModel.handleChatPhotoUpdated,
      ChatListModel.handleChatPinnedMessageUpdated, ChatListModel.handleChatTitleUpdated,
      ChatListModel.handleChatIsMarkedAsUnreadUpdated, ChatListModel.handleChatPinnedUpdated,
      ChatListModel.handleChatUnreadMentionCountUpdated,
      ChatListModel.handleChatUnreadReactionCountUpdated,
      ChatListModel.handleChatAvailableReactionsUpdated] at h
    exact KeepsShown.storeAttribute_shown (by decide) h
  | chatPinnedUpdated chatId chatIsPinned =>
    simp only [Fernschreiber.step, ChatListModel.handleChatPhotoUpdated,
      ChatListModel.handleChatPinnedMessageUpdated, ChatListModel.handleChatTitleUpdated,
      ChatListModel.handleChatIsMarkedAsUnreadUpdated, ChatListModel.handleChatPinnedUpdated,
      ChatListModel.handleChatUnreadMentionCountUpdated,
      ChatListModel.handleChatUnreadReactionCountUpdated,
      ChatListModel.handleChatAvailableReactionsUpdated] at h
    exact KeepsShown.storeAttribute_shown (by decide) h
  | chatDraftMessageUpdated chatId draftMessage order =>
    exact KeepsShown.handleChatDraftMessageUpdated_shown h
  | chatUnreadMentionCountUpdated chatId unreadMentionCount =>
    simp only [Fernschreiber.step, ChatListModel.handleChatPhotoUpdated,
      ChatListModel.handleChatPinnedMessageUpdated, ChatListModel.handleChatTitleUpdated,
      ChatListModel.handleChatIsMarkedAsUnreadUpdated, ChatListModel.handleChatPinnedUpdated,
      ChatListModel.handleChatUnreadMentionCountUpdated,
      ChatListModel.handleChatUnreadReactionCountUpdated,
      ChatListModel.handleChatAvailableReactionsUpdated] at h
    exact KeepsShown.storeAttribute_shown (by decide) h
  | chatUnreadReactionCountUpdated chatId unreadReactionCount =>
    simp only [Fernschreiber.step, ChatListModel.handleChatPhotoUpdated,
      ChatListModel.handleChatPinnedMessageUpdated, ChatListModel.handleChatTitleUpdated,
      ChatListModel.handleChatIsMarkedAsUnreadUpdated, ChatListModel.handleChatPinnedUpdated,
      ChatListModel.handleChatUnreadMentionCountUpdated,
      ChatListModel.handleChatUnreadReactionCountUpdated,
      ChatListModel.handleChatAvailableReactionsUpdated] at h
    exact KeepsShown.storeAttribute_shown (by decide) h
  | chatAvailableReactionsUpdated chatId availableReactions =>
    simp only [Fernschreiber.step, ChatListModel.handleChatPhotoUpdated,
      ChatListModel.handleChatPinnedMessageUpdated, ChatListModel.handleChatTitleUpdated,
      ChatListModel.handleChatIsMarkedAsUnreadUpdated, ChatListModel.handleChatPinnedUpdated,
      ChatListModel.handleChatUnreadMentionCountUpdated,
      ChatListModel.handleChatUnreadReactionCountUpdated,
      ChatListModel.handleChatAvailableReactionsUpdated] at h
    exact KeepsShown.storeAttribute_shown (by decide) h
  | chatFolders foldersInformation mainChatlistPosition =>
    simp only [Fernschreiber.step, Option.some.injEq] at h
    rw [← h]
    exact KeepsShown.of_subset_shown rfl (fun _ hc => hc)
  | chatFolder chatFolderInformation =>
    simp only [Fernschreiber.step, Option.some.injEq] at h
    rw [← h]
    exact KeepsShown.of_subset_shown rfl (fun _ hc => hc)
  | timeout =>
    simp only [Fernschreiber.step, Option.some.injEq] at h
    rw [← h]
    exact KeepsShown.emit_shown _ _
  | setShowAllChats showAll =>
    simp only [Fernschreiber.step, Option.some.injEq] at h
    rw [← h]
    exact KeepsShown.setShowAllChats_shown _ _ _

theorem noHiddenShown_run :
    ∀ (events : List (Collaborators × Event)) (m m1 : ChatListModel),
      NoHiddenShown m → run m events = some m1 → NoHiddenShown m1 := by
  intro events
  induction events with
  | nil =>
    intro m m1 hm hrun
    simp only [run, Option.some.injEq] at hrun
    subst hrun
    exact hm
  | cons ev rest ih =>
    intro m m1 hm hrun
    obtain ⟨env, e⟩ := ev
    unfold run at hrun
    cases hstep : step env m e with
    | none => rw [hstep] at hrun; cases hrun
    | some m2 =>
      rw [hstep] at hrun
      exact ih m2 m1 (KeepsShown.step_shown hstep hm) hrun

/-- C37. No entity classified hidden is shown while "show all" is off: in every state that a
sequence of backend events and "show all" toggles in which each identity is discovered at most
once leads to from the empty model, if "show all" is off then `isHidden` is false for every
entity of the visible sequence. -/
theorem no_hidden_entity_shown (events : List (Collaborators × Event)) (m : ChatListModel)
    (_honce : (discoveredIds events).Nodup) (hrun : run ChatListModel.empty events = some m)
    (hoff : m.showHiddenChats = false) :
    ∀ c ∈ m.chatList, c.isHidden = false :=
  noHiddenShown_run events ChatListModel.empty m (fun _ _ hc => by cases hc) hrun hoff

/-- C37, at the events in which a private chat and a supergroup chat without a last message are
discovered, the latter while "show all" is on, and the toggle is switched off at the end. -/
theorem no_hidden_entity_shown_witness :
    ∃ m : ChatListModel, run ChatListModel.empty groupShownThenHiddenEvents = some m ∧
      m.showHiddenChats = false ∧ chatIds m.chatList = [2] ∧
      ∀ c ∈ m.chatList, c.isHidden = false :=
  ⟨_, rfl, by decide, by decide,
    no_hidden_entity_shown groupShownThenHiddenEvents _ (by decide) rfl (by decide)⟩


/-! ## The attribute bag of a cloned entity -/

theorem find_clone_loop (H : QVariantMap) (k : String) :
    ∀ (ks : List String) (acc : QVariantMap),
      QHash.find (ks.foldl (fun cloned key => QHash.insert cloned key (QHash.value H key)) acc) k
        = if k ∈ ks then some (QHash.value H k) else QHash.find acc k := by
  intro ks
  induction ks with
  | nil => intro acc; rfl
  | cons x ks ih =>
    intro acc
    rw [List.foldl_cons, ih]
    by_cases hk : k ∈ ks
    · rw [if_pos hk, if_pos (List.mem_cons_of_mem _ hk)]
    · rw [if_neg hk]
      by_cases hx : k = x
      · subst hx
        rw [QHash.find_insert_self, if_pos (List.mem_cons_self _ _)]
      · rw [QHash.find_insert_of_ne _ _ hx, if_neg (by
          intro h
          rcases List.mem_cons.mp h with e | e
          · exact hx e
          · exact hk e)]

/-- The attribute bag of the clone of an entity holds the same value under every key as the
one of the original. -/
theorem clone_chatData_find (c : ChatData) (td : TDLibWrapper) (k : String) :
    QHash.find (c.clone td).chatData k = QHash.find c.chatData k := by
  show QHash.find ((QHash.keys c.chatData).foldl
    (fun cloned key => QHash.insert cloned key (QHash.value c.chatData key)) []) k = _
  rw [find_clone_loop]
  have hiff := QHash.contains_iff_mem_keys c.chatData k
  unfold QHash.contains at hiff
  unfold QHash.value
  cases hf : QHash.find c.chatData k with
  | none =>
    rw [hf] at hiff
    rw [if_neg (fun h => by cases hiff.mpr h)]
    rfl
  | some v =>
    rw [hf] at hiff
    rw [if_pos (hiff.mp rfl)]
    rfl

end Fernschreiber
